import Mathlib

/-!
# smoke3D: boundary enforcement, projection and trilinear sampling

A shallow embedding of `src/smoke3D.cpp` (`init`, `enforce_boundary`, `project`)
and of `interp` from `src/render.cpp`.

Modelling conventions.
* `FLOAT` values are exact rationals (`ℚ`). Rounding is modelled only in the
  `_fl` variants of the two loops of `project`, which take the rounding of
  `FLOAT` as a parameter (`roundFloat` for `float` and `double`).
* C `int` indices are integers (`ℤ`); a 3-D array is a total function of three
  indices, its allocated extent is the sub-box named in the comments.
* The grid resolution `N` of the source (a preprocessor constant, 32) is a
  parameter `n` of every operation; `N` below is the configured value.
* A `for` sweep is a left fold of its body over the list of visited indices.
-/

namespace Smoke3D

/-! ## Configuration constants (`smoke3D.cpp`, lines 18-21) -/

/-- Grid resolution, `#define N 32`. -/
def N : ℕ := 32

/-- Run length, `#define LIMIT 100`. -/
def LIMIT : ℤ := 100

/-- Obstacle radius, `#define SPHERE_R 0.2`. -/
def SPHERE_R : ℚ := 2 / 10

/-! ## Data model -/

/-- Index triple `(i, j, k)`. -/
abbrev Idx := ℤ × ℤ × ℤ

/-- A 3-D array `FLOAT ***`, read as `g i j k`. -/
abbrev Grid := ℤ → ℤ → ℤ → ℚ

/-- The assignment `g[i][j][k] = v`. -/
def Grid.set (g : Grid) (i j k : ℤ) (v : ℚ) : Grid :=
  fun a b c => if a = i ∧ b = j ∧ c = k then v else g a b c

/-- The all-zero array. -/
def Grid.zero : Grid := fun _ _ _ => 0

/-- The global simulation state of `smoke3D.cpp`: the staggered velocity
`u[0]`, `u[1]`, `u[2]`, the obstacle mask `b`, the density `c` and `frame`. -/
@[ext]
structure State where
  u0 : Grid
  u1 : Grid
  u2 : Grid
  b : Grid
  c : Grid
  frame : ℤ

/-- Modelled from the spec: `utility.h` with the iteration macros is missing;
this is the index box `[0,a) x [0,b) x [0,c)` that the four canonical
iteration domains are instances of, visited in lexicographic order. -/
def box (a b c : ℕ) : List Idx :=
  List.product (Int.range 0 a) (List.product (Int.range 0 b) (Int.range 0 c))

/-- Modelled from the spec: the x-face range of `FOR_EVERY_X_FLOW`, extent
`(N+1, N, N)`. -/
def FOR_EVERY_X_FLOW (n : ℕ) : List Idx := box (n + 1) n n

/-- Modelled from the spec: the y-face range of `FOR_EVERY_Y_FLOW`, extent
`(N, N+1, N)`. -/
def FOR_EVERY_Y_FLOW (n : ℕ) : List Idx := box n (n + 1) n

/-- Modelled from the spec: the z-face range of `FOR_EVERY_Z_FLOW`, extent
`(N, N, N+1)`. -/
def FOR_EVERY_Z_FLOW (n : ℕ) : List Idx := box n n (n + 1)

/-- Modelled from the spec: the cell-centre range of `FOR_EVERY_CELL`, extent
`(N, N, N)`. -/
def FOR_EVERY_CELL (n : ℕ) : List Idx := box n n n

/-- The libm test `hypot(i,j) < w` on integers, by the real-number meaning
of `hypot`: the Euclidean norm is below `w`. -/
def hypot2_lt (i j w : ℤ) : Prop := 0 < w ∧ i * i + j * j < w * w

instance (i j w : ℤ) : Decidable (hypot2_lt i j w) := by
  unfold hypot2_lt; infer_instance

/-- The libm test `hypot(hypot(i,j),k) < w` on integers. -/
def hypot3_lt (i j k w : ℤ) : Prop := 0 < w ∧ i * i + j * j + k * k < w * w

instance (i j k w : ℤ) : Decidable (hypot3_lt i j k w) := by
  unfold hypot3_lt; infer_instance

/-! ## `smoke3D::init` (`smoke3D.cpp`, lines 28-63) -/

/-- The C cast `(int)x`: truncation toward zero. -/
def castInt (x : ℚ) : ℤ := if 0 ≤ x then ⌊x⌋ else ⌈x⌉

/-- Modelled from the spec: `alloc3D` (declared in the missing `utility.h`)
"allocates zero-initialized 3-D scalar fields"; the state right after the five
allocations of lines 30-34, with the global `frame = 0`. -/
def allocated : State :=
  { u0 := Grid.zero, u1 := Grid.zero, u2 := Grid.zero, b := Grid.zero, c := Grid.zero,
    frame := 0 }

/-- Line 37: `u[0][i][j][k] = 0.0;`. -/
def clearX (s : State) (x : Idx) : State := { s with u0 := s.u0.set x.1 x.2.1 x.2.2 0 }

/-- Line 41: `u[1][i][j][k] = 0.0;`. -/
def clearY (s : State) (x : Idx) : State := { s with u1 := s.u1.set x.1 x.2.1 x.2.2 0 }

/-- Line 45: `u[2][i][j][k] = 0.0;`. -/
def clearZ (s : State) (x : Idx) : State := { s with u2 := s.u2.set x.1 x.2.1 x.2.2 0 }

/-- Lines 53-55: the body of the sphere-marking loops at offset `(i, j, k)`. -/
def sphereCell (n : ℕ) (w : ℤ) (s : State) (x : Idx) : State :=
  if hypot3_lt x.1 x.2.1 x.2.2 w then
    { s with
      b := s.b.set (x.1 + ((n / 2 : ℕ) : ℤ)) (x.2.1 + ((n / 2 : ℕ) : ℤ)) (x.2.2 + ((n / 2 : ℕ) : ℤ)) 1 }
  else s

/-- Line 49: `int w = SPHERE_R*N;`. -/
def sphereW (n : ℕ) : ℤ := castInt (SPHERE_R * (n : ℚ))

/-- The offsets visited by the three loops of lines 50-52. -/
def sphereOffsets (w : ℤ) : List Idx :=
  List.product (Int.range (-w) (w + 1))
    (List.product (Int.range (-w) (w + 1)) (Int.range (-w) (w + 1)))

/-- The function `smoke3D::init`. -/
def init (n : ℕ) : State :=
  (sphereOffsets (sphereW n)).foldl (sphereCell n (sphereW n))
    ((FOR_EVERY_Z_FLOW n).foldl clearZ
      ((FOR_EVERY_Y_FLOW n).foldl clearY
        ((FOR_EVERY_X_FLOW n).foldl clearX allocated)))

/-! ## `enforce_boundary` (`smoke3D.cpp`, lines 65-108) -/

/-- Line 68: `if( i==0 || i==N ) u[0][i][j][k] = 0.0;`. -/
def wallX (n : ℕ) (s : State) (x : Idx) : State :=
  if x.1 = 0 ∨ x.1 = n then { s with u0 := s.u0.set x.1 x.2.1 x.2.2 0 } else s

/-- Line 72: `if( j==0 || j==N ) u[1][i][j][k] = 0.0;`. -/
def wallY (n : ℕ) (s : State) (x : Idx) : State :=
  if x.2.1 = 0 ∨ x.2.1 = n then { s with u1 := s.u1.set x.1 x.2.1 x.2.2 0 } else s

/-- Line 76: `if( k==0 || k==N ) u[2][i][j][k] = 0.0;`. -/
def wallZ (n : ℕ) (s : State) (x : Idx) : State :=
  if x.2.2 = 0 ∨ x.2.2 = n then { s with u2 := s.u2.set x.1 x.2.1 x.2.2 0 } else s

/-- Lines 86-87, the body of the innermost nozzle loop at horizontal offset
`(i, j)` and layer counter `k`. -/
def nozzleCell (n : ℕ) (ij : ℤ × ℤ) (s : State) (k : ℤ) : State :=
  { s with
    u1 := s.u1.set (((n / 2 : ℕ) : ℤ) + ij.1) (k + 1) (((n / 2 : ℕ) : ℤ) + ij.2) 0
    c := s.c.set (((n / 2 : ℕ) : ℤ) + ij.1) (k + 1) (((n / 2 : ℕ) : ℤ) + ij.2) 1 }

/-- Lines 84-89: the body of the `(i, j)` loops of the nozzle. -/
def nozzleColumn (n : ℕ) (s : State) (ij : ℤ × ℤ) : State :=
  if hypot2_lt ij.1 ij.2 ((n / 7 : ℕ) : ℤ) then
    (Int.range 0 6).foldl (nozzleCell n ij) s
  else s

/-- Lines 80-92: smoke injection while `frame < LIMIT/2`. -/
def inject (n : ℕ) (s : State) : State :=
  if s.frame < LIMIT / 2 then
    (List.product (Int.range (-((n / 7 : ℕ) : ℤ)) (((n / 7 : ℕ) : ℤ) + 1))
      (Int.range (-((n / 7 : ℕ) : ℤ)) (((n / 7 : ℕ) : ℤ) + 1))).foldl (nozzleColumn n) s
  else s

/-- Lines 96-101: the body of the obstacle sweep. -/
def obstacleCell (s : State) (x : Idx) : State :=
  if s.b x.1 x.2.1 x.2.2 ≠ 0 then
    { s with
      c := s.c.set x.1 x.2.1 x.2.2 0
      u0 := (s.u0.set (x.1 + 1) x.2.1 x.2.2 0).set x.1 x.2.1 x.2.2 0
      u1 := (s.u1.set x.1 (x.2.1 + 1) x.2.2 0).set x.1 x.2.1 x.2.2 0
      u2 := (s.u2.set x.1 x.2.1 (x.2.2 + 1) 0).set x.1 x.2.1 x.2.2 0 }
  else s

/-- Line 106: `u[1][i][j][k] += 0.1*c[i][j][k];`. -/
def buoyancyCell (s : State) (x : Idx) : State :=
  { s with
    u1 := s.u1.set x.1 x.2.1 x.2.2 (s.u1 x.1 x.2.1 x.2.2 + (1 / 10) * s.c x.1 x.2.1 x.2.2) }

/-- The wall sweeps, lines 67-77. -/
def enforce_walls (n : ℕ) (s : State) : State :=
  (FOR_EVERY_Z_FLOW n).foldl (wallZ n)
    ((FOR_EVERY_Y_FLOW n).foldl (wallY n)
      ((FOR_EVERY_X_FLOW n).foldl (wallX n) s))

/-- The obstacle sweep, lines 95-102. -/
def enforce_obstacle (n : ℕ) (s : State) : State :=
  (FOR_EVERY_CELL n).foldl obstacleCell s

/-- The buoyancy sweep, lines 105-107. -/
def enforce_buoyancy (n : ℕ) (s : State) : State :=
  (FOR_EVERY_CELL n).foldl buoyancyCell s

/-- The function `enforce_boundary`: walls, injection, obstacle, buoyancy. -/
def enforce_boundary (n : ℕ) (s : State) : State :=
  enforce_buoyancy n (enforce_obstacle n (inject n (enforce_walls n s)))

/-! ## `project` (`smoke3D.cpp`, lines 110-134) -/

/-- Line 112: the cell width `h = 1.0/N`. -/
def cellWidth (n : ℕ) : ℚ := 1 / (n : ℚ)

/-- Lines 120-122: the divergence stored for cell `x`. -/
def divergenceAt (n : ℕ) (s : State) (i j k : ℤ) : ℚ :=
  (s.u0 (i + 1) j k - s.u0 i j k + s.u1 i (j + 1) k - s.u1 i j k +
    s.u2 i j (k + 1) - s.u2 i j k) / cellWidth n

/-- Lines 120-122: the body of the divergence sweep, writing `div[i][j][k]`. -/
def divergenceCell (n : ℕ) (s : State) (div : Grid) (x : Idx) : Grid :=
  div.set x.1 x.2.1 x.2.2 (divergenceAt n s x.1 x.2.1 x.2.2)

/-- Lines 119-123: the divergence sweep, filling the static array `div`. -/
def project_divergence (n : ℕ) (s : State) (div : Grid) : Grid :=
  (FOR_EVERY_CELL n).foldl (divergenceCell n s) div

/-- Line 130: `if( i>0 && i<N ) u[0][i][j][k] -= (p[i][j][k]-p[i-1][j][k])/h;`. -/
def subtractX (n : ℕ) (p : Grid) (s : State) (x : Idx) : State :=
  if 0 < x.1 ∧ x.1 < n then
    { s with
      u0 := s.u0.set x.1 x.2.1 x.2.2
        (s.u0 x.1 x.2.1 x.2.2 - (p x.1 x.2.1 x.2.2 - p (x.1 - 1) x.2.1 x.2.2) / cellWidth n) }
  else s

/-- Line 131: `if( j>0 && j<N ) u[1][i][j][k] -= (p[i][j][k]-p[i][j-1][k])/h;`. -/
def subtractY (n : ℕ) (p : Grid) (s : State) (x : Idx) : State :=
  if 0 < x.2.1 ∧ x.2.1 < n then
    { s with
      u1 := s.u1.set x.1 x.2.1 x.2.2
        (s.u1 x.1 x.2.1 x.2.2 - (p x.1 x.2.1 x.2.2 - p x.1 (x.2.1 - 1) x.2.2) / cellWidth n) }
  else s

/-- Line 132: `if( k>0 && k<N ) u[2][i][j][k] -= (p[i][j][k]-p[i][j][k-1])/h;`. -/
def subtractZ (n : ℕ) (p : Grid) (s : State) (x : Idx) : State :=
  if 0 < x.2.2 ∧ x.2.2 < n then
    { s with
      u2 := s.u2.set x.1 x.2.1 x.2.2
        (s.u2 x.1 x.2.1 x.2.2 - (p x.1 x.2.1 x.2.2 - p x.1 x.2.1 (x.2.2 - 1)) / cellWidth n) }
  else s

/-- Lines 130-132: the body of the gradient-subtraction sweep. -/
def subtractCell (n : ℕ) (p : Grid) (s : State) (x : Idx) : State :=
  subtractZ n p (subtractY n p (subtractX n p s x) x) x

/-- Lines 129-133: the gradient-subtraction sweep for the pressure `p`. -/
def project_subtract (n : ℕ) (p : Grid) (s : State) : State :=
  (FOR_EVERY_CELL n).foldl (subtractCell n p) s

/-- The function `project`. The body of `solver::solve` is not part of the
sources (only its declaration in `solver.h`), so it is the parameter `solve`:
it receives the static pressure array, the divergence, the mask and `N` and
yields the pressure array it leaves behind. `div0` and `p0` are the contents
of the static arrays `div` and `p` on entry. -/
def project (solve : Grid → Grid → Grid → ℕ → Grid) (n : ℕ) (div0 p0 : Grid)
    (s : State) : State :=
  project_subtract n (solve p0 (project_divergence n s div0) s.b n) s

/-! ## `interp` (`render.cpp`, lines 25-40) -/

/-- Lines 30-32, first half: `if (x<0.0) x=0.0; if (x>width) x=width;`. -/
def clampCoord (extent : ℤ) (x : ℚ) : ℚ :=
  let x1 := if x < 0 then 0 else x
  if x1 > (extent : ℚ) then (extent : ℚ) else x1

/-- Lines 30-32, second half: `i0 = min(width-2,(int)x)` on the clamped
coordinate. -/
def lowerIndex (extent : ℤ) (x : ℚ) : ℤ := min (extent - 2) (castInt (clampCoord extent x))

/-- The function `interp`: trilinear interpolation of `d` at `(x, y, z)`. -/
def interp (d : Grid) (width height depth : ℤ) (x y z : ℚ) : ℚ :=
  let i0 := lowerIndex width x
  let i1 := i0 + 1
  let j0 := lowerIndex height y
  let j1 := j0 + 1
  let k0 := lowerIndex depth z
  let k1 := k0 + 1
  let s1 := clampCoord width x - (i0 : ℚ)
  let s0 := 1 - s1
  let t1 := clampCoord height y - (j0 : ℚ)
  let t0 := 1 - t1
  let w1 := clampCoord depth z - (k0 : ℚ)
  let w0 := 1 - w1
  w0 * (s0 * (t0 * d i0 j0 k0 + t1 * d i0 j1 k0) +
      s1 * (t0 * d i1 j0 k0 + t1 * d i1 j1 k0)) +
    w1 * (s0 * (t0 * d i0 j0 k1 + t1 * d i0 j1 k1) +
      s1 * (t0 * d i1 j0 k1 + t1 * d i1 j1 k1))

/-- A field with a different value at every index of a `4 x 4 x 4` box. -/
def sampleField : Grid := fun i j k => (i : ℚ) + 4 * (j : ℚ) + 16 * (k : ℚ)

/-! ## The pressure solve, from the specification -/

/-- The index triple `(i, j, k)` is a cell of the grid. -/
def inGrid (n : ℕ) (i j k : ℤ) : Prop :=
  (0 ≤ i ∧ i < n) ∧ (0 ≤ j ∧ j < n) ∧ (0 ≤ k ∧ k < n)

instance (n : ℕ) (i j k : ℤ) : Decidable (inGrid n i j k) := by
  unfold inGrid; infer_instance

/-- Modelled from the spec: one term of the 7-point stencil of
`solver::solve` (whose body is missing), the pressure difference from cell
`(i, j, k)` to the face neighbour `(i', j', k')`; a neighbour outside the grid
or marked in the mask `w` is not coupled ("the stencil simply does not couple
across an obstacle face"). -/
def spec_link (n : ℕ) (w p : Grid) (i j k i' j' k' : ℤ) : ℚ :=
  if inGrid n i' j' k' ∧ w i' j' k' = 0 then p i' j' k' - p i j k else 0

/-- Modelled from the spec: the "standard 7-point stencil" Laplacian of
`solver::solve` (whose body is missing) at cell `(i, j, k)`, with cell width
`h = 1/n` and zero-flux coupling at walls and obstacle faces. -/
def spec_laplacian (n : ℕ) (w p : Grid) (i j k : ℤ) : ℚ :=
  (spec_link n w p i j k (i + 1) j k + spec_link n w p i j k (i - 1) j k +
    spec_link n w p i j k i (j + 1) k + spec_link n w p i j k i (j - 1) k +
    spec_link n w p i j k i j (k + 1) + spec_link n w p i j k i j (k - 1)) /
    (cellWidth n * cellWidth n)

/-- A velocity field for exercising `project`: on every face between two
unmarked cells the difference quotient of `p`, zero on every other face. By
construction the masked stencil of `p` equals its divergence. -/
def gradientField (n : ℕ) (w p : Grid) : State :=
  { u0 := fun i j k =>
      if (inGrid n i j k ∧ w i j k = 0) ∧ (inGrid n (i - 1) j k ∧ w (i - 1) j k = 0) then
        (p i j k - p (i - 1) j k) / cellWidth n else 0
    u1 := fun i j k =>
      if (inGrid n i j k ∧ w i j k = 0) ∧ (inGrid n i (j - 1) k ∧ w i (j - 1) k = 0) then
        (p i j k - p i (j - 1) k) / cellWidth n else 0
    u2 := fun i j k =>
      if (inGrid n i j k ∧ w i j k = 0) ∧ (inGrid n i j (k - 1) ∧ w i j (k - 1) = 0) then
        (p i j k - p i j (k - 1)) / cellWidth n else 0
    b := w
    c := Grid.zero
    frame := 0 }

/-- A pressure field that is 1 in the cell `(16, 22, 16)` and 0 elsewhere. -/
def pressureBump : Grid := Grid.zero.set 16 22 16 1

/-- The state with the mask of `init` and the velocity `gradientField` of
`pressureBump`. -/
def bumpFlow : State := gradientField N (init N).b pressureBump

/-! ## Regions written by the loops over offsets -/

/-- The cells that the sphere-marking loops of `init` set to 1.0. -/
def inSphere (n : ℕ) (a b c : ℤ) : Prop :=
  hypot3_lt (a - ((n / 2 : ℕ) : ℤ)) (b - ((n / 2 : ℕ) : ℤ)) (c - ((n / 2 : ℕ) : ℤ)) (sphereW n)

instance (n : ℕ) (a b c : ℤ) : Decidable (inSphere n a b c) := by
  unfold inSphere; infer_instance

/-- The nozzle region: the cells `(N/2+i, k+1, N/2+j)` with `hypot(i,j) < N/7`
and `0 <= k < 6` that lines 82-91 write. -/
def inNozzle (n : ℕ) (a b c : ℤ) : Prop :=
  hypot2_lt (a - ((n / 2 : ℕ) : ℤ)) (c - ((n / 2 : ℕ) : ℤ)) ((n / 7 : ℕ) : ℤ) ∧ 1 ≤ b ∧ b ≤ 6

instance (n : ℕ) (a b c : ℤ) : Decidable (inNozzle n a b c) := by
  unfold inNozzle; infer_instance

/-- The reading of Scenario B in the specification, to be compared with the
mask that `init` computes: the centre `((i+1/2)/n, (j+1/2)/n, (k+1/2)/n)` of
cell `(i, j, k)` lies within Euclidean distance `r` of `(1/2, 1/2, 1/2)`. -/
def spec_centreWithin (n : ℕ) (r : ℚ) (i j k : ℤ) : Prop :=
  (((i : ℚ) + 1 / 2) / n - 1 / 2) ^ 2 + (((j : ℚ) + 1 / 2) / n - 1 / 2) ^ 2 +
    (((k : ℚ) + 1 / 2) / n - 1 / 2) ^ 2 ≤ r ^ 2

instance (n : ℕ) (r : ℚ) (i j k : ℤ) : Decidable (spec_centreWithin n r i j k) := by
  unfold spec_centreWithin; infer_instance

/-! ## Concrete states used to exercise the code -/

/-- A decay-phase state: the mask of `init`, still air, and smoke of density
1.0 in the single floor-layer cell `(16, 0, 16)`. -/
def floorSmoke : State := { init N with c := Grid.zero.set 16 0 16 1, frame := 50 }

/-- A decay-phase state: the mask of `init`, still air, and smoke of density
1.0 in the cell `(16, 22, 16)` resting on top of the obstacle cell
`(16, 21, 16)`. -/
def smokeAboveObstacle : State := { init N with c := Grid.zero.set 16 22 16 1, frame := 50 }

/-- An injection-phase state on an empty grid whose mask marks the nozzle cell
`(16, 1, 16)`. -/
def nozzleBlocked : State := { allocated with b := Grid.zero.set 16 1 16 1 }

/-- A pressure field rising by 1 per cell along x: `p[i][j][k] = i`. -/
def pressureRamp : Grid := fun i _ _ => (i : ℚ)

/-- The eight index triples `d[i0|i1][j0|j1][k0|k1]` that `interp` reads, in
the order of lines 36-39. -/
def interpReads (width height depth : ℤ) (x y z : ℚ) : List Idx :=
  let i0 := lowerIndex width x
  let i1 := i0 + 1
  let j0 := lowerIndex height y
  let j1 := j0 + 1
  let k0 := lowerIndex depth z
  let k1 := k0 + 1
  [(i0, j0, k0), (i0, j1, k0), (i1, j0, k0), (i1, j1, k0),
   (i0, j0, k1), (i0, j1, k1), (i1, j0, k1), (i1, j1, k1)]

/-- One term of the unmasked 7-point stencil: the pressure difference from
cell `(i, j, k)` to the face neighbour `(i', j', k')`, dropped when the
neighbour is outside the grid. -/
def neighbourTerm (n : ℕ) (p : Grid) (i j k i' j' k' : ℤ) : ℚ :=
  if inGrid n i' j' k' then p i' j' k' - p i j k else 0

/-- The 7-point Laplacian of `p` at cell `(i, j, k)`: `1/h^2` times the sum
over the in-domain face neighbours of `p[neighbour] - p[cell]`. -/
def laplacian7 (n : ℕ) (p : Grid) (i j k : ℤ) : ℚ :=
  (1 / (cellWidth n * cellWidth n)) *
    (neighbourTerm n p i j k (i + 1) j k + neighbourTerm n p i j k (i - 1) j k +
      neighbourTerm n p i j k i (j + 1) k + neighbourTerm n p i j k i (j - 1) k +
      neighbourTerm n p i j k i j (k + 1) + neighbourTerm n p i j k i j (k - 1))

/-- Time step, `#define DT 0.1`. -/
def DT : ℚ := 1 / 10

/-- The functions that `simulateStep` calls and whose bodies are not part of
the sources: `solver::solve` (declared in `solver.h`) and `advect::advect`
(`advect.h`, missing). `advect` receives the three velocity components, the
density, `N` and `DT` and yields the four arrays it leaves behind.
`render::render` receives `c` and `frame` and only produces output. -/
structure Collaborators where
  solve : Grid → Grid → Grid → ℕ → Grid
  advect : Grid → Grid → Grid → Grid → ℕ → ℚ → Grid × Grid × Grid × Grid

/-- The memory of the process: the globals of `smoke3D.cpp` and the static
arrays `div` and `p` of `project`. -/
structure Process where
  s : State
  div : Grid
  p : Grid

/-- The test of line 80, `frame < LIMIT/2`, on the state entering the
injection block. -/
def injectionPhase (s : State) : Bool := decide (s.frame < LIMIT / 2)

/-- The function `advection` (lines 136-139). -/
def advection (E : Collaborators) (n : ℕ) (s : State) : State :=
  { s with
    u0 := (E.advect s.u0 s.u1 s.u2 s.c n DT).1
    u1 := (E.advect s.u0 s.u1 s.u2 s.c n DT).2.1
    u2 := (E.advect s.u0 s.u1 s.u2 s.c n DT).2.2.1
    c := (E.advect s.u0 s.u1 s.u2 s.c n DT).2.2.2 }

/-- What one call of `simulateStep` leaves behind: the memory, whether
`exit(0)` was reached (line 148), the frame number written by line 146 and
whether the injection block of lines 80-92 ran. -/
structure StepResult where
  next : Process
  exited : Bool
  wrote : ℤ
  injected : Bool

/-- The function `smoke3D::simulateStep` (lines 141-149). -/
def simulateStep (E : Collaborators) (n : ℕ) (m : Process) : StepResult :=
  { next :=
      { s := { advection E n (project E.solve n m.div m.p (enforce_boundary n m.s)) with
          frame := (advection E n (project E.solve n m.div m.p
            (enforce_boundary n m.s))).frame + 1 }
        div := project_divergence n (enforce_boundary n m.s) m.div
        p := E.solve m.p (project_divergence n (enforce_boundary n m.s) m.div)
          (enforce_boundary n m.s).b n }
    exited := decide ((advection E n (project E.solve n m.div m.p
      (enforce_boundary n m.s))).frame + 1 > LIMIT)
    wrote := (advection E n (project E.solve n m.div m.p (enforce_boundary n m.s))).frame
    injected := injectionPhase (enforce_walls n m.s) }

/-- Modelled from the spec: the process driver (not part of the sources) that
calls `simulateStep` again and again until the process exits; `fuel` bounds
the number of calls, and the result lists, per processed frame, the frame
number written and whether the step injected smoke. -/
def run (E : Collaborators) (n : ℕ) : ℕ → Process → List (ℤ × Bool)
  | 0, _ => []
  | fuel + 1, m =>
    ((simulateStep E n m).wrote, (simulateStep E n m).injected) ::
      (if (simulateStep E n m).exited then [] else run E n fuel (simulateStep E n m).next)

/-- Collaborators that leave every array as it is. -/
def idleCollaborators : Collaborators :=
  { solve := fun p _ _ _ => p
    advect := fun u0 u1 u2 c _ _ => (u0, u1, u2, c) }

/-- The sum of `f` over the entries of a list. -/
def lsum {α : Type} (l : List α) (f : α → ℚ) : ℚ := (l.map f).sum

/-- The sum of a cell-centred field over all `N^3` cells. -/
def cellSum (n : ℕ) (g : Grid) : ℚ := lsum (FOR_EVERY_CELL n) (fun x => g x.1 x.2.1 x.2.2)

/-- The net outflow through the domain boundary: over the three axes, the sum
of the face values at index `N` minus the sum of the face values at index 0. -/
def boundaryOutflow (n : ℕ) (s : State) : ℚ :=
  lsum (List.product (Int.range 0 n) (Int.range 0 n))
      (fun jk => s.u0 n jk.1 jk.2 - s.u0 0 jk.1 jk.2) +
    lsum (List.product (Int.range 0 n) (Int.range 0 n))
      (fun ik => s.u1 ik.1 n ik.2 - s.u1 ik.1 0 ik.2) +
    lsum (List.product (Int.range 0 n) (Int.range 0 n))
      (fun ij => s.u2 ij.1 ij.2 n - s.u2 ij.1 ij.2 0)

/-- The function `sample3D` (`render.cpp`, lines 42-48): density at the point
`(p0, p1, p2)` of the unit cube, 0 outside of it. -/
def sample3D (d : Grid) (n : ℤ) (p0 p1 p2 : ℚ) : ℚ :=
  if p0 < 0 ∨ p0 > 1 ∨ p1 < 0 ∨ p1 > 1 ∨ p2 < 0 ∨ p2 > 1 then 0
  else interp d n n n ((n : ℚ) * p0) ((n : ℚ) * p1) ((n : ℚ) * p2)

/-- A density field that is 1.0 in the cell `(31, 0, 0)` of the last x-layer
and 0.0 elsewhere. -/
def edgeField : Grid := Grid.zero.set 31 0 0 1

/-- The arrays of `smoke3D.cpp`: the globals `u[0]`, `u[1]`, `u[2]`, `b`, `c`
and the static arrays `div` and `p` of `project`. -/
inductive Arr
  | u0
  | u1
  | u2
  | b
  | c
  | div
  | p

/-- The extents passed to `alloc3D` (lines 30-34 and 115-116). -/
def Arr.extent (n : ℕ) : Arr → ℕ × ℕ × ℕ
  | Arr.u0 => (n + 1, n, n)
  | Arr.u1 => (n, n + 1, n)
  | Arr.u2 => (n, n, n + 1)
  | Arr.b => (n, n, n)
  | Arr.c => (n, n, n)
  | Arr.div => (n, n, n)
  | Arr.p => (n, n, n)

/-- An array access `a[i][j][k]`: the array and the index triple. -/
abbrev Access := Arr × Idx

/-- The access lies inside the allocated extent of its array. -/
def inExtent (n : ℕ) (x : Access) : Prop :=
  (0 ≤ x.2.1 ∧ x.2.1 < ((x.1.extent n).1 : ℤ)) ∧
  (0 ≤ x.2.2.1 ∧ x.2.2.1 < ((x.1.extent n).2.1 : ℤ)) ∧
  (0 ≤ x.2.2.2 ∧ x.2.2.2 < ((x.1.extent n).2.2 : ℤ))

/-- The array accesses of `init`: the three zeroing sweeps (lines 36-46) and
the guarded write of the sphere loops (lines 50-58). -/
def accesses_init (n : ℕ) : List Access :=
  (FOR_EVERY_X_FLOW n).map (fun x => (Arr.u0, x)) ++
  (FOR_EVERY_Y_FLOW n).map (fun x => (Arr.u1, x)) ++
  (FOR_EVERY_Z_FLOW n).map (fun x => (Arr.u2, x)) ++
  (sphereOffsets (sphereW n)).flatMap (fun x =>
    if hypot3_lt x.1 x.2.1 x.2.2 (sphereW n) then
      [(Arr.b, (x.1 + ((n / 2 : ℕ) : ℤ), x.2.1 + ((n / 2 : ℕ) : ℤ), x.2.2 + ((n / 2 : ℕ) : ℤ)))]
    else [])

/-- The array accesses of the obstacle sweep at cell `x` (lines 96-100). -/
def accesses_obstacleCell (s : State) (x : Idx) : List Access :=
  (Arr.b, x) ::
    (if s.b x.1 x.2.1 x.2.2 ≠ 0 then
      [(Arr.c, x), (Arr.u0, (x.1 + 1, x.2.1, x.2.2)), (Arr.u0, x),
        (Arr.u1, (x.1, x.2.1 + 1, x.2.2)), (Arr.u1, x),
        (Arr.u2, (x.1, x.2.1, x.2.2 + 1)), (Arr.u2, x)]
    else [])

/-- The array accesses of `enforce_boundary` in state `s`: the guarded writes
of the wall sweeps (lines 67-77), the nozzle loops (lines 80-92), the obstacle
sweep (lines 95-102) and the buoyancy sweep (lines 105-107). -/
def accesses_enforce (n : ℕ) (s : State) : List Access :=
  (FOR_EVERY_X_FLOW n).flatMap (fun x => if x.1 = 0 ∨ x.1 = n then [(Arr.u0, x)] else []) ++
  (FOR_EVERY_Y_FLOW n).flatMap (fun x => if x.2.1 = 0 ∨ x.2.1 = n then [(Arr.u1, x)] else []) ++
  (FOR_EVERY_Z_FLOW n).flatMap (fun x => if x.2.2 = 0 ∨ x.2.2 = n then [(Arr.u2, x)] else []) ++
  (if s.frame < LIMIT / 2 then
    (List.product (Int.range (-((n / 7 : ℕ) : ℤ)) (((n / 7 : ℕ) : ℤ) + 1))
      (Int.range (-((n / 7 : ℕ) : ℤ)) (((n / 7 : ℕ) : ℤ) + 1))).flatMap (fun ij =>
        if hypot2_lt ij.1 ij.2 ((n / 7 : ℕ) : ℤ) then
          (Int.range 0 6).flatMap (fun k =>
            [(Arr.u1, (((n / 2 : ℕ) : ℤ) + ij.1, k + 1, ((n / 2 : ℕ) : ℤ) + ij.2)),
              (Arr.c, (((n / 2 : ℕ) : ℤ) + ij.1, k + 1, ((n / 2 : ℕ) : ℤ) + ij.2))])
        else [])
  else []) ++
  (FOR_EVERY_CELL n).flatMap (accesses_obstacleCell s) ++
  (FOR_EVERY_CELL n).flatMap (fun x => [(Arr.u1, x), (Arr.c, x)])

/-- The array accesses of the loops of `project`: the divergence sweep (lines
119-123) and the guarded updates of the subtraction sweep (lines 129-133). -/
def accesses_project (n : ℕ) : List Access :=
  (FOR_EVERY_CELL n).flatMap (fun x =>
    [(Arr.div, x), (Arr.u0, (x.1 + 1, x.2.1, x.2.2)), (Arr.u0, x),
      (Arr.u1, (x.1, x.2.1 + 1, x.2.2)), (Arr.u1, x),
      (Arr.u2, (x.1, x.2.1, x.2.2 + 1)), (Arr.u2, x)]) ++
  (FOR_EVERY_CELL n).flatMap (fun x =>
    (if 0 < x.1 ∧ x.1 < n then
      [(Arr.u0, x), (Arr.p, x), (Arr.p, (x.1 - 1, x.2.1, x.2.2))] else []) ++
    (if 0 < x.2.1 ∧ x.2.1 < n then
      [(Arr.u1, x), (Arr.p, x), (Arr.p, (x.1, x.2.1 - 1, x.2.2))] else []) ++
    (if 0 < x.2.2 ∧ x.2.2 < n then
      [(Arr.u2, x), (Arr.p, x), (Arr.p, (x.1, x.2.1, x.2.2 - 1))] else []))

/-! ## Rounding, and the loops of `project` with rounding -/

/-- Rounding of a real number to the nearest integer, ties to the even one. -/
def roundNearestEven (x : ℚ) : ℤ :=
  if x - (⌊x⌋ : ℚ) < 1 / 2 then ⌊x⌋
  else if 1 / 2 < x - (⌊x⌋ : ℚ) then ⌊x⌋ + 1
  else if ⌊x⌋ % 2 = 0 then ⌊x⌋ else ⌊x⌋ + 1

/-- The value of the binary floating-point format with `prec` significand
bits that is nearest to `x`, ties to even (the IEEE 754 default rounding):
`x` is scaled by the power of two that brings its magnitude into
`[2^(prec-1), 2^prec)`, rounded to an integer and scaled back. The exponent
range is unbounded (no overflow, no subnormal numbers). `FLOAT` is a typedef
of the missing `types.h`: `prec = 24` is `float`, `prec = 53` is `double`. -/
def roundFloat (prec : ℕ) (x : ℚ) : ℚ :=
  if x = 0 then 0
  else (roundNearestEven (x / 2 ^ (Int.log 2 |x| - ((prec : ℤ) - 1))) : ℚ) *
    2 ^ (Int.log 2 |x| - ((prec : ℤ) - 1))

/-- Line 112 with rounding: `FLOAT h = 1.0/N;`. The quotient of the `double`
literal `1.0` by `N` is formed in `double` and then converted to `FLOAT` by
the rounding `fl`. -/
def cellWidth_fl (fl : ℚ → ℚ) (n : ℕ) : ℚ := fl (roundFloat 53 (1 / (n : ℚ)))

/-- Lines 120-122 with the rounding `fl` of `FLOAT` applied after each of the
six operations, which C++ evaluates from left to right. -/
def divergenceAt_fl (fl : ℚ → ℚ) (h : ℚ) (s : State) (i j k : ℤ) : ℚ :=
  fl (fl (fl (fl (fl (fl (s.u0 (i + 1) j k - s.u0 i j k) + s.u1 i (j + 1) k) - s.u1 i j k) +
    s.u2 i j (k + 1)) - s.u2 i j k) / h)

/-- Lines 120-122 with rounding: the body of the divergence sweep. -/
def divergenceCell_fl (fl : ℚ → ℚ) (h : ℚ) (s : State) (div : Grid) (x : Idx) : Grid :=
  div.set x.1 x.2.1 x.2.2 (divergenceAt_fl fl h s x.1 x.2.1 x.2.2)

/-- Lines 119-123 with rounding: the divergence sweep for the cell width `h`. -/
def project_divergence_fl (fl : ℚ → ℚ) (h : ℚ) (n : ℕ) (s : State) (div : Grid) : Grid :=
  (FOR_EVERY_CELL n).foldl (divergenceCell_fl fl h s) div

/-- Line 130 with the rounding `fl` of `FLOAT` applied after the subtraction
of the pressures, the division by `h` and the update of the face. -/
def subtractX_fl (fl : ℚ → ℚ) (h : ℚ) (n : ℕ) (p : Grid) (s : State) (x : Idx) : State :=
  if 0 < x.1 ∧ x.1 < n then
    { s with
      u0 := s.u0.set x.1 x.2.1 x.2.2
        (fl (s.u0 x.1 x.2.1 x.2.2 - fl (fl (p x.1 x.2.1 x.2.2 - p (x.1 - 1) x.2.1 x.2.2) / h))) }
  else s

/-- Line 131 with rounding. -/
def subtractY_fl (fl : ℚ → ℚ) (h : ℚ) (n : ℕ) (p : Grid) (s : State) (x : Idx) : State :=
  if 0 < x.2.1 ∧ x.2.1 < n then
    { s with
      u1 := s.u1.set x.1 x.2.1 x.2.2
        (fl (s.u1 x.1 x.2.1 x.2.2 - fl (fl (p x.1 x.2.1 x.2.2 - p x.1 (x.2.1 - 1) x.2.2) / h))) }
  else s

/-- Line 132 with rounding. -/
def subtractZ_fl (fl : ℚ → ℚ) (h : ℚ) (n : ℕ) (p : Grid) (s : State) (x : Idx) : State :=
  if 0 < x.2.2 ∧ x.2.2 < n then
    { s with
      u2 := s.u2.set x.1 x.2.1 x.2.2
        (fl (s.u2 x.1 x.2.1 x.2.2 - fl (fl (p x.1 x.2.1 x.2.2 - p x.1 x.2.1 (x.2.2 - 1)) / h))) }
  else s

/-- Lines 130-132 with rounding: the body of the gradient-subtraction sweep. -/
def subtractCell_fl (fl : ℚ → ℚ) (h : ℚ) (n : ℕ) (p : Grid) (s : State) (x : Idx) : State :=
  subtractZ_fl fl h n p (subtractY_fl fl h n p (subtractX_fl fl h n p s x) x) x

/-- Lines 129-133 with rounding: the gradient-subtraction sweep. -/
def project_subtract_fl (fl : ℚ → ℚ) (h : ℚ) (n : ℕ) (p : Grid) (s : State) : State :=
  (FOR_EVERY_CELL n).foldl (subtractCell_fl fl h n p) s

/-- The `FLOAT` array that holds `p + k` for the pressure `p[i][j][k] = i` and
the constant `k = 2^prec`: every entry is the sum rounded to `FLOAT`. -/
def shiftedRamp (prec : ℕ) : Grid :=
  fun i j k => roundFloat prec (pressureRamp i j k + 2 ^ (prec : ℤ))

/-- A velocity field of `FLOAT` values that vanishes on all six domain faces:
zero except for the two interior x-faces `u0[1][0][0] = -2^(-prec)` and
`u0[2][0][0] = 1.0`. -/
def roundingFlow (prec : ℕ) : State :=
  { u0 := (Grid.zero.set 1 0 0 (-(2 : ℚ) ^ (-(prec : ℤ)))).set 2 0 0 1, u1 := Grid.zero, u2 := Grid.zero, b := Grid.zero, c := Grid.zero, frame := 0 }

/-! ## Basic facts about arrays and iteration domains -/

theorem Grid.set_same (g : Grid) (i j k : ℤ) (v : ℚ) : (g.set i j k v) i j k = v := by
  simp [Grid.set]

theorem Grid.set_hit (g : Grid) (i j k a b c : ℤ) (v : ℚ)
    (h : a = i ∧ b = j ∧ c = k) : (g.set i j k v) a b c = v := by
  simp [Grid.set, h]

theorem Grid.set_other (g : Grid) (i j k a b c : ℤ) (v : ℚ)
    (h : ¬ (a = i ∧ b = j ∧ c = k)) : (g.set i j k v) a b c = g a b c := by
  simp [Grid.set, h]

theorem mem_box (a b c : ℕ) (x : Idx) :
    x ∈ box a b c ↔ (0 ≤ x.1 ∧ x.1 < a) ∧ (0 ≤ x.2.1 ∧ x.2.1 < b) ∧ (0 ≤ x.2.2 ∧ x.2.2 < c) := by
  obtain ⟨i, j, k⟩ := x
  simp [box, List.pair_mem_product, Int.mem_range_iff]

theorem nodup_intRange (lo hi : ℤ) : (Int.range lo hi).Nodup := by
  unfold Int.range
  refine List.Nodup.map ?_ (List.nodup_range _)
  intro a b h
  simpa using h

theorem nodup_box (a b c : ℕ) : (box a b c).Nodup :=
  List.Nodup.product (nodup_intRange _ _)
    (List.Nodup.product (nodup_intRange _ _) (nodup_intRange _ _))

/-! ## Generic facts about sweeps (left folds) -/

/-- A quantity that no step of a sweep changes is unchanged by the sweep. -/
theorem foldl_preserve {σ α β : Type} (f : σ → α → σ) (g : σ → β)
    (h : ∀ s x, g (f s x) = g s) (l : List α) (s : σ) :
    g (l.foldl f s) = g s := by
  induction l generalizing s with
  | nil => rfl
  | cons x l ih => rw [List.foldl_cons, ih, h]

/-- A sweep whose steps either store the constant `v` into the observed
location (when `hit`) or leave it alone stores `v` iff some visited index
hits. The invariant `I` carries what the steps read but never write. -/
theorem foldl_const_write {σ α : Type} (f : σ → α → σ) (get : σ → ℚ) (v : ℚ)
    (hit : α → Prop) (I : σ → Prop) (hI : ∀ s x, I s → I (f s x))
    (hhit : ∀ s x, I s → hit x → get (f s x) = v)
    (hmiss : ∀ s x, I s → ¬ hit x → get (f s x) = get s)
    (l : List α) (s : σ) (hs : I s) :
    ((∃ x ∈ l, hit x) → get (l.foldl f s) = v) ∧
    ((¬ ∃ x ∈ l, hit x) → get (l.foldl f s) = get s) := by
  induction l generalizing s with
  | nil => simp
  | cons x l ih =>
    rw [List.foldl_cons]
    obtain ⟨ih1, ih2⟩ := ih _ (hI s x hs)
    by_cases h1 : ∃ y ∈ l, hit y
    · refine ⟨fun _ => ih1 h1, fun h2 => absurd ?_ h2⟩
      obtain ⟨y, hy, hh⟩ := h1
      exact ⟨y, List.mem_cons_of_mem _ hy, hh⟩
    · by_cases h3 : hit x
      · refine ⟨fun _ => ?_, fun h2 => absurd ⟨x, List.mem_cons_self _ _, h3⟩ h2⟩
        rw [ih2 h1, hhit s x hs h3]
      · refine ⟨fun h2 => ?_, fun _ => ?_⟩
        · obtain ⟨y, hy, hh⟩ := h2
          rcases List.mem_cons.mp hy with rfl | hy
          · exact absurd hh h3
          · exact absurd ⟨y, hy, hh⟩ h1
        · rw [ih2 h1, hmiss s x hs h3]

/-- A sweep over distinct indices whose step at index `y` replaces the
observed value `t` by `G t`, and whose other steps leave it alone, applies `G`
exactly once iff `y` is visited. -/
theorem foldl_own_write {σ α : Type} (f : σ → α → σ) (get : σ → ℚ)
    (G : ℚ → ℚ) (y : α) (I : σ → Prop) (hI : ∀ s x, I s → I (f s x))
    (hown : ∀ s, I s → get (f s y) = G (get s))
    (hother : ∀ s x, I s → x ≠ y → get (f s x) = get s)
    (l : List α) (hl : l.Nodup) (s : σ) (hs : I s) :
    (y ∈ l → get (l.foldl f s) = G (get s)) ∧
    (y ∉ l → get (l.foldl f s) = get s) := by
  induction l generalizing s with
  | nil => simp
  | cons x l ih =>
    rw [List.foldl_cons]
    obtain ⟨ih1, ih2⟩ := ih (List.nodup_cons.mp hl).2 _ (hI s x hs)
    by_cases hxy : x = y
    · subst hxy
      have hnot : x ∉ l := (List.nodup_cons.mp hl).1
      refine ⟨fun _ => ?_, fun h => absurd (List.mem_cons_self _ _) h⟩
      rw [ih2 hnot, hown s hs]
    · refine ⟨fun h => ?_, fun h => ?_⟩
      · rcases List.mem_cons.mp h with h | h
        · exact absurd h.symm hxy
        · rw [ih1 h, hother s x hs hxy]
      · rw [ih2 (fun h2 => h (List.mem_cons_of_mem _ h2)), hother s x hs hxy]

/-! ## The obstacle sweep -/

theorem obstacleCell_b (s : State) (x : Idx) : (obstacleCell s x).b = s.b := by
  unfold obstacleCell; split_ifs <;> rfl

theorem obstacleCell_frame (s : State) (x : Idx) : (obstacleCell s x).frame = s.frame := by
  unfold obstacleCell; split_ifs <;> rfl

theorem enforce_obstacle_b (n : ℕ) (s : State) : (enforce_obstacle n s).b = s.b :=
  foldl_preserve obstacleCell State.b obstacleCell_b _ s

theorem enforce_obstacle_frame (n : ℕ) (s : State) :
    (enforce_obstacle n s).frame = s.frame :=
  foldl_preserve obstacleCell State.frame obstacleCell_frame _ s

/-- Density after the obstacle sweep: zero in marked cells, else unchanged. -/
theorem enforce_obstacle_c (n : ℕ) (s : State) (a b c : ℤ) :
    (((a, b, c) ∈ FOR_EVERY_CELL n ∧ s.b a b c ≠ 0) → (enforce_obstacle n s).c a b c = 0) ∧
    (¬ ((a, b, c) ∈ FOR_EVERY_CELL n ∧ s.b a b c ≠ 0) →
      (enforce_obstacle n s).c a b c = s.c a b c) := by
  have key := foldl_const_write obstacleCell (fun t => t.c a b c) 0
    (fun x => s.b x.1 x.2.1 x.2.2 ≠ 0 ∧ (a = x.1 ∧ b = x.2.1 ∧ c = x.2.2))
    (fun t => t.b = s.b)
    (fun t x ht => (obstacleCell_b t x).trans ht)
    (fun t x ht hh => by
      have ht2 : t.b = s.b := ht
      have hb : t.b x.1 x.2.1 x.2.2 ≠ 0 := by rw [ht2]; exact hh.1
      simp [obstacleCell, hb, Grid.set, hh.2])
    (fun t x ht hh => by
      have ht2 : t.b = s.b := ht
      by_cases hb : t.b x.1 x.2.1 x.2.2 ≠ 0
      · have hne : ¬ (a = x.1 ∧ b = x.2.1 ∧ c = x.2.2) :=
          fun h => hh ⟨by rw [← ht2]; exact hb, h⟩
        simp [obstacleCell, hb, Grid.set, hne]
      · simp [obstacleCell, hb])
    (FOR_EVERY_CELL n) s rfl
  constructor
  · intro h
    exact key.1 ⟨(a, b, c), h.1, h.2, rfl, rfl, rfl⟩
  · intro h
    refine key.2 ?_
    rintro ⟨⟨i, j, k⟩, hx, hb, rfl, rfl, rfl⟩
    exact h ⟨hx, hb⟩

/-- The u0 faces after the obstacle sweep: zero on both x-faces of every
marked cell, else unchanged. -/
theorem enforce_obstacle_u0 (n : ℕ) (s : State) (a b c : ℤ) :
    ((((a, b, c) ∈ FOR_EVERY_CELL n ∧ s.b a b c ≠ 0) ∨
      ((a - 1, b, c) ∈ FOR_EVERY_CELL n ∧ s.b (a - 1) b c ≠ 0)) →
        (enforce_obstacle n s).u0 a b c = 0) ∧
    (¬ (((a, b, c) ∈ FOR_EVERY_CELL n ∧ s.b a b c ≠ 0) ∨
      ((a - 1, b, c) ∈ FOR_EVERY_CELL n ∧ s.b (a - 1) b c ≠ 0)) →
        (enforce_obstacle n s).u0 a b c = s.u0 a b c) := by
  have key := foldl_const_write obstacleCell (fun t => t.u0 a b c) 0
    (fun x => s.b x.1 x.2.1 x.2.2 ≠ 0 ∧
      ((a = x.1 ∧ b = x.2.1 ∧ c = x.2.2) ∨ (a = x.1 + 1 ∧ b = x.2.1 ∧ c = x.2.2)))
    (fun t => t.b = s.b)
    (fun t x ht => (obstacleCell_b t x).trans ht)
    (fun t x ht hh => by
      have ht2 : t.b = s.b := ht
      have hb : t.b x.1 x.2.1 x.2.2 ≠ 0 := by rw [ht2]; exact hh.1
      rcases hh.2 with h | h
      · simp [obstacleCell, hb, Grid.set, h]
      · by_cases h2 : a = x.1 ∧ b = x.2.1 ∧ c = x.2.2
        · simp [obstacleCell, hb, Grid.set, h2]
        · simp [obstacleCell, hb, Grid.set, h, h2])
    (fun t x ht hh => by
      have ht2 : t.b = s.b := ht
      by_cases hb : t.b x.1 x.2.1 x.2.2 ≠ 0
      · have hb2 : s.b x.1 x.2.1 x.2.2 ≠ 0 := by rw [← ht2]; exact hb
        have hne1 : ¬ (a = x.1 ∧ b = x.2.1 ∧ c = x.2.2) := fun h => hh ⟨hb2, Or.inl h⟩
        have hne2 : ¬ (a = x.1 + 1 ∧ b = x.2.1 ∧ c = x.2.2) := fun h => hh ⟨hb2, Or.inr h⟩
        simp [obstacleCell, hb, Grid.set, hne1, hne2]
      · simp [obstacleCell, hb])
    (FOR_EVERY_CELL n) s rfl
  constructor
  · rintro (h | h)
    · exact key.1 ⟨(a, b, c), h.1, h.2, Or.inl ⟨rfl, rfl, rfl⟩⟩
    · exact key.1 ⟨(a - 1, b, c), h.1, h.2, Or.inr ⟨by simp, by simp, by simp⟩⟩
  · intro h
    refine key.2 ?_
    rintro ⟨⟨i, j, k⟩, hx, hb, (⟨rfl, rfl, rfl⟩ | ⟨rfl, rfl, rfl⟩)⟩
    · exact h (Or.inl ⟨hx, hb⟩)
    · refine h (Or.inr ?_)
      simpa using And.intro hx hb

/-- The u1 faces after the obstacle sweep: zero on both y-faces of every
marked cell, else unchanged. -/
theorem enforce_obstacle_u1 (n : ℕ) (s : State) (a b c : ℤ) :
    ((((a, b, c) ∈ FOR_EVERY_CELL n ∧ s.b a b c ≠ 0) ∨
      ((a, b - 1, c) ∈ FOR_EVERY_CELL n ∧ s.b a (b - 1) c ≠ 0)) →
        (enforce_obstacle n s).u1 a b c = 0) ∧
    (¬ (((a, b, c) ∈ FOR_EVERY_CELL n ∧ s.b a b c ≠ 0) ∨
      ((a, b - 1, c) ∈ FOR_EVERY_CELL n ∧ s.b a (b - 1) c ≠ 0)) →
        (enforce_obstacle n s).u1 a b c = s.u1 a b c) := by
  have key := foldl_const_write obstacleCell (fun t => t.u1 a b c) 0
    (fun x => s.b x.1 x.2.1 x.2.2 ≠ 0 ∧
      ((a = x.1 ∧ b = x.2.1 ∧ c = x.2.2) ∨ (a = x.1 ∧ b = x.2.1 + 1 ∧ c = x.2.2)))
    (fun t => t.b = s.b)
    (fun t x ht => (obstacleCell_b t x).trans ht)
    (fun t x ht hh => by
      have ht2 : t.b = s.b := ht
      have hb : t.b x.1 x.2.1 x.2.2 ≠ 0 := by rw [ht2]; exact hh.1
      rcases hh.2 with h | h
      · simp [obstacleCell, hb, Grid.set, h]
      · by_cases h2 : a = x.1 ∧ b = x.2.1 ∧ c = x.2.2
        · simp [obstacleCell, hb, Grid.set, h2]
        · simp [obstacleCell, hb, Grid.set, h, h2])
    (fun t x ht hh => by
      have ht2 : t.b = s.b := ht
      by_cases hb : t.b x.1 x.2.1 x.2.2 ≠ 0
      · have hb2 : s.b x.1 x.2.1 x.2.2 ≠ 0 := by rw [← ht2]; exact hb
        have hne1 : ¬ (a = x.1 ∧ b = x.2.1 ∧ c = x.2.2) := fun h => hh ⟨hb2, Or.inl h⟩
        have hne2 : ¬ (a = x.1 ∧ b = x.2.1 + 1 ∧ c = x.2.2) := fun h => hh ⟨hb2, Or.inr h⟩
        simp [obstacleCell, hb, Grid.set, hne1, hne2]
      · simp [obstacleCell, hb])
    (FOR_EVERY_CELL n) s rfl
  constructor
  · rintro (h | h)
    · exact key.1 ⟨(a, b, c), h.1, h.2, Or.inl ⟨rfl, rfl, rfl⟩⟩
    · exact key.1 ⟨(a, b - 1, c), h.1, h.2, Or.inr ⟨by simp, by simp, by simp⟩⟩
  · intro h
    refine key.2 ?_
    rintro ⟨⟨i, j, k⟩, hx, hb, (⟨rfl, rfl, rfl⟩ | ⟨rfl, rfl, rfl⟩)⟩
    · exact h (Or.inl ⟨hx, hb⟩)
    · refine h (Or.inr ?_)
      simpa using And.intro hx hb

/-- The u2 faces after the obstacle sweep: zero on both z-faces of every
marked cell, else unchanged. -/
theorem enforce_obstacle_u2 (n : ℕ) (s : State) (a b c : ℤ) :
    ((((a, b, c) ∈ FOR_EVERY_CELL n ∧ s.b a b c ≠ 0) ∨
      ((a, b, c - 1) ∈ FOR_EVERY_CELL n ∧ s.b a b (c - 1) ≠ 0)) →
        (enforce_obstacle n s).u2 a b c = 0) ∧
    (¬ (((a, b, c) ∈ FOR_EVERY_CELL n ∧ s.b a b c ≠ 0) ∨
      ((a, b, c - 1) ∈ FOR_EVERY_CELL n ∧ s.b a b (c - 1) ≠ 0)) →
        (enforce_obstacle n s).u2 a b c = s.u2 a b c) := by
  have key := foldl_const_write obstacleCell (fun t => t.u2 a b c) 0
    (fun x => s.b x.1 x.2.1 x.2.2 ≠ 0 ∧
      ((a = x.1 ∧ b = x.2.1 ∧ c = x.2.2) ∨ (a = x.1 ∧ b = x.2.1 ∧ c = x.2.2 + 1)))
    (fun t => t.b = s.b)
    (fun t x ht => (obstacleCell_b t x).trans ht)
    (fun t x ht hh => by
      have ht2 : t.b = s.b := ht
      have hb : t.b x.1 x.2.1 x.2.2 ≠ 0 := by rw [ht2]; exact hh.1
      rcases hh.2 with h | h
      · simp [obstacleCell, hb, Grid.set, h]
      · by_cases h2 : a = x.1 ∧ b = x.2.1 ∧ c = x.2.2
        · simp [obstacleCell, hb, Grid.set, h2]
        · simp [obstacleCell, hb, Grid.set, h, h2])
    (fun t x ht hh => by
      have ht2 : t.b = s.b := ht
      by_cases hb : t.b x.1 x.2.1 x.2.2 ≠ 0
      · have hb2 : s.b x.1 x.2.1 x.2.2 ≠ 0 := by rw [← ht2]; exact hb
        have hne1 : ¬ (a = x.1 ∧ b = x.2.1 ∧ c = x.2.2) := fun h => hh ⟨hb2, Or.inl h⟩
        have hne2 : ¬ (a = x.1 ∧ b = x.2.1 ∧ c = x.2.2 + 1) := fun h => hh ⟨hb2, Or.inr h⟩
        simp [obstacleCell, hb, Grid.set, hne1, hne2]
      · simp [obstacleCell, hb])
    (FOR_EVERY_CELL n) s rfl
  constructor
  · rintro (h | h)
    · exact key.1 ⟨(a, b, c), h.1, h.2, Or.inl ⟨rfl, rfl, rfl⟩⟩
    · exact key.1 ⟨(a, b, c - 1), h.1, h.2, Or.inr ⟨by simp, by simp, by simp⟩⟩
  · intro h
    refine key.2 ?_
    rintro ⟨⟨i, j, k⟩, hx, hb, (⟨rfl, rfl, rfl⟩ | ⟨rfl, rfl, rfl⟩)⟩
    · exact h (Or.inl ⟨hx, hb⟩)
    · refine h (Or.inr ?_)
      simpa using And.intro hx hb

/-! ## The buoyancy sweep -/

theorem enforce_buoyancy_rest (n : ℕ) (s : State) :
    (enforce_buoyancy n s).u0 = s.u0 ∧ (enforce_buoyancy n s).u2 = s.u2 ∧
    (enforce_buoyancy n s).b = s.b ∧ (enforce_buoyancy n s).c = s.c ∧
    (enforce_buoyancy n s).frame = s.frame :=
  ⟨foldl_preserve buoyancyCell State.u0 (fun _ _ => rfl) _ s,
   foldl_preserve buoyancyCell State.u2 (fun _ _ => rfl) _ s,
   foldl_preserve buoyancyCell State.b (fun _ _ => rfl) _ s,
   foldl_preserve buoyancyCell State.c (fun _ _ => rfl) _ s,
   foldl_preserve buoyancyCell State.frame (fun _ _ => rfl) _ s⟩

/-- Vertical velocity after the buoyancy sweep: every cell index receives
`0.1 * c` once, the other entries are unchanged. -/
theorem enforce_buoyancy_u1 (n : ℕ) (s : State) (a b c : ℤ) :
    ((a, b, c) ∈ FOR_EVERY_CELL n →
      (enforce_buoyancy n s).u1 a b c = s.u1 a b c + (1 / 10) * s.c a b c) ∧
    ((a, b, c) ∉ FOR_EVERY_CELL n → (enforce_buoyancy n s).u1 a b c = s.u1 a b c) := by
  refine foldl_own_write buoyancyCell (fun t => t.u1 a b c)
    (fun v => v + (1 / 10) * s.c a b c) (a, b, c) (fun t => t.c = s.c)
    (fun t x ht => ht) ?_ ?_ (FOR_EVERY_CELL n) (nodup_box n n n) s rfl
  · intro t ht
    have ht2 : t.c = s.c := ht
    simp [buoyancyCell, Grid.set, ht2]
  · rintro t ⟨i, j, k⟩ _ hx
    have hne : ¬ (a = i ∧ b = j ∧ c = k) := by
      rintro ⟨rfl, rfl, rfl⟩; exact hx rfl
    simp [buoyancyCell, Grid.set, hne]

/-! ## The wall sweeps -/

theorem wall_hit_x (n : ℕ) (s : State) (a b c : ℤ) :
    (((a, b, c) ∈ FOR_EVERY_X_FLOW n ∧ (a = 0 ∨ a = n)) →
      ((FOR_EVERY_X_FLOW n).foldl (wallX n) s).u0 a b c = 0) ∧
    (¬ ((a, b, c) ∈ FOR_EVERY_X_FLOW n ∧ (a = 0 ∨ a = n)) →
      ((FOR_EVERY_X_FLOW n).foldl (wallX n) s).u0 a b c = s.u0 a b c) := by
  have key := foldl_const_write (wallX n) (fun t => t.u0 a b c) 0
    (fun x => (x.1 = 0 ∨ x.1 = n) ∧ (a = x.1 ∧ b = x.2.1 ∧ c = x.2.2))
    (fun _ => True) (fun _ _ _ => trivial)
    (fun t x _ hh => by simp [wallX, hh.1, Grid.set, hh.2])
    (fun t x _ hh => by
      by_cases hw : x.1 = 0 ∨ x.1 = n
      · have hne : ¬ (a = x.1 ∧ b = x.2.1 ∧ c = x.2.2) := fun h => hh ⟨hw, h⟩
        simp [wallX, hw, Grid.set, hne]
      · simp [wallX, hw])
    (FOR_EVERY_X_FLOW n) s trivial
  constructor
  · intro h
    exact key.1 ⟨(a, b, c), h.1, h.2, rfl, rfl, rfl⟩
  · intro h
    refine key.2 ?_
    rintro ⟨⟨i, j, k⟩, hx, hw, rfl, rfl, rfl⟩
    exact h ⟨hx, hw⟩

theorem wall_hit_y (n : ℕ) (s : State) (a b c : ℤ) :
    (((a, b, c) ∈ FOR_EVERY_Y_FLOW n ∧ (b = 0 ∨ b = n)) →
      ((FOR_EVERY_Y_FLOW n).foldl (wallY n) s).u1 a b c = 0) ∧
    (¬ ((a, b, c) ∈ FOR_EVERY_Y_FLOW n ∧ (b = 0 ∨ b = n)) →
      ((FOR_EVERY_Y_FLOW n).foldl (wallY n) s).u1 a b c = s.u1 a b c) := by
  have key := foldl_const_write (wallY n) (fun t => t.u1 a b c) 0
    (fun x => (x.2.1 = 0 ∨ x.2.1 = n) ∧ (a = x.1 ∧ b = x.2.1 ∧ c = x.2.2))
    (fun _ => True) (fun _ _ _ => trivial)
    (fun t x _ hh => by simp [wallY, hh.1, Grid.set, hh.2])
    (fun t x _ hh => by
      by_cases hw : x.2.1 = 0 ∨ x.2.1 = n
      · have hne : ¬ (a = x.1 ∧ b = x.2.1 ∧ c = x.2.2) := fun h => hh ⟨hw, h⟩
        simp [wallY, hw, Grid.set, hne]
      · simp [wallY, hw])
    (FOR_EVERY_Y_FLOW n) s trivial
  constructor
  · intro h
    exact key.1 ⟨(a, b, c), h.1, h.2, rfl, rfl, rfl⟩
  · intro h
    refine key.2 ?_
    rintro ⟨⟨i, j, k⟩, hx, hw, rfl, rfl, rfl⟩
    exact h ⟨hx, hw⟩

theorem wall_hit_z (n : ℕ) (s : State) (a b c : ℤ) :
    (((a, b, c) ∈ FOR_EVERY_Z_FLOW n ∧ (c = 0 ∨ c = n)) →
      ((FOR_EVERY_Z_FLOW n).foldl (wallZ n) s).u2 a b c = 0) ∧
    (¬ ((a, b, c) ∈ FOR_EVERY_Z_FLOW n ∧ (c = 0 ∨ c = n)) →
      ((FOR_EVERY_Z_FLOW n).foldl (wallZ n) s).u2 a b c = s.u2 a b c) := by
  have key := foldl_const_write (wallZ n) (fun t => t.u2 a b c) 0
    (fun x => (x.2.2 = 0 ∨ x.2.2 = n) ∧ (a = x.1 ∧ b = x.2.1 ∧ c = x.2.2))
    (fun _ => True) (fun _ _ _ => trivial)
    (fun t x _ hh => by simp [wallZ, hh.1, Grid.set, hh.2])
    (fun t x _ hh => by
      by_cases hw : x.2.2 = 0 ∨ x.2.2 = n
      · have hne : ¬ (a = x.1 ∧ b = x.2.1 ∧ c = x.2.2) := fun h => hh ⟨hw, h⟩
        simp [wallZ, hw, Grid.set, hne]
      · simp [wallZ, hw])
    (FOR_EVERY_Z_FLOW n) s trivial
  constructor
  · intro h
    exact key.1 ⟨(a, b, c), h.1, h.2, rfl, rfl, rfl⟩
  · intro h
    refine key.2 ?_
    rintro ⟨⟨i, j, k⟩, hx, hw, rfl, rfl, rfl⟩
    exact h ⟨hx, hw⟩

theorem wallX_rest (n : ℕ) (s : State) (x : Idx) :
    (wallX n s x).u1 = s.u1 ∧ (wallX n s x).u2 = s.u2 ∧ (wallX n s x).b = s.b ∧
    (wallX n s x).c = s.c ∧ (wallX n s x).frame = s.frame := by
  unfold wallX; split_ifs <;> simp

theorem wallY_rest (n : ℕ) (s : State) (x : Idx) :
    (wallY n s x).u0 = s.u0 ∧ (wallY n s x).u2 = s.u2 ∧ (wallY n s x).b = s.b ∧
    (wallY n s x).c = s.c ∧ (wallY n s x).frame = s.frame := by
  unfold wallY; split_ifs <;> simp

theorem wallZ_rest (n : ℕ) (s : State) (x : Idx) :
    (wallZ n s x).u0 = s.u0 ∧ (wallZ n s x).u1 = s.u1 ∧ (wallZ n s x).b = s.b ∧
    (wallZ n s x).c = s.c ∧ (wallZ n s x).frame = s.frame := by
  unfold wallZ; split_ifs <;> simp

theorem enforce_walls_rest (n : ℕ) (s : State) :
    (enforce_walls n s).b = s.b ∧ (enforce_walls n s).c = s.c ∧
    (enforce_walls n s).frame = s.frame := by
  unfold enforce_walls
  refine ⟨?_, ?_, ?_⟩
  · rw [foldl_preserve (wallZ n) State.b (fun t x => (wallZ_rest n t x).2.2.1),
      foldl_preserve (wallY n) State.b (fun t x => (wallY_rest n t x).2.2.1),
      foldl_preserve (wallX n) State.b (fun t x => (wallX_rest n t x).2.2.1)]
  · rw [foldl_preserve (wallZ n) State.c (fun t x => (wallZ_rest n t x).2.2.2.1),
      foldl_preserve (wallY n) State.c (fun t x => (wallY_rest n t x).2.2.2.1),
      foldl_preserve (wallX n) State.c (fun t x => (wallX_rest n t x).2.2.2.1)]
  · rw [foldl_preserve (wallZ n) State.frame (fun t x => (wallZ_rest n t x).2.2.2.2),
      foldl_preserve (wallY n) State.frame (fun t x => (wallY_rest n t x).2.2.2.2),
      foldl_preserve (wallX n) State.frame (fun t x => (wallX_rest n t x).2.2.2.2)]

theorem enforce_walls_u0 (n : ℕ) (s : State) :
    (enforce_walls n s).u0 = ((FOR_EVERY_X_FLOW n).foldl (wallX n) s).u0 := by
  unfold enforce_walls
  rw [foldl_preserve (wallZ n) State.u0 (fun t x => (wallZ_rest n t x).1),
    foldl_preserve (wallY n) State.u0 (fun t x => (wallY_rest n t x).1)]

theorem enforce_walls_u1 (n : ℕ) (s : State) :
    (enforce_walls n s).u1 = ((FOR_EVERY_Y_FLOW n).foldl (wallY n) s).u1 := by
  have h0 : ((FOR_EVERY_X_FLOW n).foldl (wallX n) s).u1 = s.u1 :=
    foldl_preserve (wallX n) State.u1 (fun t x => (wallX_rest n t x).1) _ s
  unfold enforce_walls
  rw [foldl_preserve (wallZ n) State.u1 (fun t x => (wallZ_rest n t x).2.1)]
  funext a b c
  by_cases h : (a, b, c) ∈ FOR_EVERY_Y_FLOW n ∧ (b = 0 ∨ b = n)
  · rw [(wall_hit_y n _ a b c).1 h, (wall_hit_y n _ a b c).1 h]
  · rw [(wall_hit_y n _ a b c).2 h, (wall_hit_y n _ a b c).2 h, h0]

theorem enforce_walls_u2 (n : ℕ) (s : State) :
    (enforce_walls n s).u2 = ((FOR_EVERY_Z_FLOW n).foldl (wallZ n) s).u2 := by
  have h0 : ((FOR_EVERY_Y_FLOW n).foldl (wallY n)
      ((FOR_EVERY_X_FLOW n).foldl (wallX n) s)).u2 = s.u2 := by
    rw [foldl_preserve (wallY n) State.u2 (fun t x => (wallY_rest n t x).2.1),
      foldl_preserve (wallX n) State.u2 (fun t x => (wallX_rest n t x).2.1)]
  unfold enforce_walls
  funext a b c
  by_cases h : (a, b, c) ∈ FOR_EVERY_Z_FLOW n ∧ (c = 0 ∨ c = n)
  · rw [(wall_hit_z n _ a b c).1 h, (wall_hit_z n _ a b c).1 h]
  · rw [(wall_hit_z n _ a b c).2 h, (wall_hit_z n _ a b c).2 h, h0]

/-! ## The smoke source -/

theorem nozzleCell_rest (n : ℕ) (ij : ℤ × ℤ) (s : State) (k : ℤ) :
    (nozzleCell n ij s k).u0 = s.u0 ∧ (nozzleCell n ij s k).u2 = s.u2 ∧
    (nozzleCell n ij s k).b = s.b ∧ (nozzleCell n ij s k).frame = s.frame :=
  ⟨rfl, rfl, rfl, rfl⟩

theorem nozzleColumn_rest (n : ℕ) (s : State) (ij : ℤ × ℤ) :
    (nozzleColumn n s ij).u0 = s.u0 ∧ (nozzleColumn n s ij).u2 = s.u2 ∧
    (nozzleColumn n s ij).b = s.b ∧ (nozzleColumn n s ij).frame = s.frame := by
  unfold nozzleColumn
  split_ifs
  · exact ⟨foldl_preserve (nozzleCell n ij) State.u0 (fun _ _ => rfl) _ s,
      foldl_preserve (nozzleCell n ij) State.u2 (fun _ _ => rfl) _ s,
      foldl_preserve (nozzleCell n ij) State.b (fun _ _ => rfl) _ s,
      foldl_preserve (nozzleCell n ij) State.frame (fun _ _ => rfl) _ s⟩
  · exact ⟨rfl, rfl, rfl, rfl⟩

theorem inject_rest (n : ℕ) (s : State) :
    (inject n s).u0 = s.u0 ∧ (inject n s).u2 = s.u2 ∧
    (inject n s).b = s.b ∧ (inject n s).frame = s.frame := by
  unfold inject
  split_ifs
  · exact ⟨foldl_preserve (nozzleColumn n) State.u0 (fun t x => (nozzleColumn_rest n t x).1) _ s,
      foldl_preserve (nozzleColumn n) State.u2 (fun t x => (nozzleColumn_rest n t x).2.1) _ s,
      foldl_preserve (nozzleColumn n) State.b (fun t x => (nozzleColumn_rest n t x).2.2.1) _ s,
      foldl_preserve (nozzleColumn n) State.frame
        (fun t x => (nozzleColumn_rest n t x).2.2.2) _ s⟩
  · exact ⟨rfl, rfl, rfl, rfl⟩

/-- The index pairs visited by the `(i, j)` loops reach exactly the nozzle. -/
theorem nozzle_visited (n : ℕ) (a b c : ℤ) :
    (∃ ij ∈ List.product (Int.range (-((n / 7 : ℕ) : ℤ)) (((n / 7 : ℕ) : ℤ) + 1))
        (Int.range (-((n / 7 : ℕ) : ℤ)) (((n / 7 : ℕ) : ℤ) + 1)),
      hypot2_lt ij.1 ij.2 ((n / 7 : ℕ) : ℤ) ∧
      ∃ k ∈ Int.range 0 6, a = ((n / 2 : ℕ) : ℤ) + ij.1 ∧ b = k + 1 ∧
        c = ((n / 2 : ℕ) : ℤ) + ij.2) ↔ inNozzle n a b c := by
  constructor
  · rintro ⟨⟨i, j⟩, _, hh, k, hk, rfl, rfl, rfl⟩
    rw [Int.mem_range_iff] at hk
    refine ⟨?_, by omega, by omega⟩
    simpa using hh
  · rintro ⟨hh, hb1, hb6⟩
    refine ⟨(a - ((n / 2 : ℕ) : ℤ), c - ((n / 2 : ℕ) : ℤ)), ?_, hh, b - 1, ?_, ?_⟩
    · obtain ⟨hw, hlt⟩ := hh
      rw [List.pair_mem_product, Int.mem_range_iff, Int.mem_range_iff]
      refine ⟨⟨?_, ?_⟩, ⟨?_, ?_⟩⟩ <;> nlinarith
    · rw [Int.mem_range_iff]; omega
    · refine ⟨by ring, by ring, by ring⟩

/-- One nozzle column stores 1 into c at its six layers. -/
theorem nozzleColumn_c (n : ℕ) (s : State) (ij : ℤ × ℤ) (a b c : ℤ) :
    ((hypot2_lt ij.1 ij.2 ((n / 7 : ℕ) : ℤ) ∧
      ∃ k ∈ Int.range 0 6, a = ((n / 2 : ℕ) : ℤ) + ij.1 ∧ b = k + 1 ∧
        c = ((n / 2 : ℕ) : ℤ) + ij.2) → (nozzleColumn n s ij).c a b c = 1) ∧
    (¬ (hypot2_lt ij.1 ij.2 ((n / 7 : ℕ) : ℤ) ∧
      ∃ k ∈ Int.range 0 6, a = ((n / 2 : ℕ) : ℤ) + ij.1 ∧ b = k + 1 ∧
        c = ((n / 2 : ℕ) : ℤ) + ij.2) → (nozzleColumn n s ij).c a b c = s.c a b c) := by
  have key := foldl_const_write (nozzleCell n ij) (fun t => t.c a b c) 1
    (fun k => a = ((n / 2 : ℕ) : ℤ) + ij.1 ∧ b = k + 1 ∧ c = ((n / 2 : ℕ) : ℤ) + ij.2)
    (fun _ => True) (fun _ _ _ => trivial)
    (fun t k _ hh => Grid.set_hit _ _ _ _ _ _ _ _ hh)
    (fun t k _ hh => Grid.set_other _ _ _ _ _ _ _ _ hh)
    (Int.range 0 6) s trivial
  unfold nozzleColumn
  by_cases hh : hypot2_lt ij.1 ij.2 ((n / 7 : ℕ) : ℤ)
  · rw [if_pos hh]
    exact ⟨fun h => key.1 h.2, fun h => key.2 (fun h2 => h ⟨hh, h2⟩)⟩
  · rw [if_neg hh]
    exact ⟨fun h => absurd h.1 hh, fun _ => rfl⟩

/-- The source stores 1 into c on the nozzle while `frame < LIMIT/2`
and leaves every other entry alone. -/
theorem inject_c (n : ℕ) (s : State) (a b c : ℤ) :
    ((s.frame < LIMIT / 2 ∧ inNozzle n a b c) → (inject n s).c a b c = 1) ∧
    (¬ (s.frame < LIMIT / 2 ∧ inNozzle n a b c) → (inject n s).c a b c = s.c a b c) := by
  have key := foldl_const_write (nozzleColumn n) (fun t => t.c a b c) 1
    (fun ij => hypot2_lt ij.1 ij.2 ((n / 7 : ℕ) : ℤ) ∧
      ∃ k ∈ Int.range 0 6, a = ((n / 2 : ℕ) : ℤ) + ij.1 ∧ b = k + 1 ∧
        c = ((n / 2 : ℕ) : ℤ) + ij.2)
    (fun _ => True) (fun _ _ _ => trivial)
    (fun t ij _ hh => (nozzleColumn_c n t ij a b c).1 hh)
    (fun t ij _ hh => (nozzleColumn_c n t ij a b c).2 hh)
    (List.product (Int.range (-((n / 7 : ℕ) : ℤ)) (((n / 7 : ℕ) : ℤ) + 1))
      (Int.range (-((n / 7 : ℕ) : ℤ)) (((n / 7 : ℕ) : ℤ) + 1))) s trivial
  rw [nozzle_visited] at key
  unfold inject
  by_cases hf : s.frame < LIMIT / 2
  · rw [if_pos hf]
    exact ⟨fun h => key.1 h.2, fun h => key.2 (fun h2 => h ⟨hf, h2⟩)⟩
  · rw [if_neg hf]
    exact ⟨fun h => absurd h.1 hf, fun _ => rfl⟩

/-- One nozzle column stores 0 into u1 at its six layers. -/
theorem nozzleColumn_u1 (n : ℕ) (s : State) (ij : ℤ × ℤ) (a b c : ℤ) :
    ((hypot2_lt ij.1 ij.2 ((n / 7 : ℕ) : ℤ) ∧
      ∃ k ∈ Int.range 0 6, a = ((n / 2 : ℕ) : ℤ) + ij.1 ∧ b = k + 1 ∧
        c = ((n / 2 : ℕ) : ℤ) + ij.2) → (nozzleColumn n s ij).u1 a b c = 0) ∧
    (¬ (hypot2_lt ij.1 ij.2 ((n / 7 : ℕ) : ℤ) ∧
      ∃ k ∈ Int.range 0 6, a = ((n / 2 : ℕ) : ℤ) + ij.1 ∧ b = k + 1 ∧
        c = ((n / 2 : ℕ) : ℤ) + ij.2) → (nozzleColumn n s ij).u1 a b c = s.u1 a b c) := by
  have key := foldl_const_write (nozzleCell n ij) (fun t => t.u1 a b c) 0
    (fun k => a = ((n / 2 : ℕ) : ℤ) + ij.1 ∧ b = k + 1 ∧ c = ((n / 2 : ℕ) : ℤ) + ij.2)
    (fun _ => True) (fun _ _ _ => trivial)
    (fun t k _ hh => Grid.set_hit _ _ _ _ _ _ _ _ hh)
    (fun t k _ hh => Grid.set_other _ _ _ _ _ _ _ _ hh)
    (Int.range 0 6) s trivial
  unfold nozzleColumn
  by_cases hh : hypot2_lt ij.1 ij.2 ((n / 7 : ℕ) : ℤ)
  · rw [if_pos hh]
    exact ⟨fun h => key.1 h.2, fun h => key.2 (fun h2 => h ⟨hh, h2⟩)⟩
  · rw [if_neg hh]
    exact ⟨fun h => absurd h.1 hh, fun _ => rfl⟩

/-- The source stores 0 into u1 on the nozzle while `frame < LIMIT/2`
and leaves every other entry alone. -/
theorem inject_u1 (n : ℕ) (s : State) (a b c : ℤ) :
    ((s.frame < LIMIT / 2 ∧ inNozzle n a b c) → (inject n s).u1 a b c = 0) ∧
    (¬ (s.frame < LIMIT / 2 ∧ inNozzle n a b c) → (inject n s).u1 a b c = s.u1 a b c) := by
  have key := foldl_const_write (nozzleColumn n) (fun t => t.u1 a b c) 0
    (fun ij => hypot2_lt ij.1 ij.2 ((n / 7 : ℕ) : ℤ) ∧
      ∃ k ∈ Int.range 0 6, a = ((n / 2 : ℕ) : ℤ) + ij.1 ∧ b = k + 1 ∧
        c = ((n / 2 : ℕ) : ℤ) + ij.2)
    (fun _ => True) (fun _ _ _ => trivial)
    (fun t ij _ hh => (nozzleColumn_u1 n t ij a b c).1 hh)
    (fun t ij _ hh => (nozzleColumn_u1 n t ij a b c).2 hh)
    (List.product (Int.range (-((n / 7 : ℕ) : ℤ)) (((n / 7 : ℕ) : ℤ) + 1))
      (Int.range (-((n / 7 : ℕ) : ℤ)) (((n / 7 : ℕ) : ℤ) + 1))) s trivial
  rw [nozzle_visited] at key
  unfold inject
  by_cases hf : s.frame < LIMIT / 2
  · rw [if_pos hf]
    exact ⟨fun h => key.1 h.2, fun h => key.2 (fun h2 => h ⟨hf, h2⟩)⟩
  · rw [if_neg hf]
    exact ⟨fun h => absurd h.1 hf, fun _ => rfl⟩

/-! ## Closed form of `init` -/

theorem sphereCell_rest (n : ℕ) (w : ℤ) (s : State) (x : Idx) :
    (sphereCell n w s x).u0 = s.u0 ∧ (sphereCell n w s x).u1 = s.u1 ∧
    (sphereCell n w s x).u2 = s.u2 ∧ (sphereCell n w s x).c = s.c ∧
    (sphereCell n w s x).frame = s.frame := by
  unfold sphereCell; split_ifs <;> simp

theorem clear_zero (f : State → Idx → State) (get : State → Grid)
    (hf : ∀ t x, get (f t x) = (get t).set x.1 x.2.1 x.2.2 0) (l : List Idx) (s : State)
    (hs : get s = Grid.zero) : get (l.foldl f s) = Grid.zero := by
  induction l generalizing s with
  | nil => exact hs
  | cons x l ih =>
    rw [List.foldl_cons]
    apply ih
    rw [hf, hs]
    funext a b c
    simp [Grid.set, Grid.zero]

theorem init_fields (n : ℕ) :
    (init n).u0 = Grid.zero ∧ (init n).u1 = Grid.zero ∧ (init n).u2 = Grid.zero ∧
    (init n).c = Grid.zero ∧ (init n).frame = 0 := by
  unfold init
  refine ⟨?_, ?_, ?_, ?_, ?_⟩
  · rw [foldl_preserve (sphereCell n (sphereW n)) State.u0 (fun t x => (sphereCell_rest n _ t x).1),
      foldl_preserve clearZ State.u0 (fun _ _ => rfl),
      foldl_preserve clearY State.u0 (fun _ _ => rfl)]
    exact clear_zero clearX State.u0 (fun _ _ => rfl) _ _ rfl
  · rw [foldl_preserve (sphereCell n (sphereW n)) State.u1
        (fun t x => (sphereCell_rest n _ t x).2.1),
      foldl_preserve clearZ State.u1 (fun _ _ => rfl)]
    refine clear_zero clearY State.u1 (fun _ _ => rfl) _ _ ?_
    rw [foldl_preserve clearX State.u1 (fun _ _ => rfl)]
    rfl
  · rw [foldl_preserve (sphereCell n (sphereW n)) State.u2
        (fun t x => (sphereCell_rest n _ t x).2.2.1)]
    refine clear_zero clearZ State.u2 (fun _ _ => rfl) _ _ ?_
    rw [foldl_preserve clearY State.u2 (fun _ _ => rfl),
      foldl_preserve clearX State.u2 (fun _ _ => rfl)]
    rfl
  · rw [foldl_preserve (sphereCell n (sphereW n)) State.c
        (fun t x => (sphereCell_rest n _ t x).2.2.2.1),
      foldl_preserve clearZ State.c (fun _ _ => rfl),
      foldl_preserve clearY State.c (fun _ _ => rfl),
      foldl_preserve clearX State.c (fun _ _ => rfl)]
    rfl
  · rw [foldl_preserve (sphereCell n (sphereW n)) State.frame
        (fun t x => (sphereCell_rest n _ t x).2.2.2.2),
      foldl_preserve clearZ State.frame (fun _ _ => rfl),
      foldl_preserve clearY State.frame (fun _ _ => rfl),
      foldl_preserve clearX State.frame (fun _ _ => rfl)]
    rfl

theorem sphere_visited (n : ℕ) (a b c : ℤ) :
    (∃ x ∈ sphereOffsets (sphereW n), hypot3_lt x.1 x.2.1 x.2.2 (sphereW n) ∧
      (a = x.1 + ((n / 2 : ℕ) : ℤ) ∧ b = x.2.1 + ((n / 2 : ℕ) : ℤ) ∧
        c = x.2.2 + ((n / 2 : ℕ) : ℤ))) ↔ inSphere n a b c := by
  constructor
  · rintro ⟨⟨i, j, k⟩, _, hh, rfl, rfl, rfl⟩
    simpa [inSphere] using hh
  · intro hh
    refine ⟨(a - ((n / 2 : ℕ) : ℤ), b - ((n / 2 : ℕ) : ℤ), c - ((n / 2 : ℕ) : ℤ)), ?_, hh,
      by ring, by ring, by ring⟩
    obtain ⟨hw, hlt⟩ := hh
    simp only [sphereOffsets, List.pair_mem_product, Int.mem_range_iff]
    refine ⟨⟨?_, ?_⟩, ⟨?_, ?_⟩, ⟨?_, ?_⟩⟩ <;> nlinarith

/-- The mask after `init`: 1.0 on the marked sphere, 0.0 elsewhere. -/
theorem init_b (n : ℕ) (a b c : ℤ) :
    (inSphere n a b c → (init n).b a b c = 1) ∧ (¬ inSphere n a b c → (init n).b a b c = 0) := by
  have hb0 : ((FOR_EVERY_Z_FLOW n).foldl clearZ ((FOR_EVERY_Y_FLOW n).foldl clearY
      ((FOR_EVERY_X_FLOW n).foldl clearX allocated))).b = Grid.zero := by
    rw [foldl_preserve clearZ State.b (fun _ _ => rfl),
      foldl_preserve clearY State.b (fun _ _ => rfl),
      foldl_preserve clearX State.b (fun _ _ => rfl)]
    rfl
  have key := foldl_const_write (sphereCell n (sphereW n)) (fun t => t.b a b c) 1
    (fun x => hypot3_lt x.1 x.2.1 x.2.2 (sphereW n) ∧
      (a = x.1 + ((n / 2 : ℕ) : ℤ) ∧ b = x.2.1 + ((n / 2 : ℕ) : ℤ) ∧
        c = x.2.2 + ((n / 2 : ℕ) : ℤ)))
    (fun _ => True) (fun _ _ _ => trivial)
    (fun t x _ hh => by
      unfold sphereCell
      rw [if_pos hh.1]
      exact Grid.set_hit _ _ _ _ _ _ _ _ hh.2)
    (fun t x _ hh => by
      unfold sphereCell
      by_cases h1 : hypot3_lt x.1 x.2.1 x.2.2 (sphereW n)
      · rw [if_pos h1]
        exact Grid.set_other _ _ _ _ _ _ _ _ (fun h2 => hh ⟨h1, h2⟩)
      · rw [if_neg h1])
    (sphereOffsets (sphereW n))
    ((FOR_EVERY_Z_FLOW n).foldl clearZ ((FOR_EVERY_Y_FLOW n).foldl clearY
      ((FOR_EVERY_X_FLOW n).foldl clearX allocated))) trivial
  rw [sphere_visited] at key
  refine ⟨fun h => key.1 h, fun h => ?_⟩
  have h2 := key.2 h
  simp only [hb0] at h2
  exact h2

/-! ## Closed form of `enforce_boundary` -/

theorem enforce_boundary_b (n : ℕ) (s : State) : (enforce_boundary n s).b = s.b := by
  unfold enforce_boundary
  rw [(enforce_buoyancy_rest n _).2.2.1, enforce_obstacle_b, (inject_rest n _).2.2.1,
    (enforce_walls_rest n s).1]

theorem enforce_boundary_frame (n : ℕ) (s : State) :
    (enforce_boundary n s).frame = s.frame := by
  unfold enforce_boundary
  rw [(enforce_buoyancy_rest n _).2.2.2.2, enforce_obstacle_frame, (inject_rest n _).2.2.2,
    (enforce_walls_rest n s).2.2]

/-- Density after `enforce_boundary`: 0 in marked cells, else 1 on the nozzle
during injection, else unchanged. -/
theorem enforce_boundary_c (n : ℕ) (s : State) (a b c : ℤ) :
    (((a, b, c) ∈ FOR_EVERY_CELL n ∧ s.b a b c ≠ 0) → (enforce_boundary n s).c a b c = 0) ∧
    (¬ ((a, b, c) ∈ FOR_EVERY_CELL n ∧ s.b a b c ≠ 0) →
      (s.frame < LIMIT / 2 ∧ inNozzle n a b c) → (enforce_boundary n s).c a b c = 1) ∧
    (¬ ((a, b, c) ∈ FOR_EVERY_CELL n ∧ s.b a b c ≠ 0) →
      ¬ (s.frame < LIMIT / 2 ∧ inNozzle n a b c) →
        (enforce_boundary n s).c a b c = s.c a b c) := by
  have hb : (inject n (enforce_walls n s)).b = s.b := by
    rw [(inject_rest n _).2.2.1, (enforce_walls_rest n s).1]
  have hfr : (enforce_walls n s).frame = s.frame := (enforce_walls_rest n s).2.2
  have hc : (enforce_walls n s).c = s.c := (enforce_walls_rest n s).2.1
  have ho := enforce_obstacle_c n (inject n (enforce_walls n s)) a b c
  have hi := inject_c n (enforce_walls n s) a b c
  rw [hb] at ho
  rw [hfr, hc] at hi
  unfold enforce_boundary
  rw [(enforce_buoyancy_rest n _).2.2.2.1]
  refine ⟨fun h => ho.1 h, fun h1 h2 => ?_, fun h1 h2 => ?_⟩
  · rw [ho.2 h1, hi.1 h2]
  · rw [ho.2 h1, hi.2 h2]

/-- Vertical velocity just before the buoyancy sweep. -/
theorem pre_buoyancy_u1 (n : ℕ) (s : State) (a b c : ℤ) :
    ((((a, b, c) ∈ FOR_EVERY_CELL n ∧ s.b a b c ≠ 0) ∨
      ((a, b - 1, c) ∈ FOR_EVERY_CELL n ∧ s.b a (b - 1) c ≠ 0)) →
        (enforce_obstacle n (inject n (enforce_walls n s))).u1 a b c = 0) ∧
    ((s.frame < LIMIT / 2 ∧ inNozzle n a b c) →
        (enforce_obstacle n (inject n (enforce_walls n s))).u1 a b c = 0) ∧
    (((a, b, c) ∈ FOR_EVERY_Y_FLOW n ∧ (b = 0 ∨ b = n)) →
        (enforce_obstacle n (inject n (enforce_walls n s))).u1 a b c = 0) ∧
    (¬ (((a, b, c) ∈ FOR_EVERY_CELL n ∧ s.b a b c ≠ 0) ∨
      ((a, b - 1, c) ∈ FOR_EVERY_CELL n ∧ s.b a (b - 1) c ≠ 0)) →
      ¬ (s.frame < LIMIT / 2 ∧ inNozzle n a b c) →
      ¬ ((a, b, c) ∈ FOR_EVERY_Y_FLOW n ∧ (b = 0 ∨ b = n)) →
        (enforce_obstacle n (inject n (enforce_walls n s))).u1 a b c = s.u1 a b c) := by
  have hb : (inject n (enforce_walls n s)).b = s.b := by
    rw [(inject_rest n _).2.2.1, (enforce_walls_rest n s).1]
  have hfr : (enforce_walls n s).frame = s.frame := (enforce_walls_rest n s).2.2
  have ho := enforce_obstacle_u1 n (inject n (enforce_walls n s)) a b c
  have hi := inject_u1 n (enforce_walls n s) a b c
  have hw := wall_hit_y n s a b c
  rw [hb] at ho
  rw [hfr, enforce_walls_u1] at hi
  refine ⟨ho.1, fun h => ?_, fun h => ?_, fun h1 h2 h3 => ?_⟩
  · by_cases h1 : (((a, b, c) ∈ FOR_EVERY_CELL n ∧ s.b a b c ≠ 0) ∨
      ((a, b - 1, c) ∈ FOR_EVERY_CELL n ∧ s.b a (b - 1) c ≠ 0))
    · exact ho.1 h1
    · rw [ho.2 h1, hi.1 h]
  · by_cases h1 : (((a, b, c) ∈ FOR_EVERY_CELL n ∧ s.b a b c ≠ 0) ∨
      ((a, b - 1, c) ∈ FOR_EVERY_CELL n ∧ s.b a (b - 1) c ≠ 0))
    · exact ho.1 h1
    · by_cases h2 : s.frame < LIMIT / 2 ∧ inNozzle n a b c
      · rw [ho.2 h1, hi.1 h2]
      · rw [ho.2 h1, hi.2 h2, hw.1 h]
  · rw [ho.2 h1, hi.2 h2, hw.2 h3]

/-- Vertical velocity after `enforce_boundary`: the value before the buoyancy
sweep plus, at every cell index, `0.1` times the final density. -/
theorem enforce_boundary_u1 (n : ℕ) (s : State) (a b c : ℤ) :
    ((a, b, c) ∈ FOR_EVERY_CELL n → (enforce_boundary n s).u1 a b c =
      (enforce_obstacle n (inject n (enforce_walls n s))).u1 a b c +
        (1 / 10) * (enforce_boundary n s).c a b c) ∧
    ((a, b, c) ∉ FOR_EVERY_CELL n → (enforce_boundary n s).u1 a b c =
      (enforce_obstacle n (inject n (enforce_walls n s))).u1 a b c) := by
  have hu := enforce_buoyancy_u1 n (enforce_obstacle n (inject n (enforce_walls n s))) a b c
  have hc : (enforce_boundary n s).c = (enforce_obstacle n (inject n (enforce_walls n s))).c :=
    (enforce_buoyancy_rest n _).2.2.2.1
  rw [hc]
  exact hu

theorem enforce_boundary_u0 (n : ℕ) (s : State) (a b c : ℤ) :
    ((((a, b, c) ∈ FOR_EVERY_CELL n ∧ s.b a b c ≠ 0) ∨
      ((a - 1, b, c) ∈ FOR_EVERY_CELL n ∧ s.b (a - 1) b c ≠ 0)) →
        (enforce_boundary n s).u0 a b c = 0) ∧
    (((a, b, c) ∈ FOR_EVERY_X_FLOW n ∧ (a = 0 ∨ a = n)) →
        (enforce_boundary n s).u0 a b c = 0) ∧
    (¬ (((a, b, c) ∈ FOR_EVERY_CELL n ∧ s.b a b c ≠ 0) ∨
      ((a - 1, b, c) ∈ FOR_EVERY_CELL n ∧ s.b (a - 1) b c ≠ 0)) →
      ¬ ((a, b, c) ∈ FOR_EVERY_X_FLOW n ∧ (a = 0 ∨ a = n)) →
        (enforce_boundary n s).u0 a b c = s.u0 a b c) := by
  have hb : (inject n (enforce_walls n s)).b = s.b := by
    rw [(inject_rest n _).2.2.1, (enforce_walls_rest n s).1]
  have ho := enforce_obstacle_u0 n (inject n (enforce_walls n s)) a b c
  have hw := wall_hit_x n s a b c
  rw [hb, (inject_rest n _).1, enforce_walls_u0] at ho
  unfold enforce_boundary
  rw [(enforce_buoyancy_rest n _).1]
  refine ⟨ho.1, fun h => ?_, fun h1 h2 => ?_⟩
  · by_cases h1 : (((a, b, c) ∈ FOR_EVERY_CELL n ∧ s.b a b c ≠ 0) ∨
      ((a - 1, b, c) ∈ FOR_EVERY_CELL n ∧ s.b (a - 1) b c ≠ 0))
    · exact ho.1 h1
    · rw [ho.2 h1, hw.1 h]
  · rw [ho.2 h1, hw.2 h2]

theorem enforce_boundary_u2 (n : ℕ) (s : State) (a b c : ℤ) :
    ((((a, b, c) ∈ FOR_EVERY_CELL n ∧ s.b a b c ≠ 0) ∨
      ((a, b, c - 1) ∈ FOR_EVERY_CELL n ∧ s.b a b (c - 1) ≠ 0)) →
        (enforce_boundary n s).u2 a b c = 0) ∧
    (((a, b, c) ∈ FOR_EVERY_Z_FLOW n ∧ (c = 0 ∨ c = n)) →
        (enforce_boundary n s).u2 a b c = 0) ∧
    (¬ (((a, b, c) ∈ FOR_EVERY_CELL n ∧ s.b a b c ≠ 0) ∨
      ((a, b, c - 1) ∈ FOR_EVERY_CELL n ∧ s.b a b (c - 1) ≠ 0)) →
      ¬ ((a, b, c) ∈ FOR_EVERY_Z_FLOW n ∧ (c = 0 ∨ c = n)) →
        (enforce_boundary n s).u2 a b c = s.u2 a b c) := by
  have hb : (inject n (enforce_walls n s)).b = s.b := by
    rw [(inject_rest n _).2.2.1, (enforce_walls_rest n s).1]
  have ho := enforce_obstacle_u2 n (inject n (enforce_walls n s)) a b c
  have hw := wall_hit_z n
    ((FOR_EVERY_Y_FLOW n).foldl (wallY n) ((FOR_EVERY_X_FLOW n).foldl (wallX n) s)) a b c
  have h0 : ((FOR_EVERY_Y_FLOW n).foldl (wallY n)
      ((FOR_EVERY_X_FLOW n).foldl (wallX n) s)).u2 = s.u2 := by
    rw [foldl_preserve (wallY n) State.u2 (fun t x => (wallY_rest n t x).2.1),
      foldl_preserve (wallX n) State.u2 (fun t x => (wallX_rest n t x).2.1)]
  rw [h0] at hw
  rw [hb, (inject_rest n _).2.1] at ho
  have hw2 : (enforce_walls n s).u2 =
      ((FOR_EVERY_Z_FLOW n).foldl (wallZ n) ((FOR_EVERY_Y_FLOW n).foldl (wallY n)
        ((FOR_EVERY_X_FLOW n).foldl (wallX n) s))).u2 := rfl
  rw [hw2] at ho
  unfold enforce_boundary
  rw [(enforce_buoyancy_rest n _).2.1]
  refine ⟨ho.1, fun h => ?_, fun h1 h2 => ?_⟩
  · by_cases h1 : (((a, b, c) ∈ FOR_EVERY_CELL n ∧ s.b a b c ≠ 0) ∨
      ((a, b, c - 1) ∈ FOR_EVERY_CELL n ∧ s.b a b (c - 1) ≠ 0))
    · exact ho.1 h1
    · rw [ho.2 h1, hw.1 h]
  · rw [ho.2 h1, hw.2 h2]

/-- The nozzle lies inside the cell range. -/
theorem inNozzle_cell (n : ℕ) (a b c : ℤ) (h : inNozzle n a b c) :
    (a, b, c) ∈ FOR_EVERY_CELL n := by
  obtain ⟨⟨hw, hlt⟩, hb1, hb6⟩ := h
  have h1 : -((n / 7 : ℕ) : ℤ) < a - ((n / 2 : ℕ) : ℤ) := by nlinarith
  have h2 : a - ((n / 2 : ℕ) : ℤ) < ((n / 7 : ℕ) : ℤ) := by nlinarith
  have h3 : -((n / 7 : ℕ) : ℤ) < c - ((n / 2 : ℕ) : ℤ) := by nlinarith
  have h4 : c - ((n / 2 : ℕ) : ℤ) < ((n / 7 : ℕ) : ℤ) := by nlinarith
  rw [FOR_EVERY_CELL, mem_box]
  simp only
  omega

/-- The configured sphere radius in cells: `(int)(0.2*32) = 6`. -/
theorem sphereW_N : sphereW N = 6 := by
  unfold sphereW castInt SPHERE_R N
  rw [if_pos (by norm_num)]
  rw [Int.floor_eq_iff]
  constructor <;> norm_num

theorem inSphere_N (a b c : ℤ) :
    inSphere N a b c ↔
      (a - 16) * (a - 16) + (b - 16) * (b - 16) + (c - 16) * (c - 16) < 36 := by
  unfold inSphere hypot3_lt
  rw [sphereW_N]
  have h16 : (((N / 2 : ℕ) : ℤ)) = 16 := by decide
  rw [h16]
  constructor
  · rintro ⟨_, h⟩; linarith
  · intro h; exact ⟨by norm_num, by linarith⟩

/-! ## Boundary enforcement: wall and obstacle invariants (C1, C2, C3) -/

theorem mem_cell_N (a b c : ℤ) (ha : 0 ≤ a ∧ a < 32) (hb : 0 ≤ b ∧ b < 32)
    (hc : 0 ≤ c ∧ c < 32) : (a, b, c) ∈ FOR_EVERY_CELL N := by
  rw [FOR_EVERY_CELL, mem_box]
  simp only [N]
  norm_num
  omega

/-- The floor face of every cell of the bottom layer ends `enforce_boundary`
with `0.1` times the density of that cell: the buoyancy sweep runs after the
wall sweep and also visits `j = 0`. -/
theorem floor_face_value (n : ℕ) (s : State) (i k : ℤ)
    (hcell : (i, 0, k) ∈ FOR_EVERY_CELL n) :
    (enforce_boundary n s).u1 i 0 k = (1 / 10) * (enforce_boundary n s).c i 0 k := by
  have hy : (i, (0 : ℤ), k) ∈ FOR_EVERY_Y_FLOW n := by
    rw [FOR_EVERY_CELL, mem_box] at hcell
    rw [FOR_EVERY_Y_FLOW, mem_box]
    simp only at hcell ⊢
    omega
  rw [(enforce_boundary_u1 n s i 0 k).1 hcell,
    (pre_buoyancy_u1 n s i 0 k).2.2.1 ⟨hy, Or.inl rfl⟩, zero_add]

/-- C1, evaluated at the failing input `floorSmoke`: after `enforce_boundary`
the y-component on the domain boundary face `j = 0` of cell `(16, 0, 16)` is
`0.1`, not `0.0`. -/
theorem wall_floor_face_nonzero :
    (enforce_boundary N floorSmoke).u1 16 0 16 = 1 / 10 ∧
    (enforce_boundary N floorSmoke).u1 16 0 16 ≠ 0 := by
  have hcell : ((16 : ℤ), (0 : ℤ), (16 : ℤ)) ∈ FOR_EVERY_CELL N :=
    mem_cell_N 16 0 16 (by norm_num) (by norm_num) (by norm_num)
  have hb : floorSmoke.b 16 0 16 = 0 :=
    (init_b N 16 0 16).2 (by rw [inSphere_N]; norm_num)
  have hfr : ¬ (floorSmoke.frame < LIMIT / 2 ∧ inNozzle N 16 0 16) := by
    rintro ⟨h, _⟩
    simp [floorSmoke, LIMIT] at h
  have hc : (enforce_boundary N floorSmoke).c 16 0 16 = 1 := by
    rw [(enforce_boundary_c N floorSmoke 16 0 16).2.2 (fun h => h.2 hb) hfr]
    simp [floorSmoke, Grid.set]
  have hv : (enforce_boundary N floorSmoke).u1 16 0 16 = 1 / 10 := by
    rw [floor_face_value N floorSmoke 16 16 hcell, hc]
    norm_num
  exact ⟨hv, by rw [hv]; norm_num⟩

/-- C2, evaluated at the failing input `smokeAboveObstacle`: cell `(16, 21, 16)`
is marked in `b`, yet after `enforce_boundary` the y-component on its upper
face, `u1[16][22][16]`, is `0.1`, not `0.0`. -/
theorem obstacle_top_face_nonzero :
    smokeAboveObstacle.b 16 21 16 ≠ 0 ∧
    (enforce_boundary N smokeAboveObstacle).u1 16 22 16 = 1 / 10 ∧
    (enforce_boundary N smokeAboveObstacle).u1 16 22 16 ≠ 0 := by
  have hcell : ((16 : ℤ), (22 : ℤ), (16 : ℤ)) ∈ FOR_EVERY_CELL N :=
    mem_cell_N 16 22 16 (by norm_num) (by norm_num) (by norm_num)
  have hbelow : ((16 : ℤ), (22 : ℤ) - 1, (16 : ℤ)) ∈ FOR_EVERY_CELL N :=
    mem_cell_N 16 (22 - 1) 16 (by norm_num) (by norm_num) (by norm_num)
  have hb1 : smokeAboveObstacle.b 16 21 16 = 1 :=
    (init_b N 16 21 16).1 (by rw [inSphere_N]; norm_num)
  have hb1' : smokeAboveObstacle.b 16 (22 - 1) 16 ≠ 0 := by
    have h21 : ((22 : ℤ) - 1) = 21 := by norm_num
    rw [h21, hb1]; norm_num
  have hb0 : smokeAboveObstacle.b 16 22 16 = 0 :=
    (init_b N 16 22 16).2 (by rw [inSphere_N]; norm_num)
  have hfr : ¬ (smokeAboveObstacle.frame < LIMIT / 2 ∧ inNozzle N 16 22 16) := by
    rintro ⟨h, _⟩
    simp [smokeAboveObstacle, LIMIT] at h
  have hc : (enforce_boundary N smokeAboveObstacle).c 16 22 16 = 1 := by
    rw [(enforce_boundary_c N smokeAboveObstacle 16 22 16).2.2 (fun h => h.2 hb0) hfr]
    simp [smokeAboveObstacle, Grid.set]
  have hv : (enforce_boundary N smokeAboveObstacle).u1 16 22 16 = 1 / 10 := by
    rw [(enforce_boundary_u1 N smokeAboveObstacle 16 22 16).1 hcell,
      (pre_buoyancy_u1 N smokeAboveObstacle 16 22 16).1 (Or.inr ⟨hbelow, hb1'⟩), hc]
    norm_num
  exact ⟨by rw [hb1]; norm_num, hv, by rw [hv]; norm_num⟩

/-- C3: for every state, frame number and mask, after `enforce_boundary` the
density of every cell marked in `b` is exactly 0.0. -/
theorem obstacle_density_zero (n : ℕ) (s : State) (i j k : ℤ)
    (hcell : (i, j, k) ∈ FOR_EVERY_CELL n) (hb : s.b i j k ≠ 0) :
    (enforce_boundary n s).c i j k = 0 :=
  (enforce_boundary_c n s i j k).1 ⟨hcell, hb⟩

/-- Witness for C3 with a mask that overlaps the smoke nozzle during the
injection phase. -/
theorem obstacle_density_zero_witness :
    inNozzle N 16 1 16 ∧ nozzleBlocked.frame < LIMIT / 2 ∧
    (enforce_boundary N nozzleBlocked).c 16 1 16 = 0 :=
  ⟨by decide, by decide,
    obstacle_density_zero N nozzleBlocked 16 1 16
      (mem_cell_N 16 1 16 (by norm_num) (by norm_num) (by norm_num))
      (by simp [nozzleBlocked, Grid.set])⟩

/-! ## Scenario C: one injection step on an empty grid (C8) -/

/-- C8 as stated fails: starting from the state left by `init` (frame 0, all
velocities and densities zero), the nozzle cell `(16, 1, 16)` ends
`enforce_boundary` with vertical velocity `0.1`, not `0.0`. -/
theorem scenarioC_velocity_nonzero :
    (init N).frame = 0 ∧ (init N).u1 = Grid.zero ∧ (init N).c = Grid.zero ∧
    inNozzle N 16 1 16 ∧
    (enforce_boundary N (init N)).u1 16 1 16 = 1 / 10 ∧
    (enforce_boundary N (init N)).u1 16 1 16 ≠ 0 := by
  have hcell : ((16 : ℤ), (1 : ℤ), (16 : ℤ)) ∈ FOR_EVERY_CELL N :=
    mem_cell_N 16 1 16 (by norm_num) (by norm_num) (by norm_num)
  have hnz : inNozzle N 16 1 16 := by decide
  have hfr : (init N).frame < LIMIT / 2 := by
    rw [(init_fields N).2.2.2.2]; decide
  have hb : (init N).b 16 1 16 = 0 := (init_b N 16 1 16).2 (by rw [inSphere_N]; norm_num)
  have hc : (enforce_boundary N (init N)).c 16 1 16 = 1 :=
    (enforce_boundary_c N (init N) 16 1 16).2.1 (fun h => h.2 hb) ⟨hfr, hnz⟩
  have hv : (enforce_boundary N (init N)).u1 16 1 16 = 1 / 10 := by
    rw [(enforce_boundary_u1 N (init N) 16 1 16).1 hcell,
      (pre_buoyancy_u1 N (init N) 16 1 16).2.1 ⟨hfr, hnz⟩, hc]
    norm_num
  exact ⟨(init_fields N).2.2.2.2, (init_fields N).2.1, (init_fields N).2.2.2.1, hnz, hv,
    by rw [hv]; norm_num⟩

/-- C8, amended: in the injection phase, from all-zero velocity and density,
one `enforce_boundary` leaves every nozzle cell that is not an obstacle with
density exactly 1.0 and vertical velocity exactly 0.1 (the reset to 0.0
followed by the buoyancy term `0.1 * density`); every other density and
velocity entry is unchanged, i.e. still 0.0. -/
theorem scenarioC_amended (n : ℕ) (s : State) (hu0 : s.u0 = Grid.zero)
    (hu1 : s.u1 = Grid.zero) (hu2 : s.u2 = Grid.zero) (hc : s.c = Grid.zero)
    (hf : s.frame < LIMIT / 2) (a b c : ℤ) :
    ((inNozzle n a b c ∧ s.b a b c = 0) →
      (enforce_boundary n s).c a b c = 1 ∧ (enforce_boundary n s).u1 a b c = 1 / 10) ∧
    (¬ (inNozzle n a b c ∧ s.b a b c = 0) →
      (enforce_boundary n s).c a b c = 0 ∧ (enforce_boundary n s).u1 a b c = 0) ∧
    (enforce_boundary n s).u0 a b c = 0 ∧ (enforce_boundary n s).u2 a b c = 0 := by
  have hpre : (enforce_obstacle n (inject n (enforce_walls n s))).u1 a b c = 0 := by
    have h := pre_buoyancy_u1 n s a b c
    by_cases h1 : (((a, b, c) ∈ FOR_EVERY_CELL n ∧ s.b a b c ≠ 0) ∨
      ((a, b - 1, c) ∈ FOR_EVERY_CELL n ∧ s.b a (b - 1) c ≠ 0))
    · exact h.1 h1
    · by_cases h2 : s.frame < LIMIT / 2 ∧ inNozzle n a b c
      · exact h.2.1 h2
      · by_cases h3 : (a, b, c) ∈ FOR_EVERY_Y_FLOW n ∧ (b = 0 ∨ b = n)
        · exact h.2.2.1 h3
        · rw [h.2.2.2 h1 h2 h3, hu1]; rfl
  have hcv := enforce_boundary_c n s a b c
  have huv := enforce_boundary_u1 n s a b c
  refine ⟨?_, ?_, ?_, ?_⟩
  · rintro ⟨hnz, hb⟩
    have hcell := inNozzle_cell n a b c hnz
    have hc1 : (enforce_boundary n s).c a b c = 1 := hcv.2.1 (fun h => h.2 hb) ⟨hf, hnz⟩
    refine ⟨hc1, ?_⟩
    rw [huv.1 hcell, hpre, hc1]
    norm_num
  · intro hnot
    have hc0 : (enforce_boundary n s).c a b c = 0 := by
      by_cases h1 : (a, b, c) ∈ FOR_EVERY_CELL n ∧ s.b a b c ≠ 0
      · exact hcv.1 h1
      · have h2 : ¬ (s.frame < LIMIT / 2 ∧ inNozzle n a b c) := by
          rintro ⟨_, hnz⟩
          have hcell := inNozzle_cell n a b c hnz
          by_cases hb : s.b a b c = 0
          · exact hnot ⟨hnz, hb⟩
          · exact h1 ⟨hcell, hb⟩
        rw [hcv.2.2 h1 h2, hc]; rfl
    refine ⟨hc0, ?_⟩
    by_cases hcell : (a, b, c) ∈ FOR_EVERY_CELL n
    · rw [huv.1 hcell, hpre, hc0]; norm_num
    · rw [huv.2 hcell, hpre]
  · have h := enforce_boundary_u0 n s a b c
    by_cases h1 : (((a, b, c) ∈ FOR_EVERY_CELL n ∧ s.b a b c ≠ 0) ∨
      ((a - 1, b, c) ∈ FOR_EVERY_CELL n ∧ s.b (a - 1) b c ≠ 0))
    · exact h.1 h1
    · by_cases h2 : (a, b, c) ∈ FOR_EVERY_X_FLOW n ∧ (a = 0 ∨ a = n)
      · exact h.2.1 h2
      · rw [h.2.2 h1 h2, hu0]; rfl
  · have h := enforce_boundary_u2 n s a b c
    by_cases h1 : (((a, b, c) ∈ FOR_EVERY_CELL n ∧ s.b a b c ≠ 0) ∨
      ((a, b, c - 1) ∈ FOR_EVERY_CELL n ∧ s.b a b (c - 1) ≠ 0))
    · exact h.1 h1
    · by_cases h2 : (a, b, c) ∈ FOR_EVERY_Z_FLOW n ∧ (c = 0 ∨ c = n)
      · exact h.2.1 h2
      · rw [h.2.2 h1 h2, hu2]; rfl

/-- Witness for the amended C8 on the state left by `init`, at the nozzle cell
`(16, 1, 16)`. -/
theorem scenarioC_amended_witness :
    (inNozzle N 16 1 16 ∧ (init N).b 16 1 16 = 0) ∧
    (enforce_boundary N (init N)).c 16 1 16 = 1 ∧
    (enforce_boundary N (init N)).u1 16 1 16 = 1 / 10 := by
  have hin : inNozzle N 16 1 16 ∧ (init N).b 16 1 16 = 0 :=
    ⟨by decide, (init_b N 16 1 16).2 (by rw [inSphere_N]; norm_num)⟩
  exact ⟨hin, (scenarioC_amended N (init N) (init_fields N).1 (init_fields N).2.1
    (init_fields N).2.2.1 (init_fields N).2.2.2.1
    (by rw [(init_fields N).2.2.2.2]; decide) 16 1 16).1 hin⟩

/-! ## Scenario B: the obstacle mask of `init` (C9) -/

/-- C9 as stated fails in both directions: the centre of cell `(10, 16, 16)`
lies within distance 0.2 of the domain centre, yet `init` leaves
`b[10][16][16]` at 0.0; and `init` marks cell `(19, 19, 20)`, whose centre is
farther than 0.2 from the domain centre. -/
theorem scenarioB_cell_unmarked :
    (spec_centreWithin N SPHERE_R 10 16 16 ∧ (init N).b 10 16 16 = 0) ∧
    ((init N).b 19 19 20 = 1 ∧ ¬ spec_centreWithin N SPHERE_R 19 19 20) ∧
    ¬ ((init N).b 10 16 16 ≠ 0 ↔ spec_centreWithin N SPHERE_R 10 16 16) := by
  have h1 : spec_centreWithin N SPHERE_R 10 16 16 := by
    unfold spec_centreWithin SPHERE_R N
    norm_num
  have h2 : (init N).b 10 16 16 = 0 := (init_b N 10 16 16).2 (by rw [inSphere_N]; norm_num)
  have h3 : (init N).b 19 19 20 = 1 := (init_b N 19 19 20).1 (by rw [inSphere_N]; norm_num)
  have h4 : ¬ spec_centreWithin N SPHERE_R 19 19 20 := by
    unfold spec_centreWithin SPHERE_R N
    norm_num
  exact ⟨⟨h1, h2⟩, ⟨h3, h4⟩, fun h => (h.2 h1) h2⟩

/-- C9, amended: for N = 32 and r = 0.2, after `init` the mask is 1.0 at
exactly the cells `(i, j, k)` whose integer offset from cell `(16, 16, 16)` has
squared length below `6^2`, where `6 = (int)(0.2 * 32)`, and 0.0 at every
other cell. -/
theorem scenarioB_amended (i j k : ℤ) :
    (init N).b i j k =
      if (i - 16) * (i - 16) + (j - 16) * (j - 16) + (k - 16) * (k - 16) < 36 then 1
      else 0 := by
  by_cases h : (i - 16) * (i - 16) + (j - 16) * (j - 16) + (k - 16) * (k - 16) < 36
  · rw [if_pos h]
    exact (init_b N i j k).1 ((inSphere_N i j k).2 h)
  · rw [if_neg h]
    exact (init_b N i j k).2 (fun hh => h ((inSphere_N i j k).1 hh))

/-! ## Closed form of the sweeps of `project` -/

/-- The divergence sweep stores `divergenceAt` at every cell index. -/
theorem project_divergence_at (n : ℕ) (s : State) (div : Grid) (a b c : ℤ) :
    ((a, b, c) ∈ FOR_EVERY_CELL n → project_divergence n s div a b c = divergenceAt n s a b c) ∧
    ((a, b, c) ∉ FOR_EVERY_CELL n → project_divergence n s div a b c = div a b c) := by
  have key := foldl_own_write (divergenceCell n s) (fun d => d a b c)
    (fun _ => divergenceAt n s a b c) (a, b, c) (fun _ => True) (fun _ _ _ => trivial)
    (fun d _ => Grid.set_same d a b c _)
    (fun d x _ hx => Grid.set_other d _ _ _ _ _ _ _ (by
      rintro ⟨h1, h2, h3⟩
      exact hx (by ext <;> simp [h1, h2, h3])))
    (FOR_EVERY_CELL n) (nodup_box n n n) div trivial
  exact key

theorem subtractCell_rest (n : ℕ) (p : Grid) (s : State) (x : Idx) :
    (subtractCell n p s x).b = s.b ∧ (subtractCell n p s x).c = s.c ∧
    (subtractCell n p s x).frame = s.frame := by
  unfold subtractCell subtractZ subtractY subtractX
  split_ifs <;> simp

theorem project_subtract_rest (n : ℕ) (p : Grid) (s : State) :
    (project_subtract n p s).b = s.b ∧ (project_subtract n p s).c = s.c ∧
    (project_subtract n p s).frame = s.frame :=
  ⟨foldl_preserve (subtractCell n p) State.b (fun t x => (subtractCell_rest n p t x).1) _ s,
   foldl_preserve (subtractCell n p) State.c (fun t x => (subtractCell_rest n p t x).2.1) _ s,
   foldl_preserve (subtractCell n p) State.frame
    (fun t x => (subtractCell_rest n p t x).2.2) _ s⟩

/-- The x-faces after gradient subtraction. -/
theorem project_subtract_u0 (n : ℕ) (p : Grid) (s : State) (a b c : ℤ) :
    (((a, b, c) ∈ FOR_EVERY_CELL n ∧ 0 < a) → (project_subtract n p s).u0 a b c =
      s.u0 a b c - (p a b c - p (a - 1) b c) / cellWidth n) ∧
    (¬ ((a, b, c) ∈ FOR_EVERY_CELL n ∧ 0 < a) →
      (project_subtract n p s).u0 a b c = s.u0 a b c) := by
  have key := foldl_own_write (subtractCell n p) (fun t => t.u0 a b c)
    (fun v => if 0 < a ∧ a < n then v - (p a b c - p (a - 1) b c) / cellWidth n else v)
    (a, b, c) (fun _ => True) (fun _ _ _ => trivial)
    (fun t _ => by
      unfold subtractCell subtractZ subtractY subtractX
      split_ifs <;> simp [Grid.set])
    (fun t x _ hx => by
      have hne : ¬ (a = x.1 ∧ b = x.2.1 ∧ c = x.2.2) := by
        rintro ⟨h1, h2, h3⟩
        exact hx (by ext <;> simp [h1, h2, h3])
      unfold subtractCell subtractZ subtractY subtractX
      split_ifs <;> simp [Grid.set, hne])
    (FOR_EVERY_CELL n) (nodup_box n n n) s trivial
  constructor
  · rintro ⟨hm, ha⟩
    have han : a < n := by
      rw [FOR_EVERY_CELL, mem_box] at hm
      exact hm.1.2
    exact (key.1 hm).trans (if_pos ⟨ha, han⟩)
  · intro h
    by_cases hm : (a, b, c) ∈ FOR_EVERY_CELL n
    · have ha : ¬ (0 < a ∧ a < n) := fun h2 => h ⟨hm, h2.1⟩
      exact (key.1 hm).trans (if_neg ha)
    · exact key.2 hm

/-- The y-faces after gradient subtraction. -/
theorem project_subtract_u1 (n : ℕ) (p : Grid) (s : State) (a b c : ℤ) :
    (((a, b, c) ∈ FOR_EVERY_CELL n ∧ 0 < b) → (project_subtract n p s).u1 a b c =
      s.u1 a b c - (p a b c - p a (b - 1) c) / cellWidth n) ∧
    (¬ ((a, b, c) ∈ FOR_EVERY_CELL n ∧ 0 < b) →
      (project_subtract n p s).u1 a b c = s.u1 a b c) := by
  have key := foldl_own_write (subtractCell n p) (fun t => t.u1 a b c)
    (fun v => if 0 < b ∧ b < n then v - (p a b c - p a (b - 1) c) / cellWidth n else v)
    (a, b, c) (fun _ => True) (fun _ _ _ => trivial)
    (fun t _ => by
      unfold subtractCell subtractZ subtractY subtractX
      split_ifs <;> simp [Grid.set])
    (fun t x _ hx => by
      have hne : ¬ (a = x.1 ∧ b = x.2.1 ∧ c = x.2.2) := by
        rintro ⟨h1, h2, h3⟩
        exact hx (by ext <;> simp [h1, h2, h3])
      unfold subtractCell subtractZ subtractY subtractX
      split_ifs <;> simp [Grid.set, hne])
    (FOR_EVERY_CELL n) (nodup_box n n n) s trivial
  constructor
  · rintro ⟨hm, ha⟩
    have han : b < n := by
      rw [FOR_EVERY_CELL, mem_box] at hm
      exact hm.2.1.2
    exact (key.1 hm).trans (if_pos ⟨ha, han⟩)
  · intro h
    by_cases hm : (a, b, c) ∈ FOR_EVERY_CELL n
    · have ha : ¬ (0 < b ∧ b < n) := fun h2 => h ⟨hm, h2.1⟩
      exact (key.1 hm).trans (if_neg ha)
    · exact key.2 hm

/-- The z-faces after gradient subtraction. -/
theorem project_subtract_u2 (n : ℕ) (p : Grid) (s : State) (a b c : ℤ) :
    (((a, b, c) ∈ FOR_EVERY_CELL n ∧ 0 < c) → (project_subtract n p s).u2 a b c =
      s.u2 a b c - (p a b c - p a b (c - 1)) / cellWidth n) ∧
    (¬ ((a, b, c) ∈ FOR_EVERY_CELL n ∧ 0 < c) →
      (project_subtract n p s).u2 a b c = s.u2 a b c) := by
  have key := foldl_own_write (subtractCell n p) (fun t => t.u2 a b c)
    (fun v => if 0 < c ∧ c < n then v - (p a b c - p a b (c - 1)) / cellWidth n else v)
    (a, b, c) (fun _ => True) (fun _ _ _ => trivial)
    (fun t _ => by
      unfold subtractCell subtractZ subtractY subtractX
      split_ifs <;> simp [Grid.set])
    (fun t x _ hx => by
      have hne : ¬ (a = x.1 ∧ b = x.2.1 ∧ c = x.2.2) := by
        rintro ⟨h1, h2, h3⟩
        exact hx (by ext <;> simp [h1, h2, h3])
      unfold subtractCell subtractZ subtractY subtractX
      split_ifs <;> simp [Grid.set, hne])
    (FOR_EVERY_CELL n) (nodup_box n n n) s trivial
  constructor
  · rintro ⟨hm, ha⟩
    have han : c < n := by
      rw [FOR_EVERY_CELL, mem_box] at hm
      exact hm.2.2.2
    exact (key.1 hm).trans (if_pos ⟨ha, han⟩)
  · intro h
    by_cases hm : (a, b, c) ∈ FOR_EVERY_CELL n
    · have ha : ¬ (0 < c ∧ c < n) := fun h2 => h ⟨hm, h2.1⟩
      exact (key.1 hm).trans (if_neg ha)
    · exact key.2 hm

/-! ## Gradient subtraction (C5, C6, C7) -/

theorem cellWidth_ne_zero (n : ℕ) (hn : 0 < n) : cellWidth n ≠ 0 := by
  unfold cellWidth
  have : (n : ℚ) ≠ 0 := by exact_mod_cast hn.ne'
  exact one_div_ne_zero this

/-- C5: after the subtraction loop of `project`, every interior face along an
axis (index strictly between 0 and N on that axis) holds its old value minus
`(p at the cell of that index - p at the previous cell) / h` with `h = 1/N`,
and every domain boundary face (index 0 or N along its own axis) holds exactly
its old value. -/
theorem gradient_subtraction_faces (n : ℕ) (p : Grid) (s : State) (a b c : ℤ) :
    ((a, b, c) ∈ FOR_EVERY_X_FLOW n →
      ((0 < a ∧ a < n) → (project_subtract n p s).u0 a b c =
        s.u0 a b c - (p a b c - p (a - 1) b c) / (1 / (n : ℚ))) ∧
      ((a = 0 ∨ a = n) → (project_subtract n p s).u0 a b c = s.u0 a b c)) ∧
    ((a, b, c) ∈ FOR_EVERY_Y_FLOW n →
      ((0 < b ∧ b < n) → (project_subtract n p s).u1 a b c =
        s.u1 a b c - (p a b c - p a (b - 1) c) / (1 / (n : ℚ))) ∧
      ((b = 0 ∨ b = n) → (project_subtract n p s).u1 a b c = s.u1 a b c)) ∧
    ((a, b, c) ∈ FOR_EVERY_Z_FLOW n →
      ((0 < c ∧ c < n) → (project_subtract n p s).u2 a b c =
        s.u2 a b c - (p a b c - p a b (c - 1)) / (1 / (n : ℚ))) ∧
      ((c = 0 ∨ c = n) → (project_subtract n p s).u2 a b c = s.u2 a b c)) := by
  refine ⟨fun hm => ⟨fun h => ?_, fun h => ?_⟩, fun hm => ⟨fun h => ?_, fun h => ?_⟩,
    fun hm => ⟨fun h => ?_, fun h => ?_⟩⟩
  · rw [FOR_EVERY_X_FLOW, mem_box] at hm
    refine (project_subtract_u0 n p s a b c).1 ⟨?_, h.1⟩
    rw [FOR_EVERY_CELL, mem_box]
    exact ⟨⟨hm.1.1, h.2⟩, hm.2⟩
  · refine (project_subtract_u0 n p s a b c).2 ?_
    rintro ⟨hc, ha⟩
    rw [FOR_EVERY_CELL, mem_box] at hc
    have := hc.1.2
    simp only at this
    omega
  · rw [FOR_EVERY_Y_FLOW, mem_box] at hm
    refine (project_subtract_u1 n p s a b c).1 ⟨?_, h.1⟩
    rw [FOR_EVERY_CELL, mem_box]
    exact ⟨hm.1, ⟨hm.2.1.1, h.2⟩, hm.2.2⟩
  · refine (project_subtract_u1 n p s a b c).2 ?_
    rintro ⟨hc, ha⟩
    rw [FOR_EVERY_CELL, mem_box] at hc
    have := hc.2.1.2
    simp only at this
    omega
  · rw [FOR_EVERY_Z_FLOW, mem_box] at hm
    refine (project_subtract_u2 n p s a b c).1 ⟨?_, h.1⟩
    rw [FOR_EVERY_CELL, mem_box]
    exact ⟨hm.1, hm.2.1, ⟨hm.2.2.1, h.2⟩⟩
  · refine (project_subtract_u2 n p s a b c).2 ?_
    rintro ⟨hc, ha⟩
    rw [FOR_EVERY_CELL, mem_box] at hc
    have := hc.2.2.2
    simp only at this
    omega

/-- Witness for C5: with the pressure `p[i][j][k] = i` on the state left by
`init`, the interior x-face `(16, 16, 16)` is updated and the boundary x-face
`(0, 16, 16)` is not. -/
theorem gradient_subtraction_faces_witness :
    (project_subtract N pressureRamp (init N)).u0 16 16 16 =
      (init N).u0 16 16 16 -
        (pressureRamp 16 16 16 - pressureRamp (16 - 1) 16 16) / (1 / (N : ℚ)) ∧
    (project_subtract N pressureRamp (init N)).u0 0 16 16 = (init N).u0 0 16 16 := by
  have h1 : ((16 : ℤ), (16 : ℤ), (16 : ℤ)) ∈ FOR_EVERY_X_FLOW N := by
    rw [FOR_EVERY_X_FLOW, mem_box]; simp [N]
  have h0 : ((0 : ℤ), (16 : ℤ), (16 : ℤ)) ∈ FOR_EVERY_X_FLOW N := by
    rw [FOR_EVERY_X_FLOW, mem_box]; simp [N]
  exact ⟨((gradient_subtraction_faces N pressureRamp (init N) 16 16 16).1 h1).1
      ⟨by norm_num, by simp [N]⟩,
    ((gradient_subtraction_faces N pressureRamp (init N) 0 16 16).1 h0).2 (Or.inl rfl)⟩

theorem castInt_intCast (a : ℤ) : castInt (a : ℚ) = a := by
  unfold castInt
  split_ifs <;> simp

theorem clampCoord_intCast (extent a : ℤ) (h0 : 0 ≤ a) (h1 : a ≤ extent) :
    clampCoord extent (a : ℚ) = (a : ℚ) := by
  unfold clampCoord
  have ha : ¬ ((a : ℚ) < 0) := by
    have : (0 : ℚ) ≤ (a : ℚ) := by exact_mod_cast h0
    linarith
  have hb : ¬ ((a : ℚ) > (extent : ℚ)) := by
    have : (a : ℚ) ≤ (extent : ℚ) := by exact_mod_cast h1
    linarith
  simp only [if_neg ha, if_neg hb]

/-- Along one axis, an integer coordinate inside the extent is either the lower
sample index with weight 0 on the upper one, or the upper sample index with
weight 1 on it. -/
theorem axis_exact (extent a : ℤ) (h0 : 0 ≤ a) (h1 : a < extent) :
    (lowerIndex extent (a : ℚ) = a ∧
      clampCoord extent (a : ℚ) - ((lowerIndex extent (a : ℚ) : ℤ) : ℚ) = 0) ∨
    (lowerIndex extent (a : ℚ) + 1 = a ∧
      clampCoord extent (a : ℚ) - ((lowerIndex extent (a : ℚ) : ℤ) : ℚ) = 1) := by
  have hc := clampCoord_intCast extent a h0 (le_of_lt h1)
  have hl : lowerIndex extent (a : ℚ) = min (extent - 2) a := by
    unfold lowerIndex
    rw [hc, castInt_intCast]
  rw [hc, hl]
  by_cases h : a ≤ extent - 2
  · left
    rw [min_eq_right h]
    exact ⟨rfl, by simp⟩
  · right
    have h' : extent - 2 ≤ a := by omega
    rw [min_eq_left h']
    have e : a = extent - 2 + 1 := by omega
    refine ⟨by omega, ?_⟩
    rw [e]
    push_cast
    ring

/-- C10: for every field `d` of extent `width x height x depth` and every
integer grid coordinate `(a, b, c)` inside the extent, `interp` returns exactly
the stored value `d[a][b][c]`; this holds in particular when each extent is at
least 2, the case in which all eight reads stay inside the field. -/
theorem interp_exact_at_grid_points (d : Grid) (width height depth a b c : ℤ)
    (ha : 0 ≤ a ∧ a < width) (hb : 0 ≤ b ∧ b < height) (hc : 0 ≤ c ∧ c < depth) :
    interp d width height depth (a : ℚ) (b : ℚ) (c : ℚ) = d a b c := by
  unfold interp
  simp only
  rcases axis_exact width a ha.1 ha.2 with ⟨hi, hs⟩ | ⟨hi, hs⟩ <;>
  rcases axis_exact height b hb.1 hb.2 with ⟨hj, ht⟩ | ⟨hj, ht⟩ <;>
  rcases axis_exact depth c hc.1 hc.2 with ⟨hk, hv⟩ | ⟨hk, hv⟩ <;>
  rw [hs, ht, hv, hi, hj, hk] <;> ring

/-- Witness for C10: on a `4 x 4 x 4` field with pairwise different entries,
sampling at the last grid point `(3, 3, 3)` and at `(1, 3, 0)` returns the
stored values. -/
theorem interp_exact_at_grid_points_witness :
    interp sampleField 4 4 4 3 3 3 = sampleField 3 3 3 ∧
    interp sampleField 4 4 4 1 3 0 = sampleField 1 3 0 :=
  ⟨by
    have h := interp_exact_at_grid_points sampleField 4 4 4 3 3 3 (by norm_num) (by norm_num)
      (by norm_num)
    simpa using h,
   by
    have h := interp_exact_at_grid_points sampleField 4 4 4 1 3 0 (by norm_num) (by norm_num)
      (by norm_num)
    simpa using h⟩

/-! ## The projection and the divergence it leaves (C4) -/

theorem inGrid_iff_mem (n : ℕ) (i j k : ℤ) : inGrid n i j k ↔ (i, j, k) ∈ FOR_EVERY_CELL n := by
  rw [FOR_EVERY_CELL, mem_box]
  rfl

/-- Along x, the subtraction loop lowers the face difference of a cell by the
two unmasked stencil terms divided by `h`. -/
theorem subtract_axis_x (n : ℕ) (p : Grid) (s : State) (i j k : ℤ) (hg : inGrid n i j k) :
    (project_subtract n p s).u0 (i + 1) j k - (project_subtract n p s).u0 i j k =
      s.u0 (i + 1) j k - s.u0 i j k -
        (spec_link n Grid.zero p i j k (i + 1) j k +
          spec_link n Grid.zero p i j k (i - 1) j k) / cellWidth n := by
  obtain ⟨⟨hi0, hin⟩, hj, hk⟩ := hg
  have e : i + 1 - 1 = i := by ring
  have hup : (project_subtract n p s).u0 (i + 1) j k =
      s.u0 (i + 1) j k - spec_link n Grid.zero p i j k (i + 1) j k / cellWidth n := by
    by_cases h : i + 1 < n
    · have hg1 : inGrid n (i + 1) j k := ⟨⟨by omega, h⟩, hj, hk⟩
      rw [(project_subtract_u0 n p s (i + 1) j k).1
        ⟨(inGrid_iff_mem n _ _ _).1 hg1, by omega⟩, e]
      simp [spec_link, hg1, Grid.zero]
    · have hg1 : ¬ inGrid n (i + 1) j k := fun hg1 => h hg1.1.2
      rw [(project_subtract_u0 n p s (i + 1) j k).2
        (fun hh => hg1 ((inGrid_iff_mem n _ _ _).2 hh.1))]
      simp [spec_link, hg1]
  have hlo : (project_subtract n p s).u0 i j k =
      s.u0 i j k + spec_link n Grid.zero p i j k (i - 1) j k / cellWidth n := by
    by_cases h : 0 < i
    · have hg1 : inGrid n (i - 1) j k := ⟨⟨by omega, by omega⟩, hj, hk⟩
      rw [(project_subtract_u0 n p s i j k).1
        ⟨(inGrid_iff_mem n _ _ _).1 ⟨⟨hi0, hin⟩, hj, hk⟩, h⟩]
      simp [spec_link, hg1, Grid.zero]
      ring
    · have hg1 : ¬ inGrid n (i - 1) j k := fun hg1 => by
        have := hg1.1.1
        omega
      rw [(project_subtract_u0 n p s i j k).2 (fun hh => h hh.2)]
      simp [spec_link, hg1]
  rw [hup, hlo]
  ring

/-- Along y, the subtraction loop lowers the face difference of a cell by the
two unmasked stencil terms divided by `h`. -/
theorem subtract_axis_y (n : ℕ) (p : Grid) (s : State) (i j k : ℤ) (hg : inGrid n i j k) :
    (project_subtract n p s).u1 i (j + 1) k - (project_subtract n p s).u1 i j k =
      s.u1 i (j + 1) k - s.u1 i j k -
        (spec_link n Grid.zero p i j k i (j + 1) k +
          spec_link n Grid.zero p i j k i (j - 1) k) / cellWidth n := by
  have hg0 := hg
  obtain ⟨hi, ⟨hj0, hjn⟩, hk⟩ := hg
  have e : j + 1 - 1 = j := by ring
  have hup : (project_subtract n p s).u1 i (j + 1) k =
      s.u1 i (j + 1) k - spec_link n Grid.zero p i j k i (j + 1) k / cellWidth n := by
    by_cases h : j + 1 < n
    · have hg1 : inGrid n i (j + 1) k := ⟨hi, ⟨by omega, h⟩, hk⟩
      rw [(project_subtract_u1 n p s i (j + 1) k).1
        ⟨(inGrid_iff_mem n _ _ _).1 hg1, by omega⟩, e]
      simp [spec_link, hg1, Grid.zero]
    · have hg1 : ¬ inGrid n i (j + 1) k := fun hg1 => h hg1.2.1.2
      rw [(project_subtract_u1 n p s i (j + 1) k).2
        (fun hh => hg1 ((inGrid_iff_mem n _ _ _).2 hh.1))]
      simp [spec_link, hg1]
  have hlo : (project_subtract n p s).u1 i j k =
      s.u1 i j k + spec_link n Grid.zero p i j k i (j - 1) k / cellWidth n := by
    by_cases h : 0 < j
    · have hg1 : inGrid n i (j - 1) k := ⟨hi, ⟨by omega, by omega⟩, hk⟩
      rw [(project_subtract_u1 n p s i j k).1
        ⟨(inGrid_iff_mem n _ _ _).1 hg0, h⟩]
      simp [spec_link, hg1, Grid.zero]
      ring
    · have hg1 : ¬ inGrid n i (j - 1) k := fun hg1 => by
        have := hg1.2.1.1
        omega
      rw [(project_subtract_u1 n p s i j k).2 (fun hh => h hh.2)]
      simp [spec_link, hg1]
  rw [hup, hlo]
  ring

/-- Along z, the subtraction loop lowers the face difference of a cell by the
two unmasked stencil terms divided by `h`. -/
theorem subtract_axis_z (n : ℕ) (p : Grid) (s : State) (i j k : ℤ) (hg : inGrid n i j k) :
    (project_subtract n p s).u2 i j (k + 1) - (project_subtract n p s).u2 i j k =
      s.u2 i j (k + 1) - s.u2 i j k -
        (spec_link n Grid.zero p i j k i j (k + 1) +
          spec_link n Grid.zero p i j k i j (k - 1)) / cellWidth n := by
  have hg0 := hg
  obtain ⟨hi, hj, ⟨hk0, hkn⟩⟩ := hg
  have e : k + 1 - 1 = k := by ring
  have hup : (project_subtract n p s).u2 i j (k + 1) =
      s.u2 i j (k + 1) - spec_link n Grid.zero p i j k i j (k + 1) / cellWidth n := by
    by_cases h : k + 1 < n
    · have hg1 : inGrid n i j (k + 1) := ⟨hi, hj, ⟨by omega, h⟩⟩
      rw [(project_subtract_u2 n p s i j (k + 1)).1
        ⟨(inGrid_iff_mem n _ _ _).1 hg1, by omega⟩, e]
      simp [spec_link, hg1, Grid.zero]
    · have hg1 : ¬ inGrid n i j (k + 1) := fun hg1 => h hg1.2.2.2
      rw [(project_subtract_u2 n p s i j (k + 1)).2
        (fun hh => hg1 ((inGrid_iff_mem n _ _ _).2 hh.1))]
      simp [spec_link, hg1]
  have hlo : (project_subtract n p s).u2 i j k =
      s.u2 i j k + spec_link n Grid.zero p i j k i j (k - 1) / cellWidth n := by
    by_cases h : 0 < k
    · have hg1 : inGrid n i j (k - 1) := ⟨hi, hj, ⟨by omega, by omega⟩⟩
      rw [(project_subtract_u2 n p s i j k).1
        ⟨(inGrid_iff_mem n _ _ _).1 hg0, h⟩]
      simp [spec_link, hg1, Grid.zero]
      ring
    · have hg1 : ¬ inGrid n i j (k - 1) := fun hg1 => by
        have := hg1.2.2.1
        omega
      rw [(project_subtract_u2 n p s i j k).2 (fun hh => h hh.2)]
      simp [spec_link, hg1]
  rw [hup, hlo]
  ring

/-- The projection identity: the divergence of the velocity left by the
subtraction loop is the divergence before it minus the unmasked 7-point
Laplacian of the pressure. -/
theorem divergence_after_subtract (n : ℕ) (p : Grid) (s : State) (i j k : ℤ)
    (hg : inGrid n i j k) :
    divergenceAt n (project_subtract n p s) i j k =
      divergenceAt n s i j k - spec_laplacian n Grid.zero p i j k := by
  have hx := subtract_axis_x n p s i j k hg
  have hy := subtract_axis_y n p s i j k hg
  have hz := subtract_axis_z n p s i j k hg
  have hn : 0 < n := by
    obtain ⟨⟨h0, h1⟩, _⟩ := hg
    omega
  have hh := cellWidth_ne_zero n hn
  unfold divergenceAt spec_laplacian
  have e : (project_subtract n p s).u0 (i + 1) j k - (project_subtract n p s).u0 i j k +
      (project_subtract n p s).u1 i (j + 1) k - (project_subtract n p s).u1 i j k +
      (project_subtract n p s).u2 i j (k + 1) - (project_subtract n p s).u2 i j k =
      ((project_subtract n p s).u0 (i + 1) j k - (project_subtract n p s).u0 i j k) +
      ((project_subtract n p s).u1 i (j + 1) k - (project_subtract n p s).u1 i j k) +
      ((project_subtract n p s).u2 i j (k + 1) - (project_subtract n p s).u2 i j k) := by ring
  rw [e, hx, hy, hz]
  field_simp
  ring

/-- The divergence of `gradientField n w p` at an unmarked cell is the masked
stencil of `p` there. -/
theorem gradientField_divergence (n : ℕ) (w p : Grid) (i j k : ℤ) (hg : inGrid n i j k)
    (hw : w i j k = 0) :
    divergenceAt n (gradientField n w p) i j k = spec_laplacian n w p i j k := by
  have hn : 0 < n := by
    obtain ⟨⟨h0, h1⟩, _⟩ := hg
    omega
  have hh := cellWidth_ne_zero n hn
  have ei : i + 1 - 1 = i := by ring
  have ej : j + 1 - 1 = j := by ring
  have ek : k + 1 - 1 = k := by ring
  have hx1 : (gradientField n w p).u0 (i + 1) j k =
      spec_link n w p i j k (i + 1) j k / cellWidth n := by
    simp only [gradientField, spec_link, ei]
    by_cases h : inGrid n (i + 1) j k ∧ w (i + 1) j k = 0
    · rw [if_pos ⟨h, hg, hw⟩, if_pos h]
    · rw [if_neg (fun hh => h hh.1), if_neg h, zero_div]
  have hx0 : (gradientField n w p).u0 i j k =
      -(spec_link n w p i j k (i - 1) j k / cellWidth n) := by
    simp only [gradientField, spec_link]
    by_cases h : inGrid n (i - 1) j k ∧ w (i - 1) j k = 0
    · rw [if_pos ⟨⟨hg, hw⟩, h⟩, if_pos h]; ring
    · rw [if_neg (fun hh => h hh.2), if_neg h, zero_div, neg_zero]
  have hy1 : (gradientField n w p).u1 i (j + 1) k =
      spec_link n w p i j k i (j + 1) k / cellWidth n := by
    simp only [gradientField, spec_link, ej]
    by_cases h : inGrid n i (j + 1) k ∧ w i (j + 1) k = 0
    · rw [if_pos ⟨h, hg, hw⟩, if_pos h]
    · rw [if_neg (fun hh => h hh.1), if_neg h, zero_div]
  have hy0 : (gradientField n w p).u1 i j k =
      -(spec_link n w p i j k i (j - 1) k / cellWidth n) := by
    simp only [gradientField, spec_link]
    by_cases h : inGrid n i (j - 1) k ∧ w i (j - 1) k = 0
    · rw [if_pos ⟨⟨hg, hw⟩, h⟩, if_pos h]; ring
    · rw [if_neg (fun hh => h hh.2), if_neg h, zero_div, neg_zero]
  have hz1 : (gradientField n w p).u2 i j (k + 1) =
      spec_link n w p i j k i j (k + 1) / cellWidth n := by
    simp only [gradientField, spec_link, ek]
    by_cases h : inGrid n i j (k + 1) ∧ w i j (k + 1) = 0
    · rw [if_pos ⟨h, hg, hw⟩, if_pos h]
    · rw [if_neg (fun hh => h hh.1), if_neg h, zero_div]
  have hz0 : (gradientField n w p).u2 i j k =
      -(spec_link n w p i j k i j (k - 1) / cellWidth n) := by
    simp only [gradientField, spec_link]
    by_cases h : inGrid n i j (k - 1) ∧ w i j (k - 1) = 0
    · rw [if_pos ⟨⟨hg, hw⟩, h⟩, if_pos h]; ring
    · rw [if_neg (fun hh => h hh.2), if_neg h, zero_div, neg_zero]
  unfold divergenceAt spec_laplacian
  rw [hx1, hx0, hy1, hy0, hz1, hz0]
  field_simp

theorem init_b_fluid (a b c : ℤ)
    (h : ¬ ((a - 16) * (a - 16) + (b - 16) * (b - 16) + (c - 16) * (c - 16) < 36)) :
    (init N).b a b c = 0 :=
  (init_b N a b c).2 (by rw [inSphere_N]; exact h)

theorem clampCoord_nonneg (extent : ℤ) (h : 0 ≤ extent) (x : ℚ) : 0 ≤ clampCoord extent x := by
  unfold clampCoord
  have he : (0 : ℚ) ≤ (extent : ℚ) := by exact_mod_cast h
  simp only
  split_ifs <;> linarith

theorem clampCoord_le (extent : ℤ) (h : 0 ≤ extent) (x : ℚ) :
    clampCoord extent x ≤ (extent : ℚ) := by
  unfold clampCoord
  have he : (0 : ℚ) ≤ (extent : ℚ) := by exact_mod_cast h
  simp only
  split_ifs <;> linarith

/-- The lower sample index of an axis of extent at least 2 lies in
`[0, extent - 2]`, for every coordinate. -/
theorem lowerIndex_bounds (extent : ℤ) (h : 2 ≤ extent) (x : ℚ) :
    0 ≤ lowerIndex extent x ∧ lowerIndex extent x ≤ extent - 2 := by
  have h0 := clampCoord_nonneg extent (by omega) x
  have hc : 0 ≤ castInt (clampCoord extent x) := by
    unfold castInt
    rw [if_pos h0]
    exact Int.floor_nonneg.mpr h0
  unfold lowerIndex
  exact ⟨le_min (by omega) hc, min_le_left _ _⟩

/-- The value of `interp` depends on the field only through the eight entries
listed by `interpReads`. -/
theorem interp_reads_only (d d' : Grid) (width height depth : ℤ) (x y z : ℚ)
    (h : ∀ r ∈ interpReads width height depth x y z, d r.1 r.2.1 r.2.2 = d' r.1 r.2.1 r.2.2) :
    interp d width height depth x y z = interp d' width height depth x y z := by
  unfold interp
  simp only [interpReads, List.mem_cons, List.mem_singleton, forall_eq_or_imp, forall_eq,
    List.not_mem_nil, false_implies, implies_true, and_true] at h
  obtain ⟨h1, h2, h3, h4, h5, h6, h7, h8⟩ := h
  simp only [h1, h2, h3, h4, h5, h6, h7, h8]

/-- C11: for every extent with width, height, depth at least 2 and every
sample position `(x, y, z)`, negative and arbitrarily large coordinates
included, the sample indices of `interp` satisfy `0 <= i0 < i1 <= width-1`,
`0 <= j0 < j1 <= height-1`, `0 <= k0 < k1 <= depth-1`, and all eight index
triples it reads lie inside the field. -/
theorem interp_reads_in_bounds (width height depth : ℤ) (x y z : ℚ)
    (hw : 2 ≤ width) (hh : 2 ≤ height) (hd : 2 ≤ depth) :
    (0 ≤ lowerIndex width x ∧ lowerIndex width x < lowerIndex width x + 1 ∧
      lowerIndex width x + 1 ≤ width - 1) ∧
    (0 ≤ lowerIndex height y ∧ lowerIndex height y < lowerIndex height y + 1 ∧
      lowerIndex height y + 1 ≤ height - 1) ∧
    (0 ≤ lowerIndex depth z ∧ lowerIndex depth z < lowerIndex depth z + 1 ∧
      lowerIndex depth z + 1 ≤ depth - 1) ∧
    ∀ r ∈ interpReads width height depth x y z,
      (0 ≤ r.1 ∧ r.1 < width) ∧ (0 ≤ r.2.1 ∧ r.2.1 < height) ∧ (0 ≤ r.2.2 ∧ r.2.2 < depth) := by
  have hi := lowerIndex_bounds width hw x
  have hj := lowerIndex_bounds height hh y
  have hk := lowerIndex_bounds depth hd z
  refine ⟨⟨hi.1, by omega, by omega⟩, ⟨hj.1, by omega, by omega⟩, ⟨hk.1, by omega, by omega⟩, ?_⟩
  intro r hr
  simp only [interpReads, List.mem_cons, List.mem_singleton, List.not_mem_nil, or_false] at hr
  rcases hr with rfl | rfl | rfl | rfl | rfl | rfl | rfl | rfl <;>
    exact ⟨⟨by simp only; omega, by simp only; omega⟩, ⟨by simp only; omega, by simp only; omega⟩,
      ⟨by simp only; omega, by simp only; omega⟩⟩

/-- Witness for C11: a sample far outside a `4 x 4 x 4` field, with one
negative and two very large coordinates, has its sample indices inside the
field on every axis, and the read `d[i1][j1][k1]` is inside the field. -/
theorem interp_reads_in_bounds_witness :
    (0 ≤ lowerIndex 4 (-7) ∧ lowerIndex 4 (-7) < lowerIndex 4 (-7) + 1 ∧
      lowerIndex 4 (-7) + 1 ≤ 4 - 1) ∧
    (0 ≤ lowerIndex 4 1000000 ∧ lowerIndex 4 1000000 < lowerIndex 4 1000000 + 1 ∧
      lowerIndex 4 1000000 + 1 ≤ 4 - 1) ∧
    (0 ≤ lowerIndex 4 (9 / 2) ∧ lowerIndex 4 (9 / 2) < lowerIndex 4 (9 / 2) + 1 ∧
      lowerIndex 4 (9 / 2) + 1 ≤ 4 - 1) ∧
    (0 ≤ lowerIndex 4 (-7) + 1 ∧ lowerIndex 4 (-7) + 1 < 4) ∧
    (0 ≤ lowerIndex 4 1000000 + 1 ∧ lowerIndex 4 1000000 + 1 < 4) ∧
    (0 ≤ lowerIndex 4 (9 / 2) + 1 ∧ lowerIndex 4 (9 / 2) + 1 < 4) := by
  have h := interp_reads_in_bounds 4 4 4 (-7) 1000000 (9 / 2) (by norm_num) (by norm_num)
    (by norm_num)
  have hr := h.2.2.2 (lowerIndex 4 (-7) + 1, lowerIndex 4 1000000 + 1, lowerIndex 4 (9 / 2) + 1)
    (by simp [interpReads])
  exact ⟨h.1, h.2.1, h.2.2.1, hr.1, hr.2.1, hr.2.2⟩

/-! ## Frame conditions of the step (C13, C15) -/

/-- C13: `enforce_boundary` and `project` leave every entry of the mask `b`
unchanged, and `project` also leaves every entry of the density `c`
unchanged. -/
theorem mask_immutable (solve : Grid → Grid → Grid → ℕ → Grid) (n : ℕ) (div0 p0 : Grid)
    (s : State) :
    (enforce_boundary n s).b = s.b ∧ (project solve n div0 p0 s).b = s.b ∧
    (project solve n div0 p0 s).c = s.c :=
  ⟨enforce_boundary_b n s, (project_subtract_rest n _ s).1, (project_subtract_rest n _ s).2.1⟩

/-- C15: for every state with `frame >= LIMIT/2`, `enforce_boundary` leaves
the density of every cell not marked in `b` exactly unchanged and zeroes it in
the marked cells; so no density (densities being non-negative) is raised. -/
theorem source_inactive_in_decay (n : ℕ) (s : State) (hf : LIMIT / 2 ≤ s.frame)
    (a b c : ℤ) :
    (¬ ((a, b, c) ∈ FOR_EVERY_CELL n ∧ s.b a b c ≠ 0) →
      (enforce_boundary n s).c a b c = s.c a b c) ∧
    (((a, b, c) ∈ FOR_EVERY_CELL n ∧ s.b a b c ≠ 0) → (enforce_boundary n s).c a b c = 0) ∧
    (0 ≤ s.c a b c → (enforce_boundary n s).c a b c ≤ s.c a b c) := by
  have h := enforce_boundary_c n s a b c
  have hno : ¬ (s.frame < LIMIT / 2 ∧ inNozzle n a b c) := fun hh => by
    have := hh.1
    omega
  refine ⟨fun h1 => h.2.2 h1 hno, h.1, fun h0 => ?_⟩
  by_cases h1 : (a, b, c) ∈ FOR_EVERY_CELL n ∧ s.b a b c ≠ 0
  · rw [h.1 h1]; exact h0
  · rw [h.2.2 h1 hno]

/-- Witness for C15: in the decay-phase state `floorSmoke` the unmarked cell
`(16, 0, 16)` keeps its density 1.0. -/
theorem source_inactive_in_decay_witness :
    LIMIT / 2 ≤ floorSmoke.frame ∧ floorSmoke.b 16 0 16 = 0 ∧
    (enforce_boundary N floorSmoke).c 16 0 16 = floorSmoke.c 16 0 16 := by
  have hb : floorSmoke.b 16 0 16 = 0 := init_b_fluid _ _ _ (by norm_num)
  exact ⟨by decide, hb,
    (source_inactive_in_decay N floorSmoke (by decide) 16 0 16).1 (fun h => h.2 hb)⟩

/-! ## The projection identity (C17) -/

theorem laplacian7_eq (n : ℕ) (p : Grid) (i j k : ℤ) :
    laplacian7 n p i j k = spec_laplacian n Grid.zero p i j k := by
  have key : ∀ a b c : ℤ, neighbourTerm n p i j k a b c = spec_link n Grid.zero p i j k a b c := by
    intro a b c
    unfold neighbourTerm spec_link
    by_cases hg : inGrid n a b c
    · rw [if_pos hg, if_pos ⟨hg, rfl⟩]
    · rw [if_neg hg, if_neg (fun hh => hg hh.1)]
  unfold laplacian7 spec_laplacian
  rw [key, key, key, key, key, key]
  ring

/-- C17: over exact arithmetic, for every velocity field and pressure field
the divergence (as computed in `project`) of the velocity after gradient
subtraction equals, at every cell, the divergence before it minus the 7-point
Laplacian of `p`; hence if that Laplacian equals the divergence at every cell,
the projected velocity has divergence exactly 0 at every cell. -/
theorem projection_identity (n : ℕ) (p : Grid) (s : State) (div0 div1 : Grid) :
    (∀ i j k : ℤ, inGrid n i j k →
      project_divergence n (project_subtract n p s) div1 i j k =
        project_divergence n s div0 i j k - laplacian7 n p i j k) ∧
    ((∀ i j k : ℤ, inGrid n i j k →
        laplacian7 n p i j k = project_divergence n s div0 i j k) →
      ∀ i j k : ℤ, inGrid n i j k →
        project_divergence n (project_subtract n p s) div1 i j k = 0) := by
  have key : ∀ i j k : ℤ, inGrid n i j k →
      project_divergence n (project_subtract n p s) div1 i j k =
        project_divergence n s div0 i j k - laplacian7 n p i j k := by
    intro i j k hg
    have hm := (inGrid_iff_mem n i j k).1 hg
    rw [(project_divergence_at n _ div1 i j k).1 hm, (project_divergence_at n s div0 i j k).1 hm,
      divergence_after_subtract n p s i j k hg, laplacian7_eq]
  refine ⟨key, fun h i j k hg => ?_⟩
  rw [key i j k hg, h i j k hg, sub_self]

/-- Witness for C17: the velocity `gradientField` of `pressureBump` without
obstacles has the 7-point Laplacian of `pressureBump` as its divergence, and
after subtracting the gradient of `pressureBump` its divergence is 0, shown
at the cell `(16, 22, 16)` next to the bump. -/
theorem projection_identity_witness :
    inGrid N 16 22 16 ∧
    project_divergence N (gradientField N Grid.zero pressureBump) Grid.zero 16 22 16 =
      laplacian7 N pressureBump 16 22 16 ∧
    project_divergence N
      (project_subtract N pressureBump (gradientField N Grid.zero pressureBump))
      Grid.zero 16 22 16 = 0 := by
  have hdiv : ∀ i j k : ℤ, inGrid N i j k →
      project_divergence N (gradientField N Grid.zero pressureBump) Grid.zero i j k =
        laplacian7 N pressureBump i j k := fun i j k hg => by
    rw [(project_divergence_at N _ Grid.zero i j k).1 ((inGrid_iff_mem N i j k).1 hg),
      gradientField_divergence N Grid.zero pressureBump i j k hg rfl, laplacian7_eq]
  have hg : inGrid N 16 22 16 := by decide
  exact ⟨hg, hdiv 16 22 16 hg,
    (projection_identity N pressureBump (gradientField N Grid.zero pressureBump)
      Grid.zero Grid.zero).2 (fun i j k h => (hdiv i j k h).symm) 16 22 16 hg⟩

/-! ## Order independence of the sweeps (C16) -/

theorem Grid.set_set_same (g : Grid) (i j k i' j' k' : ℤ) (v : ℚ) :
    (g.set i j k v).set i' j' k' v = (g.set i' j' k' v).set i j k v := by
  funext a b c
  simp only [Grid.set]
  split_ifs <;> rfl

theorem Grid.set_set_ne (g : Grid) (i j k i' j' k' : ℤ) (v v' : ℚ)
    (h : ¬ (i = i' ∧ j = j' ∧ k = k')) :
    (g.set i j k v).set i' j' k' v' = (g.set i' j' k' v').set i j k v := by
  funext a b c
  simp only [Grid.set]
  by_cases h1 : a = i' ∧ b = j' ∧ c = k'
  · by_cases h2 : a = i ∧ b = j ∧ c = k
    · exact absurd ⟨h2.1.symm.trans h1.1, h2.2.1.symm.trans h1.2.1, h2.2.2.symm.trans h1.2.2⟩ h
    · rw [if_pos h1, if_neg h2, if_pos h1]
  · by_cases h2 : a = i ∧ b = j ∧ c = k
    · rw [if_neg h1, if_pos h2, if_pos h2]
    · rw [if_neg h1, if_neg h2, if_neg h2, if_neg h1]

theorem idx_ne (x y : Idx) (h : x ≠ y) : ¬ (x.1 = y.1 ∧ x.2.1 = y.2.1 ∧ x.2.2 = y.2.2) := by
  rintro ⟨h1, h2, h3⟩
  exact h (by ext <;> assumption)

theorem wallX_comm (n : ℕ) (s : State) (x y : Idx) :
    wallX n (wallX n s x) y = wallX n (wallX n s y) x := by
  unfold wallX
  split_ifs <;> simp only [Grid.set_set_same]

theorem wallY_comm (n : ℕ) (s : State) (x y : Idx) :
    wallY n (wallY n s x) y = wallY n (wallY n s y) x := by
  unfold wallY
  split_ifs <;> simp only [Grid.set_set_same]

theorem wallZ_comm (n : ℕ) (s : State) (x y : Idx) :
    wallZ n (wallZ n s x) y = wallZ n (wallZ n s y) x := by
  unfold wallZ
  split_ifs <;> simp only [Grid.set_set_same]

theorem zero_sets_comm (g : Grid) (i j k i' j' k' a b c a' b' c' : ℤ) :
    (((g.set i j k 0).set i' j' k' 0).set a b c 0).set a' b' c' 0 =
      (((g.set a b c 0).set a' b' c' 0).set i j k 0).set i' j' k' 0 := by
  funext x y z
  simp only [Grid.set]
  split_ifs <;> rfl

theorem obstacleCell_comm (s : State) (x y : Idx) :
    obstacleCell (obstacleCell s x) y = obstacleCell (obstacleCell s y) x := by
  by_cases hx : s.b x.1 x.2.1 x.2.2 ≠ 0 <;> by_cases hy : s.b y.1 y.2.1 y.2.2 ≠ 0
  · have e1 : obstacleCell s x = _ := if_pos hx
    have e2 : obstacleCell s y = _ := if_pos hy
    rw [e1, e2]
    unfold obstacleCell
    rw [if_pos hy, if_pos hx]
    ext a b c
    · simp only [zero_sets_comm]
    · simp only [zero_sets_comm]
    · simp only [zero_sets_comm]
    · rfl
    · simp only [Grid.set_set_same]
    · rfl
  · have e2 : obstacleCell s y = s := if_neg hy
    have e3 : obstacleCell (obstacleCell s x) y = obstacleCell s x :=
      if_neg (by rw [obstacleCell_b]; exact hy)
    rw [e2, e3]
  · have e1 : obstacleCell s x = s := if_neg hx
    have e3 : obstacleCell (obstacleCell s y) x = obstacleCell s y :=
      if_neg (by rw [obstacleCell_b]; exact hx)
    rw [e1, e3]
  · have e1 : obstacleCell s x = s := if_neg hx
    have e2 : obstacleCell s y = s := if_neg hy
    simp only [e1, e2]

theorem buoyancyCell_comm (s : State) (x y : Idx) :
    buoyancyCell (buoyancyCell s x) y = buoyancyCell (buoyancyCell s y) x := by
  by_cases hxy : x = y
  · rw [hxy]
  · have h1 := idx_ne x y hxy
    have h2 := idx_ne y x (fun h => hxy h.symm)
    unfold buoyancyCell
    simp only [Grid.set, h1, h2, if_false]
    rw [Grid.set_set_ne _ _ _ _ _ _ _ _ _ h1]

theorem divergenceCell_comm (n : ℕ) (s : State) (d : Grid) (x y : Idx) :
    divergenceCell n s (divergenceCell n s d x) y =
      divergenceCell n s (divergenceCell n s d y) x := by
  by_cases hxy : x = y
  · rw [hxy]
  · unfold divergenceCell
    rw [Grid.set_set_ne _ _ _ _ _ _ _ _ _ (idx_ne x y hxy)]

theorem subtractX_read (n : ℕ) (p : Grid) (s : State) (x : Idx) (a b c : ℤ)
    (h : ¬ (a = x.1 ∧ b = x.2.1 ∧ c = x.2.2)) :
    (subtractX n p s x).u0 a b c = s.u0 a b c := by
  unfold subtractX
  split_ifs
  · exact Grid.set_other _ _ _ _ _ _ _ _ h
  · rfl

theorem subtractX_comm (n : ℕ) (p : Grid) (s : State) (x y : Idx) :
    subtractX n p (subtractX n p s x) y = subtractX n p (subtractX n p s y) x := by
  by_cases hxy : x = y
  · rw [hxy]
  · have h1 := idx_ne x y hxy
    have h2 := idx_ne y x (fun h => hxy h.symm)
    unfold subtractX
    split_ifs <;> simp only [Grid.set, h1, h2, if_false]
    rw [Grid.set_set_ne _ _ _ _ _ _ _ _ _ h1]

theorem subtractY_comm (n : ℕ) (p : Grid) (s : State) (x y : Idx) :
    subtractY n p (subtractY n p s x) y = subtractY n p (subtractY n p s y) x := by
  by_cases hxy : x = y
  · rw [hxy]
  · have h1 := idx_ne x y hxy
    have h2 := idx_ne y x (fun h => hxy h.symm)
    unfold subtractY
    split_ifs <;> simp only [Grid.set, h1, h2, if_false]
    rw [Grid.set_set_ne _ _ _ _ _ _ _ _ _ h1]

theorem subtractZ_comm (n : ℕ) (p : Grid) (s : State) (x y : Idx) :
    subtractZ n p (subtractZ n p s x) y = subtractZ n p (subtractZ n p s y) x := by
  by_cases hxy : x = y
  · rw [hxy]
  · have h1 := idx_ne x y hxy
    have h2 := idx_ne y x (fun h => hxy h.symm)
    unfold subtractZ
    split_ifs <;> simp only [Grid.set, h1, h2, if_false]
    rw [Grid.set_set_ne _ _ _ _ _ _ _ _ _ h1]

theorem subtractX_Y (n : ℕ) (p : Grid) (s : State) (x y : Idx) :
    subtractX n p (subtractY n p s x) y = subtractY n p (subtractX n p s y) x := by
  unfold subtractX subtractY
  split_ifs <;> rfl

theorem subtractX_Z (n : ℕ) (p : Grid) (s : State) (x y : Idx) :
    subtractX n p (subtractZ n p s x) y = subtractZ n p (subtractX n p s y) x := by
  unfold subtractX subtractZ
  split_ifs <;> rfl

theorem subtractY_Z (n : ℕ) (p : Grid) (s : State) (x y : Idx) :
    subtractY n p (subtractZ n p s x) y = subtractZ n p (subtractY n p s y) x := by
  unfold subtractY subtractZ
  split_ifs <;> rfl

theorem subtractCell_comm (n : ℕ) (p : Grid) (s : State) (x y : Idx) :
    subtractCell n p (subtractCell n p s x) y = subtractCell n p (subtractCell n p s y) x := by
  have L : ∀ x y : Idx, subtractCell n p (subtractCell n p s x) y =
      subtractZ n p (subtractZ n p (subtractY n p (subtractY n p
        (subtractX n p (subtractX n p s x) y) x) y) x) y := by
    intro x y
    unfold subtractCell
    rw [subtractX_Z, subtractX_Y, subtractY_Z]
  rw [L x y, L y x, subtractX_comm n p s x y, subtractY_comm n p _ x y,
    subtractZ_comm n p _ x y]

/-- C16: each sweep of `enforce_boundary` (the three wall sweeps, the obstacle
sweep, the buoyancy sweep) and of `project` (divergence, gradient subtraction)
yields, for every permutation of the order in which its index space is
visited, the same fields as the sequential order. -/
theorem sweeps_order_independent (n : ℕ) (s : State) (p div : Grid)
    (lx ly lz lc : List Idx) (hx : lx.Perm (FOR_EVERY_X_FLOW n))
    (hy : ly.Perm (FOR_EVERY_Y_FLOW n)) (hz : lz.Perm (FOR_EVERY_Z_FLOW n))
    (hc : lc.Perm (FOR_EVERY_CELL n)) :
    lx.foldl (wallX n) s = (FOR_EVERY_X_FLOW n).foldl (wallX n) s ∧
    ly.foldl (wallY n) s = (FOR_EVERY_Y_FLOW n).foldl (wallY n) s ∧
    lz.foldl (wallZ n) s = (FOR_EVERY_Z_FLOW n).foldl (wallZ n) s ∧
    lc.foldl obstacleCell s = enforce_obstacle n s ∧
    lc.foldl buoyancyCell s = enforce_buoyancy n s ∧
    lc.foldl (divergenceCell n s) div = project_divergence n s div ∧
    lc.foldl (subtractCell n p) s = project_subtract n p s :=
  ⟨hx.foldl_eq' (fun x _ y _ z => wallX_comm n z x y) s,
   hy.foldl_eq' (fun x _ y _ z => wallY_comm n z x y) s,
   hz.foldl_eq' (fun x _ y _ z => wallZ_comm n z x y) s,
   hc.foldl_eq' (fun x _ y _ z => obstacleCell_comm z x y) s,
   hc.foldl_eq' (fun x _ y _ z => buoyancyCell_comm z x y) s,
   hc.foldl_eq' (fun x _ y _ z => divergenceCell_comm n s z x y) div,
   hc.foldl_eq' (fun x _ y _ z => subtractCell_comm n p z x y) s⟩

/-- Witness for C16: visiting every index space in reverse order on the state
`smokeAboveObstacle`, with the pressure `pressureRamp`. -/
theorem sweeps_order_independent_witness :
    (FOR_EVERY_CELL N).reverse.foldl obstacleCell smokeAboveObstacle =
      enforce_obstacle N smokeAboveObstacle ∧
    (FOR_EVERY_CELL N).reverse.foldl buoyancyCell smokeAboveObstacle =
      enforce_buoyancy N smokeAboveObstacle ∧
    (FOR_EVERY_CELL N).reverse.foldl (subtractCell N pressureRamp) smokeAboveObstacle =
      project_subtract N pressureRamp smokeAboveObstacle := by
  have h := sweeps_order_independent N smokeAboveObstacle pressureRamp Grid.zero
    (FOR_EVERY_X_FLOW N).reverse (FOR_EVERY_Y_FLOW N).reverse (FOR_EVERY_Z_FLOW N).reverse
    (FOR_EVERY_CELL N).reverse (List.reverse_perm _) (List.reverse_perm _)
    (List.reverse_perm _) (List.reverse_perm _)
  exact ⟨h.2.2.2.1, h.2.2.2.2.1, h.2.2.2.2.2.2⟩

/-! ## The run as a two-phase state machine (C12) -/

theorem inject_phase (n : ℕ) (s : State) :
    (injectionPhase s = false → inject n s = s) ∧
    (injectionPhase s = true → inject n s =
      (List.product (Int.range (-((n / 7 : ℕ) : ℤ)) (((n / 7 : ℕ) : ℤ) + 1))
        (Int.range (-((n / 7 : ℕ) : ℤ)) (((n / 7 : ℕ) : ℤ) + 1))).foldl (nozzleColumn n) s) := by
  unfold injectionPhase inject
  constructor
  · intro h
    rw [if_neg (of_decide_eq_false h)]
  · intro h
    rw [if_pos (of_decide_eq_true h)]

theorem simulateStep_frame (E : Collaborators) (n : ℕ) (m : Process) :
    (simulateStep E n m).wrote = m.s.frame ∧
    (simulateStep E n m).next.s.frame = m.s.frame + 1 ∧
    (simulateStep E n m).exited = decide (m.s.frame + 1 > LIMIT) ∧
    (simulateStep E n m).injected = decide (m.s.frame < LIMIT / 2) := by
  have h : (advection E n (project E.solve n m.div m.p (enforce_boundary n m.s))).frame =
      m.s.frame := by
    show (project E.solve n m.div m.p (enforce_boundary n m.s)).frame = m.s.frame
    unfold project
    rw [(project_subtract_rest n _ _).2.2, enforce_boundary_frame]
  refine ⟨h, ?_, ?_, ?_⟩
  · show (advection E n (project E.solve n m.div m.p (enforce_boundary n m.s))).frame + 1 = _
    rw [h]
  · show decide ((advection E n (project E.solve n m.div m.p
      (enforce_boundary n m.s))).frame + 1 > LIMIT) = _
    rw [h]
  · show injectionPhase (enforce_walls n m.s) = _
    unfold injectionPhase
    rw [(enforce_walls_rest n m.s).2.2]

theorem intRange_cons (lo hi : ℤ) (h : lo < hi) :
    Int.range lo hi = lo :: Int.range (lo + 1) hi := by
  unfold Int.range
  obtain ⟨k, hk⟩ : ∃ k : ℕ, (hi - lo).toNat = k + 1 := ⟨(hi - lo).toNat - 1, by omega⟩
  have hk2 : (hi - (lo + 1)).toNat = k := by omega
  rw [hk, hk2, List.range_succ_eq_map, List.map_cons, List.map_map]
  congr 1
  · simp
  · apply List.map_congr_left
    intro r _
    simp only [Function.comp, Nat.succ_eq_add_one, Nat.cast_add, Nat.cast_one]
    ring

theorem run_from (E : Collaborators) (n : ℕ) (fuel : ℕ) (m : Process)
    (hf : m.s.frame ≤ LIMIT) (hfuel : (LIMIT + 1 - m.s.frame).toNat ≤ fuel) :
    run E n fuel m =
      (Int.range m.s.frame (LIMIT + 1)).map (fun f => (f, decide (f < LIMIT / 2))) := by
  induction fuel generalizing m with
  | zero =>
    exfalso
    omega
  | succ fuel ih =>
    obtain ⟨h1, h2, h3, h4⟩ := simulateStep_frame E n m
    rw [intRange_cons _ _ (by omega), List.map_cons]
    unfold run
    rw [h1, h3, h4]
    congr 1
    by_cases hlast : m.s.frame + 1 > LIMIT
    · rw [if_pos (decide_eq_true hlast)]
      have e : Int.range (m.s.frame + 1) (LIMIT + 1) = [] := by
        unfold Int.range
        have : (LIMIT + 1 - (m.s.frame + 1)).toNat = 0 := by omega
        rw [this]
        rfl
      rw [e]
      rfl
    · rw [if_neg (by simpa using hlast)]
      rw [ih (simulateStep E n m).next (by rw [h2]; omega) (by rw [h2]; omega), h2]

/-- C12: starting from `frame = 0`, the run processes the frames
`0, 1, ..., LIMIT` in order and then exits, so no frame is processed once the
counter exceeds `LIMIT` (exactly `LIMIT + 1 = 101` steps, given fuel for at
least that many calls); the step of frame `f` injects smoke exactly when
`f < LIMIT/2`. -/
theorem run_two_phase (E : Collaborators) (n : ℕ) (fuel : ℕ) (m : Process)
    (h0 : m.s.frame = 0) (hfuel : 101 ≤ fuel) :
    run E n fuel m =
      (Int.range 0 (LIMIT + 1)).map (fun f => (f, decide (f < LIMIT / 2))) ∧
    (run E n fuel m).length = 101 := by
  have h := run_from E n fuel m (by rw [h0]; decide) (by rw [h0]; simpa [LIMIT] using hfuel)
  rw [h0] at h
  refine ⟨h, ?_⟩
  rw [h, List.length_map]
  simp [Int.range, LIMIT]

/-- Witness for C12: the run from the state left by `init`, with idle
collaborators and fuel for 1000 calls, processes 101 frames. -/
theorem run_two_phase_witness :
    (run idleCollaborators N 1000 { s := init N, div := Grid.zero, p := Grid.zero }).length =
      101 :=
  (run_two_phase idleCollaborators N 1000 { s := init N, div := Grid.zero, p := Grid.zero }
    (init_fields N).2.2.2.2 (by norm_num)).2

/-! ## Sums over the grid and the divergence sum (C18) -/

theorem lsum_nil {α : Type} (f : α → ℚ) : lsum [] f = 0 := rfl

theorem lsum_cons {α : Type} (a : α) (l : List α) (f : α → ℚ) :
    lsum (a :: l) f = f a + lsum l f := by
  simp [lsum]

theorem lsum_append {α : Type} (l1 l2 : List α) (f : α → ℚ) :
    lsum (l1 ++ l2) f = lsum l1 f + lsum l2 f := by
  simp [lsum]

theorem lsum_add {α : Type} (l : List α) (f g : α → ℚ) :
    lsum l (fun x => f x + g x) = lsum l f + lsum l g := by
  induction l with
  | nil => simp [lsum]
  | cons a l ih => rw [lsum_cons, lsum_cons, lsum_cons, ih]; ring

theorem lsum_sub {α : Type} (l : List α) (f g : α → ℚ) :
    lsum l (fun x => f x - g x) = lsum l f - lsum l g := by
  induction l with
  | nil => simp [lsum]
  | cons a l ih => rw [lsum_cons, lsum_cons, lsum_cons, ih]; ring

theorem lsum_mul_left {α : Type} (l : List α) (r : ℚ) (f : α → ℚ) :
    lsum l (fun x => r * f x) = r * lsum l f := by
  induction l with
  | nil => simp [lsum]
  | cons a l ih => rw [lsum_cons, lsum_cons, ih]; ring

theorem lsum_congr {α : Type} (l : List α) (f g : α → ℚ) (h : ∀ x ∈ l, f x = g x) :
    lsum l f = lsum l g := by
  unfold lsum
  rw [List.map_congr_left h]

theorem lsum_map {α β : Type} (l : List α) (e : α → β) (f : β → ℚ) :
    lsum (l.map e) f = lsum l (fun a => f (e a)) := by
  unfold lsum
  rw [List.map_map]
  rfl

theorem lsum_product {α β : Type} (l1 : List α) (l2 : List β) (f : α × β → ℚ) :
    lsum (List.product l1 l2) f = lsum l1 (fun a => lsum l2 (fun b => f (a, b))) := by
  induction l1 with
  | nil => rfl
  | cons a l ih =>
    have e : List.product (a :: l) l2 = l2.map (fun b => (a, b)) ++ List.product l l2 :=
      List.product_cons a l l2
    rw [e, lsum_append, lsum_map, ih, lsum_cons]

/-- Telescoping sum over an index range. -/
theorem lsum_telescope (f : ℤ → ℚ) (lo : ℤ) (k : ℕ) :
    lsum (Int.range lo (lo + k)) (fun i => f (i + 1) - f i) = f (lo + k) - f lo := by
  induction k generalizing lo with
  | zero =>
    have e : Int.range lo (lo + (0 : ℕ)) = [] := by
      unfold Int.range
      simp
    rw [e, lsum_nil]
    simp
  | succ k ih =>
    have hlt : lo < lo + ((k + 1 : ℕ) : ℤ) := by push_cast; omega
    have e : lo + ((k + 1 : ℕ) : ℤ) = (lo + 1) + (k : ℤ) := by push_cast; ring
    rw [intRange_cons _ _ hlt, lsum_cons, e, ih (lo + 1)]
    ring

theorem lsum_telescope_zero (f : ℤ → ℚ) (n : ℕ) :
    lsum (Int.range 0 n) (fun i => f (i + 1) - f i) = f n - f 0 := by
  have h := lsum_telescope f 0 n
  simpa using h

theorem cellWidth_mul_div (n : ℕ) (hn : 0 < n) (x : ℚ) : cellWidth n * (x / cellWidth n) = x := by
  have hh := cellWidth_ne_zero n hn
  field_simp

/-- The cell width times the sum of `divergenceAt` over all cells is the net
outflow through the boundary. -/
theorem divergence_sum (n : ℕ) (s : State) :
    cellWidth n * lsum (FOR_EVERY_CELL n) (fun x => divergenceAt n s x.1 x.2.1 x.2.2) =
      boundaryOutflow n s := by
  rcases Nat.eq_zero_or_pos n with h0 | hn
  · subst h0
    have e : Int.range 0 ((0 : ℕ) : ℤ) = [] := by
      unfold Int.range
      simp
    simp [FOR_EVERY_CELL, box, boundaryOutflow, e, lsum, cellWidth]
  · rw [← lsum_mul_left]
    have e1 : (fun x : Idx => cellWidth n * divergenceAt n s x.1 x.2.1 x.2.2) =
        (fun x : Idx => (s.u0 (x.1 + 1) x.2.1 x.2.2 - s.u0 x.1 x.2.1 x.2.2) +
          ((s.u1 x.1 (x.2.1 + 1) x.2.2 - s.u1 x.1 x.2.1 x.2.2) +
            (s.u2 x.1 x.2.1 (x.2.2 + 1) - s.u2 x.1 x.2.1 x.2.2))) := by
      funext x
      unfold divergenceAt
      rw [cellWidth_mul_div n hn]
      ring
    rw [e1, lsum_add, lsum_add]
    unfold boundaryOutflow FOR_EVERY_CELL box
    have hx : lsum (List.product (Int.range 0 n) (List.product (Int.range 0 n) (Int.range 0 n)))
        (fun x : Idx => s.u0 (x.1 + 1) x.2.1 x.2.2 - s.u0 x.1 x.2.1 x.2.2) =
        lsum (List.product (Int.range 0 n) (Int.range 0 n))
          (fun jk => s.u0 n jk.1 jk.2 - s.u0 0 jk.1 jk.2) := by
      rw [lsum_product]
      exact (lsum_congr _ _
        (fun a : ℤ => (fun i : ℤ => lsum (List.product (Int.range 0 n) (Int.range 0 n))
            (fun b : ℤ × ℤ => s.u0 i b.1 b.2)) (a + 1) -
          (fun i : ℤ => lsum (List.product (Int.range 0 n) (Int.range 0 n))
            (fun b : ℤ × ℤ => s.u0 i b.1 b.2)) a)
        (fun a _ => lsum_sub _ _ _)).trans
        ((lsum_telescope_zero (fun i : ℤ => lsum (List.product (Int.range 0 n) (Int.range 0 n))
            (fun b : ℤ × ℤ => s.u0 i b.1 b.2)) n).trans
          (lsum_sub (List.product (Int.range 0 n) (Int.range 0 n))
            (fun jk => s.u0 n jk.1 jk.2) (fun jk => s.u0 0 jk.1 jk.2)).symm)
    have hy : lsum (List.product (Int.range 0 n) (List.product (Int.range 0 n) (Int.range 0 n)))
        (fun x : Idx => s.u1 x.1 (x.2.1 + 1) x.2.2 - s.u1 x.1 x.2.1 x.2.2) =
        lsum (List.product (Int.range 0 n) (Int.range 0 n))
          (fun ik => s.u1 ik.1 n ik.2 - s.u1 ik.1 0 ik.2) := by
      rw [lsum_product, lsum_product]
      apply lsum_congr
      intro a _
      rw [lsum_product]
      exact (lsum_congr _ _
        (fun j : ℤ => (fun t : ℤ => lsum (Int.range 0 n) (fun b : ℤ => s.u1 a t b)) (j + 1) -
          (fun t : ℤ => lsum (Int.range 0 n) (fun b : ℤ => s.u1 a t b)) j)
        (fun j _ => lsum_sub _ _ _)).trans
        ((lsum_telescope_zero (fun t : ℤ => lsum (Int.range 0 n) (fun b : ℤ => s.u1 a t b)) n).trans
          (lsum_sub (Int.range 0 n) (fun b => s.u1 a n b) (fun b => s.u1 a 0 b)).symm)
    have hz : lsum (List.product (Int.range 0 n) (List.product (Int.range 0 n) (Int.range 0 n)))
        (fun x : Idx => s.u2 x.1 x.2.1 (x.2.2 + 1) - s.u2 x.1 x.2.1 x.2.2) =
        lsum (List.product (Int.range 0 n) (Int.range 0 n))
          (fun ij => s.u2 ij.1 ij.2 n - s.u2 ij.1 ij.2 0) := by
      rw [lsum_product, lsum_product]
      apply lsum_congr
      intro a _
      rw [lsum_product]
      apply lsum_congr
      intro b _
      exact lsum_telescope_zero (fun t => s.u2 a b t) n
    rw [hx, hy, hz]
    ring

theorem lsum_zero {α : Type} (l : List α) (f : α → ℚ) (h : ∀ x ∈ l, f x = 0) : lsum l f = 0 := by
  rw [lsum_congr l f (fun _ => 0) h]
  unfold lsum
  simp

theorem mem_faces (n : ℕ) (a b c : ℤ) :
    ((a, b, c) ∈ FOR_EVERY_X_FLOW n ↔ (0 ≤ a ∧ a ≤ n) ∧ (0 ≤ b ∧ b < n) ∧ (0 ≤ c ∧ c < n)) ∧
    ((a, b, c) ∈ FOR_EVERY_Y_FLOW n ↔ (0 ≤ a ∧ a < n) ∧ (0 ≤ b ∧ b ≤ n) ∧ (0 ≤ c ∧ c < n)) ∧
    ((a, b, c) ∈ FOR_EVERY_Z_FLOW n ↔ (0 ≤ a ∧ a < n) ∧ (0 ≤ b ∧ b < n) ∧ (0 ≤ c ∧ c ≤ n)) := by
  have e : ((n + 1 : ℕ) : ℤ) = (n : ℤ) + 1 := by push_cast; ring
  refine ⟨?_, ?_, ?_⟩
  · rw [FOR_EVERY_X_FLOW, mem_box, e]
    simp only [Int.lt_add_one_iff]
  · rw [FOR_EVERY_Y_FLOW, mem_box, e]
    simp only [Int.lt_add_one_iff]
  · rw [FOR_EVERY_Z_FLOW, mem_box, e]
    simp only [Int.lt_add_one_iff]

theorem gradientField_walls (n : ℕ) (w p : Grid) (a b c : ℤ) :
    ((a = 0 ∨ a = n) → (gradientField n w p).u0 a b c = 0) ∧
    ((b = 0 ∨ b = n) → (gradientField n w p).u1 a b c = 0) ∧
    ((c = 0 ∨ c = n) → (gradientField n w p).u2 a b c = 0) := by
  refine ⟨fun h => ?_, fun h => ?_, fun h => ?_⟩
  · apply if_neg
    rintro ⟨⟨⟨⟨h1, h2⟩, _⟩, _⟩, ⟨⟨h3, h4⟩, _⟩, _⟩
    omega
  · apply if_neg
    rintro ⟨⟨⟨_, ⟨h1, h2⟩, _⟩, _⟩, ⟨_, ⟨h3, h4⟩, _⟩, _⟩
    omega
  · apply if_neg
    rintro ⟨⟨⟨_, _, ⟨h1, h2⟩⟩, _⟩, ⟨_, _, ⟨h3, h4⟩⟩, _⟩
    omega

/-! ## Trilinear sampling: weights and overshoot (C14) -/

theorem castInt_of_nonneg (x : ℚ) (h : 0 ≤ x) : castInt x = ⌊x⌋ := by
  unfold castInt
  rw [if_pos h]

/-- Where the clamped coordinate does not exceed `extent - 1`, the weight of
the upper sample lies in `[0, 1]`. -/
theorem weight_bounds (extent : ℤ) (h2 : 2 ≤ extent) (x : ℚ)
    (hx : clampCoord extent x ≤ (extent : ℚ) - 1) :
    0 ≤ clampCoord extent x - (lowerIndex extent x : ℚ) ∧
    clampCoord extent x - (lowerIndex extent x : ℚ) ≤ 1 := by
  have h0 := clampCoord_nonneg extent (by omega) x
  have hfl : (⌊clampCoord extent x⌋ : ℚ) ≤ clampCoord extent x := Int.floor_le _
  have hfu : clampCoord extent x < (⌊clampCoord extent x⌋ : ℚ) + 1 := Int.lt_floor_add_one _
  have hfe : ⌊clampCoord extent x⌋ ≤ extent - 1 := by
    have : (⌊clampCoord extent x⌋ : ℚ) ≤ ((extent - 1 : ℤ) : ℚ) := by
      push_cast
      linarith
    exact_mod_cast this
  unfold lowerIndex
  rw [castInt_of_nonneg _ h0]
  by_cases hc : ⌊clampCoord extent x⌋ ≤ extent - 2
  · rw [min_eq_right hc]
    constructor <;> linarith
  · have he : ⌊clampCoord extent x⌋ = extent - 1 := by omega
    rw [min_eq_left (by omega)]
    have h3 : ((extent - 1 : ℤ) : ℚ) ≤ clampCoord extent x := by rw [← he]; exact hfl
    push_cast at h3 ⊢
    constructor <;> linarith

theorem lerp_bounds (m M a b t : ℚ) (ht0 : 0 ≤ t) (ht1 : t ≤ 1) (ha : m ≤ a ∧ a ≤ M)
    (hb : m ≤ b ∧ b ≤ M) : m ≤ (1 - t) * a + t * b ∧ (1 - t) * a + t * b ≤ M := by
  constructor <;> nlinarith [ha.1, ha.2, hb.1, hb.2]

/-- Inside the span of the samples (clamped coordinates at most `extent - 1`
on every axis) `interp` stays between any bounds on the eight values it
reads. -/
theorem interp_bounded_inside (d : Grid) (width height depth : ℤ) (x y z : ℚ)
    (hw : 2 ≤ width) (hh : 2 ≤ height) (hd : 2 ≤ depth)
    (hx : clampCoord width x ≤ (width : ℚ) - 1) (hy : clampCoord height y ≤ (height : ℚ) - 1)
    (hz : clampCoord depth z ≤ (depth : ℚ) - 1) (m M : ℚ)
    (hb : ∀ r ∈ interpReads width height depth x y z,
      m ≤ d r.1 r.2.1 r.2.2 ∧ d r.1 r.2.1 r.2.2 ≤ M) :
    m ≤ interp d width height depth x y z ∧ interp d width height depth x y z ≤ M := by
  obtain ⟨s0, s1⟩ := weight_bounds width hw x hx
  obtain ⟨t0, t1⟩ := weight_bounds height hh y hy
  obtain ⟨w0, w1⟩ := weight_bounds depth hd z hz
  simp only [interpReads, List.mem_cons, List.mem_singleton, forall_eq_or_imp, forall_eq,
    List.not_mem_nil, false_implies, implies_true, and_true] at hb
  obtain ⟨h1, h2, h3, h4, h5, h6, h7, h8⟩ := hb
  unfold interp
  simp only
  exact lerp_bounds m M _ _ _ w0 w1
    (lerp_bounds m M _ _ _ s0 s1 (lerp_bounds m M _ _ _ t0 t1 h1 h2)
      (lerp_bounds m M _ _ _ t0 t1 h3 h4))
    (lerp_bounds m M _ _ _ s0 s1 (lerp_bounds m M _ _ _ t0 t1 h5 h6)
      (lerp_bounds m M _ _ _ t0 t1 h7 h8))

theorem lowerIndex_last : lowerIndex 32 32 = 30 ∧ clampCoord 32 32 = 32 := by
  have hc : clampCoord 32 32 = 32 := by
    unfold clampCoord
    norm_num
  refine ⟨?_, hc⟩
  unfold lowerIndex
  rw [hc]
  have : castInt (32 : ℚ) = 32 := by
    have h := castInt_intCast 32
    simpa using h
  rw [this]
  rfl

theorem lowerIndex_first : lowerIndex 32 0 = 0 ∧ clampCoord 32 0 = 0 := by
  have hc : clampCoord 32 0 = 0 := by
    unfold clampCoord
    norm_num
  refine ⟨?_, hc⟩
  unfold lowerIndex
  rw [hc]
  have : castInt (0 : ℚ) = 0 := by
    have h := castInt_intCast 0
    simpa using h
  rw [this]
  rfl

/-- C14, evaluated at the failing input: on the field `edgeField`, whose
entries are all 0.0 or 1.0, the sample at `p = (1, 0, 0)` (coordinate
`x = width = 32`) reads the entries `d[30|31][0|1][0|1]`, all at most 1.0, and
returns 2.0. -/
theorem interp_overshoots_at_edge :
    (∀ r ∈ interpReads 32 32 32 32 0 0, edgeField r.1 r.2.1 r.2.2 ≤ 1) ∧
    interp edgeField 32 32 32 32 0 0 = 2 ∧
    sample3D edgeField 32 1 0 0 = 2 := by
  obtain ⟨hl, hc⟩ := lowerIndex_last
  obtain ⟨hl0, hc0⟩ := lowerIndex_first
  have hv : interp edgeField 32 32 32 32 0 0 = 2 := by
    unfold interp
    simp only [hl, hc, hl0, hc0]
    simp [edgeField, Grid.set, Grid.zero]
    norm_num
  refine ⟨?_, hv, ?_⟩
  · intro r hr
    simp only [interpReads, hl, hl0, List.mem_cons, List.mem_singleton, List.not_mem_nil,
      or_false] at hr
    rcases hr with rfl | rfl | rfl | rfl | rfl | rfl | rfl | rfl <;>
      simp [edgeField, Grid.set, Grid.zero]
  · unfold sample3D
    rw [if_neg (by norm_num)]
    have e1 : ((32 : ℤ) : ℚ) * 1 = 32 := by norm_num
    have e0 : ((32 : ℤ) : ℚ) * 0 = 0 := by norm_num
    rw [e1, e0]
    exact hv

/-! ## In-bounds indexing (C19) -/

theorem inExtent_u0 (n : ℕ) (i j k : ℤ) :
    inExtent n (Arr.u0, (i, j, k)) ↔ (0 ≤ i ∧ i ≤ n) ∧ (0 ≤ j ∧ j < n) ∧ (0 ≤ k ∧ k < n) := by
  simp only [inExtent, Arr.extent, Nat.cast_add, Nat.cast_one, Int.lt_add_one_iff]

theorem inExtent_u1 (n : ℕ) (i j k : ℤ) :
    inExtent n (Arr.u1, (i, j, k)) ↔ (0 ≤ i ∧ i < n) ∧ (0 ≤ j ∧ j ≤ n) ∧ (0 ≤ k ∧ k < n) := by
  simp only [inExtent, Arr.extent, Nat.cast_add, Nat.cast_one, Int.lt_add_one_iff]

theorem inExtent_u2 (n : ℕ) (i j k : ℤ) :
    inExtent n (Arr.u2, (i, j, k)) ↔ (0 ≤ i ∧ i < n) ∧ (0 ≤ j ∧ j < n) ∧ (0 ≤ k ∧ k ≤ n) := by
  simp only [inExtent, Arr.extent, Nat.cast_add, Nat.cast_one, Int.lt_add_one_iff]

theorem inExtent_cell (n : ℕ) (i j k : ℤ) :
    (inExtent n (Arr.b, (i, j, k)) ↔ inGrid n i j k) ∧
    (inExtent n (Arr.c, (i, j, k)) ↔ inGrid n i j k) ∧
    (inExtent n (Arr.div, (i, j, k)) ↔ inGrid n i j k) ∧
    (inExtent n (Arr.p, (i, j, k)) ↔ inGrid n i j k) :=
  ⟨Iff.rfl, Iff.rfl, Iff.rfl, Iff.rfl⟩

theorem hypot3_bounds (i j k w : ℤ) (h : hypot3_lt i j k w) :
    (-w < i ∧ i < w) ∧ (-w < j ∧ j < w) ∧ (-w < k ∧ k < w) := by
  obtain ⟨hw, hlt⟩ := h
  refine ⟨⟨?_, ?_⟩, ⟨?_, ?_⟩, ⟨?_, ?_⟩⟩ <;> nlinarith [mul_self_nonneg i, mul_self_nonneg j, mul_self_nonneg k]

theorem hypot2_bounds (i j w : ℤ) (h : hypot2_lt i j w) :
    (-w < i ∧ i < w) ∧ (-w < j ∧ j < w) := by
  obtain ⟨hw, hlt⟩ := h
  refine ⟨⟨?_, ?_⟩, ⟨?_, ?_⟩⟩ <;> nlinarith [mul_self_nonneg i, mul_self_nonneg j]

/-- The sphere radius in cells is at most a fifth of the grid size. -/
theorem sphereW_le (n : ℕ) : 5 * sphereW n ≤ n := by
  unfold sphereW castInt SPHERE_R
  rw [if_pos (by positivity)]
  have h := Int.floor_le ((2 / 10 : ℚ) * (n : ℚ))
  have h2 : ((5 * ⌊(2 / 10 : ℚ) * (n : ℚ)⌋ : ℤ) : ℚ) ≤ ((n : ℤ) : ℚ) := by
    push_cast
    linarith
  exact_mod_cast h2

theorem accesses_init_inExtent (n : ℕ) (x : Access) (hx : x ∈ accesses_init n) :
    inExtent n x := by
  unfold accesses_init at hx
  simp only [List.mem_append, List.mem_map, List.mem_flatMap] at hx
  rcases hx with ((⟨⟨i, j, k⟩, hm, rfl⟩ | ⟨⟨i, j, k⟩, hm, rfl⟩) | ⟨⟨i, j, k⟩, hm, rfl⟩) |
    ⟨⟨i, j, k⟩, hm, hx⟩
  · exact (inExtent_u0 n i j k).2 ((mem_faces n i j k).1.1 hm)
  · exact (inExtent_u1 n i j k).2 ((mem_faces n i j k).2.1.1 hm)
  · exact (inExtent_u2 n i j k).2 ((mem_faces n i j k).2.2.1 hm)
  · by_cases h : hypot3_lt i j k (sphereW n)
    · rw [if_pos h, List.mem_singleton] at hx
      subst hx
      have hb := hypot3_bounds i j k _ h
      have hw := sphereW_le n
      refine (inExtent_cell n _ _ _).1.2 ?_
      unfold inGrid
      dsimp only
      omega
    · rw [if_neg h] at hx
      exact absurd hx (List.not_mem_nil _)

theorem accesses_enforce_inExtent (n : ℕ) (s : State) (x : Access)
    (hx : x ∈ accesses_enforce n s) : inExtent n x := by
  unfold accesses_enforce at hx
  simp only [List.mem_append, List.mem_flatMap] at hx
  rcases hx with ((((⟨⟨i, j, k⟩, hm, hx⟩ | ⟨⟨i, j, k⟩, hm, hx⟩) | ⟨⟨i, j, k⟩, hm, hx⟩) | hx) |
    ⟨⟨i, j, k⟩, hm, hx⟩) | ⟨⟨i, j, k⟩, hm, hx⟩
  · split_ifs at hx
    · rw [List.mem_singleton] at hx
      subst hx
      exact (inExtent_u0 n i j k).2 ((mem_faces n i j k).1.1 hm)
    · exact absurd hx (List.not_mem_nil _)
  · split_ifs at hx
    · rw [List.mem_singleton] at hx
      subst hx
      exact (inExtent_u1 n i j k).2 ((mem_faces n i j k).2.1.1 hm)
    · exact absurd hx (List.not_mem_nil _)
  · split_ifs at hx
    · rw [List.mem_singleton] at hx
      subst hx
      exact (inExtent_u2 n i j k).2 ((mem_faces n i j k).2.2.1 hm)
    · exact absurd hx (List.not_mem_nil _)
  · split_ifs at hx with hf
    · rw [List.mem_flatMap] at hx
      obtain ⟨⟨i, j⟩, _, hx⟩ := hx
      split_ifs at hx with hh
      · rw [List.mem_flatMap] at hx
        obtain ⟨k, hk, hx⟩ := hx
        rw [Int.mem_range_iff] at hk
        have hb := hypot2_bounds i j _ hh
        simp only [List.mem_cons, List.mem_singleton, List.not_mem_nil, or_false] at hx
        rcases hx with rfl | rfl
        · refine (inExtent_u1 n _ _ _).2 ?_
          omega
        · refine (inExtent_cell n _ _ _).2.1.2 ?_
          unfold inGrid
          omega
      · exact absurd hx (List.not_mem_nil _)
    · exact absurd hx (List.not_mem_nil _)
  · have hc := (inGrid_iff_mem n i j k).2 hm
    unfold inGrid at hc
    unfold accesses_obstacleCell at hx
    rw [List.mem_cons] at hx
    rcases hx with rfl | hx
    · exact (inExtent_cell n _ _ _).1.2 hc
    · split_ifs at hx
      · simp only [List.mem_cons, List.mem_singleton, List.not_mem_nil, or_false] at hx
        rcases hx with rfl | rfl | rfl | rfl | rfl | rfl | rfl
        · exact (inExtent_cell n _ _ _).2.1.2 hc
        · refine (inExtent_u0 n _ _ _).2 ?_
          omega
        · refine (inExtent_u0 n _ _ _).2 ?_
          omega
        · refine (inExtent_u1 n _ _ _).2 ?_
          omega
        · refine (inExtent_u1 n _ _ _).2 ?_
          omega
        · refine (inExtent_u2 n _ _ _).2 ?_
          omega
        · refine (inExtent_u2 n _ _ _).2 ?_
          omega
      · exact absurd hx (List.not_mem_nil _)
  · have hc := (inGrid_iff_mem n i j k).2 hm
    unfold inGrid at hc
    simp only [List.mem_cons, List.mem_singleton, List.not_mem_nil, or_false] at hx
    rcases hx with rfl | rfl
    · refine (inExtent_u1 n _ _ _).2 ?_
      omega
    · exact (inExtent_cell n _ _ _).2.1.2 hc

theorem accesses_project_inExtent (n : ℕ) (x : Access) (hx : x ∈ accesses_project n) :
    inExtent n x := by
  unfold accesses_project at hx
  simp only [List.mem_append, List.mem_flatMap] at hx
  rcases hx with ⟨⟨i, j, k⟩, hm, hx⟩ | ⟨⟨i, j, k⟩, hm, (hx | hx) | hx⟩
  · have hc := (inGrid_iff_mem n i j k).2 hm
    unfold inGrid at hc
    simp only [List.mem_cons, List.mem_singleton, List.not_mem_nil, or_false] at hx
    rcases hx with rfl | rfl | rfl | rfl | rfl | rfl | rfl
    · exact (inExtent_cell n _ _ _).2.2.1.2 hc
    · refine (inExtent_u0 n _ _ _).2 ?_
      omega
    · refine (inExtent_u0 n _ _ _).2 ?_
      omega
    · refine (inExtent_u1 n _ _ _).2 ?_
      omega
    · refine (inExtent_u1 n _ _ _).2 ?_
      omega
    · refine (inExtent_u2 n _ _ _).2 ?_
      omega
    · refine (inExtent_u2 n _ _ _).2 ?_
      omega
  · have hc := (inGrid_iff_mem n i j k).2 hm
    unfold inGrid at hc
    split_ifs at hx with hg
    · simp only [List.mem_cons, List.mem_singleton, List.not_mem_nil, or_false] at hx
      rcases hx with rfl | rfl | rfl
      · refine (inExtent_u0 n _ _ _).2 ?_
        omega
      · exact (inExtent_cell n _ _ _).2.2.2.2 hc
      · refine (inExtent_cell n _ _ _).2.2.2.2 ?_
        unfold inGrid
        omega
    · exact absurd hx (List.not_mem_nil _)
  · have hc := (inGrid_iff_mem n i j k).2 hm
    unfold inGrid at hc
    split_ifs at hx with hg
    · dsimp only at hg
      simp only [List.mem_cons, List.mem_singleton, List.not_mem_nil, or_false] at hx
      rcases hx with rfl | rfl | rfl
      · refine (inExtent_u1 n _ _ _).2 ?_
        omega
      · exact (inExtent_cell n _ _ _).2.2.2.2 hc
      · refine (inExtent_cell n _ _ _).2.2.2.2 ?_
        unfold inGrid
        omega
    · exact absurd hx (List.not_mem_nil _)
  · have hc := (inGrid_iff_mem n i j k).2 hm
    unfold inGrid at hc
    split_ifs at hx with hg
    · dsimp only at hg
      simp only [List.mem_cons, List.mem_singleton, List.not_mem_nil, or_false] at hx
      rcases hx with rfl | rfl | rfl
      · refine (inExtent_u2 n _ _ _).2 ?_
        omega
      · exact (inExtent_cell n _ _ _).2.2.2.2 hc
      · refine (inExtent_cell n _ _ _).2.2.2.2 ?_
        unfold inGrid
        omega
    · exact absurd hx (List.not_mem_nil _)

/-- C19: for the configured constants `N = 32` and `SPHERE_R = 0.2`, every
array index used by `init`, by `enforce_boundary` (in any state, so in both
the injection and the decay phase and for any mask) and by the loops of
`project` lies inside the allocated extent of its array: `(N+1, N, N)` for the
x-faces, `(N, N+1, N)` for the y-faces, `(N, N, N+1)` for the z-faces and
`(N, N, N)` for `b`, `c`, `div` and `p`. -/
theorem indexing_in_bounds (s : State) (x : Access)
    (hx : x ∈ accesses_init N ++ accesses_enforce N s ++ accesses_project N) :
    inExtent N x := by
  rw [List.mem_append, List.mem_append] at hx
  rcases hx with (hx | hx) | hx
  · exact accesses_init_inExtent N x hx
  · exact accesses_enforce_inExtent N s x hx
  · exact accesses_project_inExtent N x hx

/-- The nozzle write `c[19][6][16]` (offset `i = 3`, `j = 0`, layer counter
`k = 5`) is an access of `enforce_boundary` at frame 0, and it is in bounds. -/
theorem indexing_in_bounds_witness :
    (Arr.c, ((19 : ℤ), (6 : ℤ), (16 : ℤ))) ∈
        accesses_init N ++ accesses_enforce N (init N) ++ accesses_project N ∧
      inExtent N (Arr.c, ((19 : ℤ), (6 : ℤ), (16 : ℤ))) := by
  have hm : (Arr.c, ((19 : ℤ), (6 : ℤ), (16 : ℤ))) ∈
      accesses_init N ++ accesses_enforce N (init N) ++ accesses_project N := by
    rw [List.mem_append, List.mem_append]
    refine Or.inl (Or.inr ?_)
    unfold accesses_enforce
    simp only [List.mem_append]
    refine Or.inl (Or.inl (Or.inr ?_))
    have hf : (init N).frame < LIMIT / 2 := by
      rw [(init_fields N).2.2.2.2]
      decide
    rw [if_pos hf, List.mem_flatMap]
    refine ⟨(3, 0), ?_, ?_⟩
    · rw [List.pair_mem_product, Int.mem_range_iff, Int.mem_range_iff]
      decide
    · have hh : hypot2_lt (3 : ℤ) 0 ((N / 7 : ℕ) : ℤ) := by decide
      rw [if_pos hh, List.mem_flatMap]
      refine ⟨5, ?_, ?_⟩
      · rw [Int.mem_range_iff]
        decide
      · have e : ((N / 2 : ℕ) : ℤ) = 16 := by decide
        simp only [e]
        norm_num
  exact ⟨hm, indexing_in_bounds (init N) _ hm⟩

/-! ## Rounding to a binary floating-point format -/

theorem roundNearestEven_intCast (m : ℤ) : roundNearestEven (m : ℚ) = m := by
  unfold roundNearestEven
  rw [Int.floor_intCast, if_pos (by norm_num)]

theorem roundNearestEven_add_half (m : ℤ) (h : m % 2 = 0) :
    roundNearestEven ((m : ℚ) + 1 / 2) = m := by
  have hf : ⌊(m : ℚ) + 1 / 2⌋ = m := by
    rw [Int.floor_int_add]
    norm_num
  unfold roundNearestEven
  rw [hf, if_neg (by norm_num), if_neg (by norm_num), if_pos h]

theorem roundFloat_zero (prec : ℕ) : roundFloat prec 0 = 0 := by
  unfold roundFloat
  rw [if_pos rfl]

theorem log_two_zpow (e : ℤ) : Int.log 2 ((2 : ℚ) ^ e) = e := by
  have h := @Int.log_zpow ℚ _ _ 2 (by norm_num) e
  simpa using h

theorem log_two_eq (x : ℚ) (e : ℤ) (h1 : (2 : ℚ) ^ e ≤ x) (h2 : x < (2 : ℚ) ^ (e + 1)) :
    Int.log 2 x = e := by
  have hx : 0 < x := lt_of_lt_of_le (by positivity) h1
  have a1 := (@Int.zpow_le_iff_le_log ℚ _ _ 2 (by norm_num) e x hx).1
    (by simpa using h1)
  have a2 := (@Int.lt_zpow_iff_log_lt ℚ _ _ 2 (by norm_num) (e + 1) x hx).1
    (by simpa using h2)
  omega

theorem two_zpow_prec (prec : ℕ) (hp : 1 ≤ prec) :
    (2 : ℚ) ^ ((prec : ℤ) - 1) = (((2 : ℤ) ^ (prec - 1) : ℤ) : ℚ) := by
  have e : (prec : ℤ) - 1 = ((prec - 1 : ℕ) : ℤ) := by omega
  rw [e, zpow_natCast]
  push_cast
  rfl

/-- Powers of two are values of every binary format. -/
theorem roundFloat_two_zpow (prec : ℕ) (hp : 1 ≤ prec) (e : ℤ) :
    roundFloat prec ((2 : ℚ) ^ e) = (2 : ℚ) ^ e := by
  have h2 : (2 : ℚ) ^ e ≠ 0 := by positivity
  have habs : |(2 : ℚ) ^ e| = (2 : ℚ) ^ e := abs_of_pos (by positivity)
  unfold roundFloat
  rw [if_neg h2, habs, log_two_zpow]
  have hq : (2 : ℚ) ^ e / 2 ^ (e - ((prec : ℤ) - 1)) = (((2 : ℤ) ^ (prec - 1) : ℤ) : ℚ) := by
    rw [← two_zpow_prec prec hp, ← zpow_sub₀ (by norm_num : (2 : ℚ) ≠ 0)]
    congr 1
    ring
  rw [hq, roundNearestEven_intCast, ← two_zpow_prec prec hp, ← zpow_add₀ (by norm_num : (2 : ℚ) ≠ 0)]
  congr 1
  ring

theorem roundFloat_neg_two_zpow (prec : ℕ) (hp : 1 ≤ prec) (e : ℤ) :
    roundFloat prec (-(2 : ℚ) ^ e) = -(2 : ℚ) ^ e := by
  have h2 : -(2 : ℚ) ^ e ≠ 0 := neg_ne_zero.mpr (by positivity)
  have habs : |-(2 : ℚ) ^ e| = (2 : ℚ) ^ e := by
    rw [abs_neg]
    exact abs_of_pos (by positivity)
  unfold roundFloat
  rw [if_neg h2, habs, log_two_zpow]
  have hq : -(2 : ℚ) ^ e / 2 ^ (e - ((prec : ℤ) - 1)) = ((-(2 : ℤ) ^ (prec - 1) : ℤ) : ℚ) := by
    rw [Int.cast_neg, ← two_zpow_prec prec hp, neg_div, ← zpow_sub₀ (by norm_num : (2 : ℚ) ≠ 0)]
    congr 2
    ring
  rw [hq, roundNearestEven_intCast, Int.cast_neg, ← two_zpow_prec prec hp, neg_mul,
    ← zpow_add₀ (by norm_num : (2 : ℚ) ≠ 0)]
  congr 2
  ring

/-- A power of two plus half a unit in the last place is a tie; it is rounded
to the power of two, whose significand is even. -/
theorem roundFloat_tie (prec : ℕ) (hp : 2 ≤ prec) (e : ℤ) :
    roundFloat prec ((2 : ℚ) ^ e + 2 ^ (e - (prec : ℤ))) = (2 : ℚ) ^ e := by
  have hp1 : 1 ≤ prec := by omega
  have hpos : (0 : ℚ) < 2 ^ (e - (prec : ℤ)) := by positivity
  have hlt : (2 : ℚ) ^ (e - (prec : ℤ)) < 2 ^ e :=
    zpow_lt_zpow_right₀ (by norm_num) (by omega)
  have hx0 : (2 : ℚ) ^ e + 2 ^ (e - (prec : ℤ)) ≠ 0 := by positivity
  have habs : |(2 : ℚ) ^ e + 2 ^ (e - (prec : ℤ))| = (2 : ℚ) ^ e + 2 ^ (e - (prec : ℤ)) :=
    abs_of_pos (by positivity)
  have hlog : Int.log 2 ((2 : ℚ) ^ e + 2 ^ (e - (prec : ℤ))) = e := by
    apply log_two_eq
    · linarith
    · rw [zpow_add_one₀ (by norm_num : (2 : ℚ) ≠ 0)]
      linarith
  unfold roundFloat
  rw [if_neg hx0, habs, hlog]
  have hq : ((2 : ℚ) ^ e + 2 ^ (e - (prec : ℤ))) / 2 ^ (e - ((prec : ℤ) - 1)) =
      (((2 : ℤ) ^ (prec - 1) : ℤ) : ℚ) + 1 / 2 := by
    rw [add_div, ← zpow_sub₀ (by norm_num : (2 : ℚ) ≠ 0), ← zpow_sub₀ (by norm_num : (2 : ℚ) ≠ 0),
      ← two_zpow_prec prec hp1]
    have e1 : e - (e - ((prec : ℤ) - 1)) = (prec : ℤ) - 1 := by ring
    have e2 : e - (prec : ℤ) - (e - ((prec : ℤ) - 1)) = -1 := by ring
    rw [e1, e2]
    norm_num
  have heven : ((2 : ℤ) ^ (prec - 1)) % 2 = 0 := by
    obtain ⟨k, hk⟩ : ∃ k, prec - 1 = k + 1 := ⟨prec - 2, by omega⟩
    rw [hk, pow_succ]
    omega
  rw [hq, roundNearestEven_add_half _ heven, ← two_zpow_prec prec hp1,
    ← zpow_add₀ (by norm_num : (2 : ℚ) ≠ 0)]
  congr 1
  ring

/-! ## The gradient subtraction under rounding (C7) -/

theorem foldl_fixed {σ α : Type} (f : σ → α → σ) (s : σ) (l : List α)
    (h : ∀ x ∈ l, f s x = s) : l.foldl f s = s := by
  induction l with
  | nil => rfl
  | cons x l ih =>
    rw [List.foldl_cons, h x (List.mem_cons_self _ _)]
    exact ih (fun y hy => h y (List.mem_cons_of_mem _ hy))

theorem Grid.set_self (g : Grid) (i j k : ℤ) : g.set i j k (g i j k) = g := by
  funext a b c
  simp only [Grid.set]
  split_ifs with h
  · rw [h.1, h.2.1, h.2.2]
  · rfl

/-- Without rounding the rounded sweeps are the exact ones. -/
theorem project_fl_exact (n : ℕ) (p : Grid) (s : State) (div : Grid) :
    project_subtract_fl (fun x => x) (cellWidth n) n p s = project_subtract n p s ∧
    project_divergence_fl (fun x => x) (cellWidth n) n s div = project_divergence n s div :=
  ⟨rfl, rfl⟩

/-- The x-faces after the gradient subtraction with rounding. -/
theorem project_subtract_fl_u0 (fl : ℚ → ℚ) (h : ℚ) (n : ℕ) (p : Grid) (s : State)
    (a b c : ℤ) :
    (((a, b, c) ∈ FOR_EVERY_CELL n ∧ 0 < a) → (project_subtract_fl fl h n p s).u0 a b c =
      fl (s.u0 a b c - fl (fl (p a b c - p (a - 1) b c) / h))) ∧
    (¬ ((a, b, c) ∈ FOR_EVERY_CELL n ∧ 0 < a) →
      (project_subtract_fl fl h n p s).u0 a b c = s.u0 a b c) := by
  have key := foldl_own_write (subtractCell_fl fl h n p) (fun t => t.u0 a b c)
    (fun v => if 0 < a ∧ a < n then fl (v - fl (fl (p a b c - p (a - 1) b c) / h)) else v)
    (a, b, c) (fun _ => True) (fun _ _ _ => trivial)
    (fun t _ => by
      unfold subtractCell_fl subtractZ_fl subtractY_fl subtractX_fl
      split_ifs <;> simp [Grid.set])
    (fun t x _ hx => by
      have hne : ¬ (a = x.1 ∧ b = x.2.1 ∧ c = x.2.2) := by
        rintro ⟨h1, h2, h3⟩
        exact hx (by ext <;> simp [h1, h2, h3])
      unfold subtractCell_fl subtractZ_fl subtractY_fl subtractX_fl
      split_ifs <;> simp [Grid.set, hne])
    (FOR_EVERY_CELL n) (nodup_box n n n) s trivial
  constructor
  · rintro ⟨hm, ha⟩
    have han : a < n := by
      rw [FOR_EVERY_CELL, mem_box] at hm
      exact hm.1.2
    exact (key.1 hm).trans (if_pos ⟨ha, han⟩)
  · intro h
    by_cases hm : (a, b, c) ∈ FOR_EVERY_CELL n
    · have ha : ¬ (0 < a ∧ a < n) := fun h2 => h ⟨hm, h2.1⟩
      exact (key.1 hm).trans (if_neg ha)
    · exact key.2 hm

/-- For `N = 32` the cell width `1/32` is exact in `double` and in `FLOAT`. -/
theorem cellWidth_fl_N (prec : ℕ) (hp : 1 ≤ prec) :
    cellWidth_fl (roundFloat prec) N = 1 / 32 := by
  have e : (1 : ℚ) / ((N : ℕ) : ℚ) = (2 : ℚ) ^ (-5 : ℤ) := by
    simp only [N]
    norm_num
  unfold cellWidth_fl
  rw [e, roundFloat_two_zpow 53 (by norm_num), roundFloat_two_zpow prec hp]
  norm_num

/-- Two pressure fields with equal differences across every interior face give
the same rounded sweep. -/
theorem project_subtract_fl_congr (fl : ℚ → ℚ) (h : ℚ) (n : ℕ) (p q : Grid) (s : State)
    (hd : ∀ a b c : ℤ, (a, b, c) ∈ FOR_EVERY_CELL n →
      (0 < a → q a b c - q (a - 1) b c = p a b c - p (a - 1) b c) ∧
      (0 < b → q a b c - q a (b - 1) c = p a b c - p a (b - 1) c) ∧
      (0 < c → q a b c - q a b (c - 1) = p a b c - p a b (c - 1))) :
    project_subtract_fl fl h n q s = project_subtract_fl fl h n p s := by
  unfold project_subtract_fl
  apply List.foldl_ext
  rintro t ⟨a, b, c⟩ hx
  have hdx := hd a b c hx
  have hX : ∀ t : State, subtractX_fl fl h n q t (a, b, c) = subtractX_fl fl h n p t (a, b, c) := by
    intro t
    unfold subtractX_fl
    by_cases hg : 0 < a ∧ a < (n : ℤ)
    · rw [if_pos hg, if_pos hg]
      simp only
      rw [hdx.1 hg.1]
    · rw [if_neg hg, if_neg hg]
  have hY : ∀ t : State, subtractY_fl fl h n q t (a, b, c) = subtractY_fl fl h n p t (a, b, c) := by
    intro t
    unfold subtractY_fl
    by_cases hg : 0 < b ∧ b < (n : ℤ)
    · rw [if_pos hg, if_pos hg]
      simp only
      rw [hdx.2.1 hg.1]
    · rw [if_neg hg, if_neg hg]
  have hZ : ∀ t : State, subtractZ_fl fl h n q t (a, b, c) = subtractZ_fl fl h n p t (a, b, c) := by
    intro t
    unfold subtractZ_fl
    by_cases hg : 0 < c ∧ c < (n : ℤ)
    · rw [if_pos hg, if_pos hg]
      simp only
      rw [hdx.2.2 hg.1]
    · rw [if_neg hg, if_neg hg]
  unfold subtractCell_fl
  rw [hX, hY, hZ]

/-- A pressure field that is constant over the grid leaves a state whose face
velocities are `FLOAT` values unchanged, whatever the rounding. -/
theorem project_subtract_fl_const (fl : ℚ → ℚ) (h : ℚ) (n : ℕ) (k : ℚ) (s : State)
    (h0 : fl 0 = 0)
    (hs : ∀ a b c : ℤ, (a, b, c) ∈ FOR_EVERY_CELL n →
      fl (s.u0 a b c) = s.u0 a b c ∧ fl (s.u1 a b c) = s.u1 a b c ∧
      fl (s.u2 a b c) = s.u2 a b c) :
    project_subtract_fl fl h n (fun _ _ _ => k) s = s := by
  unfold project_subtract_fl
  apply foldl_fixed
  rintro ⟨a, b, c⟩ hx
  have hsx := hs a b c hx
  have hX : subtractX_fl fl h n (fun _ _ _ => k) s (a, b, c) = s := by
    unfold subtractX_fl
    split_ifs
    · simp only [sub_self, h0, zero_div, sub_zero, hsx.1, Grid.set_self]
    · rfl
  have hY : subtractY_fl fl h n (fun _ _ _ => k) s (a, b, c) = s := by
    unfold subtractY_fl
    split_ifs
    · simp only [sub_self, h0, zero_div, sub_zero, hsx.2.1, Grid.set_self]
    · rfl
  have hZ : subtractZ_fl fl h n (fun _ _ _ => k) s (a, b, c) = s := by
    unfold subtractZ_fl
    split_ifs
    · simp only [sub_self, h0, zero_div, sub_zero, hsx.2.2, Grid.set_self]
    · rfl
  unfold subtractCell_fl
  rw [hX, hY, hZ]

/-- The face `u0[1][16][16]` of the zero velocity field after the rounded
subtraction sweep, for the pressure `p[i][j][k] = i` and for the array that
holds `p + 2^prec`. -/
theorem subtract_ramp_fl (prec : ℕ) (hp : 2 ≤ prec) :
    (project_subtract_fl (roundFloat prec) (cellWidth_fl (roundFloat prec) N) N pressureRamp
      (init N)).u0 1 16 16 = -32 ∧
    (project_subtract_fl (roundFloat prec) (cellWidth_fl (roundFloat prec) N) N
      (shiftedRamp prec) (init N)).u0 1 16 16 = 0 := by
  have hp1 : 1 ≤ prec := by omega
  have hcell : ((1 : ℤ), (16 : ℤ), (16 : ℤ)) ∈ FOR_EVERY_CELL N :=
    mem_cell_N 1 16 16 (by norm_num) (by norm_num) (by norm_num)
  have hu : (init N).u0 1 16 16 = 0 := by rw [(init_fields N).1]; rfl
  have r1 : roundFloat prec 1 = 1 := by
    have := roundFloat_two_zpow prec hp1 0
    simpa using this
  have r32 : roundFloat prec 32 = 32 := by
    have := roundFloat_two_zpow prec hp1 5
    norm_num at this
    exact this
  have rm32 : roundFloat prec (-32) = -32 := by
    have := roundFloat_neg_two_zpow prec hp1 5
    norm_num at this
    exact this
  have q1 : shiftedRamp prec 1 16 16 = 2 ^ (prec : ℤ) := by
    unfold shiftedRamp pressureRamp
    have := roundFloat_tie prec hp (prec : ℤ)
    rw [sub_self, zpow_zero] at this
    have e : (((1 : ℤ) : ℚ)) + 2 ^ (prec : ℤ) = 2 ^ (prec : ℤ) + 1 := by
      push_cast
      ring
    rw [e, this]
  have q0 : shiftedRamp prec 0 16 16 = 2 ^ (prec : ℤ) := by
    unfold shiftedRamp pressureRamp
    have e : (((0 : ℤ) : ℚ)) + 2 ^ (prec : ℤ) = 2 ^ (prec : ℤ) := by
      push_cast
      ring
    rw [e, roundFloat_two_zpow prec hp1 (prec : ℤ)]
  constructor
  · rw [(project_subtract_fl_u0 _ _ N pressureRamp (init N) 1 16 16).1 ⟨hcell, by norm_num⟩, hu,
      cellWidth_fl_N prec hp1]
    have e1 : pressureRamp 1 16 16 - pressureRamp (1 - 1) 16 16 = 1 := by
      simp [pressureRamp]
    rw [e1, r1]
    have e2 : (1 : ℚ) / (1 / 32) = 32 := by norm_num
    rw [e2, r32]
    have e3 : (0 : ℚ) - 32 = -32 := by norm_num
    rw [e3, rm32]
  · rw [(project_subtract_fl_u0 _ _ N (shiftedRamp prec) (init N) 1 16 16).1
      ⟨hcell, by norm_num⟩, hu, cellWidth_fl_N prec hp1]
    have e0 : (1 : ℤ) - 1 = 0 := by norm_num
    rw [e0, q1, q0, sub_self, roundFloat_zero, zero_div, roundFloat_zero, sub_zero,
      roundFloat_zero]

/-- C7 as stated fails under the rounding of `FLOAT`, for `double` and for
`float`: with zero velocities and the pressure `p[i][j][k] = i`, the
subtraction loop leaves `u0[1][16][16] = -32`; for the `FLOAT` array that
holds `p + k` with `k = 2^53` (`2^24` for `float`) it leaves
`u0[1][16][16] = 0`, because `1 + k` is rounded to `k`. -/
theorem shifted_pressure_changes_velocity :
    ((project_subtract_fl (roundFloat 53) (cellWidth_fl (roundFloat 53) N) N pressureRamp
        (init N)).u0 1 16 16 = -32 ∧
      (project_subtract_fl (roundFloat 53) (cellWidth_fl (roundFloat 53) N) N
        (shiftedRamp 53) (init N)).u0 1 16 16 = 0) ∧
    ((project_subtract_fl (roundFloat 24) (cellWidth_fl (roundFloat 24) N) N pressureRamp
        (init N)).u0 1 16 16 = -32 ∧
      (project_subtract_fl (roundFloat 24) (cellWidth_fl (roundFloat 24) N) N
        (shiftedRamp 24) (init N)).u0 1 16 16 = 0) :=
  ⟨subtract_ramp_fl 53 (by norm_num), subtract_ramp_fl 24 (by norm_num)⟩

/-! ## Obstacle faces in the gradient subtraction (C6, amended) -/

/-- C7, amended: over exact arithmetic (the rounded loop with the identity as
rounding) the gradient subtraction of `project` yields the same state for
`p + k` as for `p` and leaves the state unchanged for a constant pressure.
With any rounding `fl` after each operation, two stored pressure fields whose
differences across every interior face are equal give the same state, and a
pressure field that is constant over the grid leaves the state unchanged when
`fl 0 = 0` and the stored velocities are values of the format. -/
theorem subtraction_depends_on_differences (fl : ℚ → ℚ) (h : ℚ) (n : ℕ) (p q : Grid) (k : ℚ)
    (s : State) :
    project_subtract_fl (fun x => x) (cellWidth n) n p s = project_subtract n p s ∧
    project_subtract n (fun a b c => p a b c + k) s = project_subtract n p s ∧
    project_subtract n (fun _ _ _ => k) s = s ∧
    ((∀ a b c : ℤ, (a, b, c) ∈ FOR_EVERY_CELL n →
        (0 < a → q a b c - q (a - 1) b c = p a b c - p (a - 1) b c) ∧
        (0 < b → q a b c - q a (b - 1) c = p a b c - p a (b - 1) c) ∧
        (0 < c → q a b c - q a b (c - 1) = p a b c - p a b (c - 1))) →
      project_subtract_fl fl h n q s = project_subtract_fl fl h n p s) ∧
    (fl 0 = 0 →
      (∀ a b c : ℤ, (a, b, c) ∈ FOR_EVERY_CELL n →
        fl (s.u0 a b c) = s.u0 a b c ∧ fl (s.u1 a b c) = s.u1 a b c ∧
        fl (s.u2 a b c) = s.u2 a b c) →
      project_subtract_fl fl h n (fun _ _ _ => k) s = s) := by
  refine ⟨rfl, ?_, ?_, project_subtract_fl_congr fl h n p q s,
    project_subtract_fl_const fl h n k s⟩
  · exact project_subtract_fl_congr (fun x => x) (cellWidth n) n p (fun a b c => p a b c + k) s
      (fun a b c _ => ⟨fun _ => by ring, fun _ => by ring, fun _ => by ring⟩)
  · exact project_subtract_fl_const (fun x => x) (cellWidth n) n k s rfl
      (fun _ _ _ _ => ⟨rfl, rfl, rfl⟩)

/-- Witness for the amended C7, in `double` arithmetic on the zero velocity
field left by `init`: the pressure `p[i][j][k] = i` and the stored field
`p + 1`, which has the same differences, give the same state, and the constant
pressure 7 leaves the state unchanged. -/
theorem subtraction_depends_on_differences_witness :
    project_subtract_fl (roundFloat 53) (cellWidth_fl (roundFloat 53) N) N
        (fun a b c => pressureRamp a b c + 1) (init N) =
      project_subtract_fl (roundFloat 53) (cellWidth_fl (roundFloat 53) N) N pressureRamp
        (init N) ∧
    project_subtract_fl (roundFloat 53) (cellWidth_fl (roundFloat 53) N) N (fun _ _ _ => 7)
      (init N) = init N := by
  have h := subtraction_depends_on_differences (roundFloat 53) (cellWidth_fl (roundFloat 53) N)
    N pressureRamp (fun a b c => pressureRamp a b c + 1) 7 (init N)
  refine ⟨h.2.2.2.1 (fun a b c _ => ⟨fun _ => by ring, fun _ => by ring, fun _ => by ring⟩),
    h.2.2.2.2 (roundFloat_zero 53) (fun a b c _ => ?_)⟩
  rw [(init_fields N).1, (init_fields N).2.1, (init_fields N).2.2.1]
  exact ⟨roundFloat_zero 53, roundFloat_zero 53, roundFloat_zero 53⟩

/-! ## The divergence sum under rounding (C18) -/

/-- The rounded divergence sweep stores `divergenceAt_fl` at every cell index. -/
theorem project_divergence_fl_at (fl : ℚ → ℚ) (h : ℚ) (n : ℕ) (s : State) (div : Grid)
    (a b c : ℤ) :
    ((a, b, c) ∈ FOR_EVERY_CELL n →
      project_divergence_fl fl h n s div a b c = divergenceAt_fl fl h s a b c) ∧
    ((a, b, c) ∉ FOR_EVERY_CELL n → project_divergence_fl fl h n s div a b c = div a b c) := by
  have key := foldl_own_write (divergenceCell_fl fl h s) (fun d => d a b c)
    (fun _ => divergenceAt_fl fl h s a b c) (a, b, c) (fun _ => True) (fun _ _ _ => trivial)
    (fun d _ => Grid.set_same d a b c _)
    (fun d x _ hx => Grid.set_other d _ _ _ _ _ _ _ (by
      rintro ⟨h1, h2, h3⟩
      exact hx (by ext <;> simp [h1, h2, h3])))
    (FOR_EVERY_CELL n) (nodup_box n n n) div trivial
  exact key

theorem lsum_erase {α : Type} [BEq α] [LawfulBEq α] (l : List α) (f : α → ℚ) (y : α)
    (hy : y ∈ l) : lsum l f = f y + lsum (l.erase y) f := by
  induction l with
  | nil => exact absurd hy (List.not_mem_nil _)
  | cons x l ih =>
    rw [List.erase_cons]
    by_cases hxy : (x == y) = true
    · rw [if_pos hxy, lsum_cons, eq_of_beq hxy]
    · rw [if_neg hxy, lsum_cons, lsum_cons]
      have hy2 : y ∈ l := by
        rcases List.mem_cons.mp hy with h | h
        · exact absurd (by rw [h]; exact beq_self_eq_true x) hxy
        · exact h
      rw [ih hy2]
      ring

theorem roundingFlow_u0 (prec : ℕ) (a b c : ℤ) :
    ((a = 2 ∧ b = 0 ∧ c = 0) → (roundingFlow prec).u0 a b c = 1) ∧
    ((a = 1 ∧ b = 0 ∧ c = 0) → (roundingFlow prec).u0 a b c = -(2 : ℚ) ^ (-(prec : ℤ))) ∧
    (¬ (a = 2 ∧ b = 0 ∧ c = 0) → ¬ (a = 1 ∧ b = 0 ∧ c = 0) →
      (roundingFlow prec).u0 a b c = 0) := by
  refine ⟨fun h => ?_, fun h => ?_, fun h2 h1 => ?_⟩
  · exact Grid.set_hit _ _ _ _ _ _ _ _ h
  · have h2 : ¬ (a = 2 ∧ b = 0 ∧ c = 0) := by omega
    exact (Grid.set_other _ _ _ _ _ _ _ _ h2).trans (Grid.set_hit _ _ _ _ _ _ _ _ h)
  · exact (Grid.set_other _ _ _ _ _ _ _ _ h2).trans (Grid.set_other _ _ _ _ _ _ _ _ h1)

/-- The divergence of `roundingFlow` computed with rounding: three cells hold
a non-zero value. -/
theorem roundingFlow_divergence (prec : ℕ) (hp : 2 ≤ prec) (i j k : ℤ) :
    ((i = 0 ∧ j = 0 ∧ k = 0) → divergenceAt_fl (roundFloat prec)
      (cellWidth_fl (roundFloat prec) N) (roundingFlow prec) i j k =
        -(2 : ℚ) ^ (5 - (prec : ℤ))) ∧
    ((i = 1 ∧ j = 0 ∧ k = 0) → divergenceAt_fl (roundFloat prec)
      (cellWidth_fl (roundFloat prec) N) (roundingFlow prec) i j k = 32) ∧
    ((i = 2 ∧ j = 0 ∧ k = 0) → divergenceAt_fl (roundFloat prec)
      (cellWidth_fl (roundFloat prec) N) (roundingFlow prec) i j k = -32) ∧
    (¬ (i = 0 ∧ j = 0 ∧ k = 0) → ¬ (i = 1 ∧ j = 0 ∧ k = 0) → ¬ (i = 2 ∧ j = 0 ∧ k = 0) →
      divergenceAt_fl (roundFloat prec) (cellWidth_fl (roundFloat prec) N) (roundingFlow prec)
        i j k = 0) := by
  have hp1 : 1 ≤ prec := by omega
  have r1 : roundFloat prec 1 = 1 := by
    have := roundFloat_two_zpow prec hp1 0
    simpa using this
  have rm1 : roundFloat prec (-1) = -1 := by
    have := roundFloat_neg_two_zpow prec hp1 0
    simpa using this
  have r32 : roundFloat prec 32 = 32 := by
    have := roundFloat_two_zpow prec hp1 5
    norm_num at this
    exact this
  have rm32 : roundFloat prec (-32) = -32 := by
    have := roundFloat_neg_two_zpow prec hp1 5
    norm_num at this
    exact this
  have rA := roundFloat_neg_two_zpow prec hp1 (-(prec : ℤ))
  have rB := roundFloat_neg_two_zpow prec hp1 (5 - (prec : ℤ))
  have rT : roundFloat prec (1 - -(2 : ℚ) ^ (-(prec : ℤ))) = 1 := by
    have := roundFloat_tie prec hp 0
    rw [zpow_zero, zero_sub] at this
    rw [sub_neg_eq_add]
    exact this
  have eA : -(2 : ℚ) ^ (-(prec : ℤ)) / (1 / 32) = -(2 : ℚ) ^ (5 - (prec : ℤ)) := by
    have e : (5 : ℤ) - (prec : ℤ) = 5 + -(prec : ℤ) := by ring
    rw [e, zpow_add₀ (by norm_num : (2 : ℚ) ≠ 0)]
    norm_num
    ring
  have shape : ∀ a b c : ℤ, divergenceAt_fl (roundFloat prec)
      (cellWidth_fl (roundFloat prec) N) (roundingFlow prec) a b c =
      roundFloat prec (roundFloat prec (roundFloat prec (roundFloat prec (roundFloat prec
        (roundFloat prec ((roundingFlow prec).u0 (a + 1) b c - (roundingFlow prec).u0 a b c))))) /
          (1 / 32)) := by
    intro a b c
    unfold divergenceAt_fl
    rw [cellWidth_fl_N prec hp1]
    have e1 : ∀ x y z : ℤ, (roundingFlow prec).u1 x y z = 0 := fun _ _ _ => rfl
    have e2 : ∀ x y z : ℤ, (roundingFlow prec).u2 x y z = 0 := fun _ _ _ => rfl
    simp only [e1, e2, add_zero, sub_zero]
  refine ⟨?_, ?_, ?_, ?_⟩
  · rintro ⟨rfl, rfl, rfl⟩
    rw [shape, ((roundingFlow_u0 prec (0 + 1) 0 0).2.1 (by norm_num)),
      ((roundingFlow_u0 prec 0 0 0).2.2 (by norm_num) (by norm_num)), sub_zero,
      rA, rA, rA, rA, rA, eA, rB]
  · rintro ⟨rfl, rfl, rfl⟩
    rw [shape, ((roundingFlow_u0 prec (1 + 1) 0 0).1 (by norm_num)),
      ((roundingFlow_u0 prec 1 0 0).2.1 (by norm_num)), rT, r1, r1, r1, r1]
    have e : (1 : ℚ) / (1 / 32) = 32 := by norm_num
    rw [e, r32]
  · rintro ⟨rfl, rfl, rfl⟩
    rw [shape, ((roundingFlow_u0 prec (2 + 1) 0 0).2.2 (by norm_num) (by norm_num)),
      ((roundingFlow_u0 prec 2 0 0).1 (by norm_num)), zero_sub, rm1, rm1, rm1, rm1, rm1]
    have e : (-1 : ℚ) / (1 / 32) = -32 := by norm_num
    rw [e, rm32]
  · intro h0 h1 h2
    rw [shape, ((roundingFlow_u0 prec (i + 1) j k).2.2 (by omega) (by omega)),
      ((roundingFlow_u0 prec i j k).2.2 (by omega) (by omega)), sub_zero]
    simp only [roundFloat_zero, zero_div]

/-- The sum over all cells of the divergence of `roundingFlow` computed with
rounding. -/
theorem roundingFlow_sum (prec : ℕ) (hp : 2 ≤ prec) :
    cellSum N (project_divergence_fl (roundFloat prec) (cellWidth_fl (roundFloat prec) N) N
      (roundingFlow prec) Grid.zero) = -(2 : ℚ) ^ (5 - (prec : ℤ)) := by
  have hsum : cellSum N (project_divergence_fl (roundFloat prec)
      (cellWidth_fl (roundFloat prec) N) N (roundingFlow prec) Grid.zero) =
      lsum (FOR_EVERY_CELL N) (fun x => divergenceAt_fl (roundFloat prec)
        (cellWidth_fl (roundFloat prec) N) (roundingFlow prec) x.1 x.2.1 x.2.2) := by
    unfold cellSum
    apply lsum_congr
    intro x hx
    exact (project_divergence_fl_at _ _ N _ _ x.1 x.2.1 x.2.2).1 hx
  have hnd := nodup_box N N N
  have m0 : ((0 : ℤ), (0 : ℤ), (0 : ℤ)) ∈ FOR_EVERY_CELL N :=
    mem_cell_N 0 0 0 (by norm_num) (by norm_num) (by norm_num)
  have m1 : ((1 : ℤ), (0 : ℤ), (0 : ℤ)) ∈ (FOR_EVERY_CELL N).erase (0, 0, 0) :=
    (List.Nodup.mem_erase_iff hnd).2
      ⟨by decide, mem_cell_N 1 0 0 (by norm_num) (by norm_num) (by norm_num)⟩
  have m2 : ((2 : ℤ), (0 : ℤ), (0 : ℤ)) ∈ ((FOR_EVERY_CELL N).erase (0, 0, 0)).erase (1, 0, 0) :=
    (List.Nodup.mem_erase_iff (hnd.erase _)).2 ⟨by decide, (List.Nodup.mem_erase_iff hnd).2
      ⟨by decide, mem_cell_N 2 0 0 (by norm_num) (by norm_num) (by norm_num)⟩⟩
  have hrest : lsum ((((FOR_EVERY_CELL N).erase (0, 0, 0)).erase (1, 0, 0)).erase (2, 0, 0))
      (fun x => divergenceAt_fl (roundFloat prec) (cellWidth_fl (roundFloat prec) N)
        (roundingFlow prec) x.1 x.2.1 x.2.2) = 0 := by
    apply lsum_zero
    rintro ⟨i, j, k⟩ hx
    have h2 := (List.Nodup.mem_erase_iff ((hnd.erase _).erase _)).1 hx
    have h1 := (List.Nodup.mem_erase_iff (hnd.erase _)).1 h2.2
    have h0 := (List.Nodup.mem_erase_iff hnd).1 h1.2
    refine (roundingFlow_divergence prec hp i j k).2.2.2 ?_ ?_ ?_
    · rintro ⟨rfl, rfl, rfl⟩
      exact h0.1 rfl
    · rintro ⟨rfl, rfl, rfl⟩
      exact h1.1 rfl
    · rintro ⟨rfl, rfl, rfl⟩
      exact h2.1 rfl
  rw [hsum, lsum_erase _ _ _ m0, lsum_erase _ _ _ m1, lsum_erase _ _ _ m2, hrest,
    (roundingFlow_divergence prec hp 0 0 0).1 ⟨rfl, rfl, rfl⟩,
    (roundingFlow_divergence prec hp 1 0 0).2.1 ⟨rfl, rfl, rfl⟩,
    (roundingFlow_divergence prec hp 2 0 0).2.2.1 ⟨rfl, rfl, rfl⟩]
  ring

/-- The velocity field `roundingFlow` vanishes on the six domain faces and its
entries are values of the format. -/
theorem roundingFlow_walls (prec : ℕ) (hp : 1 ≤ prec) :
    (∀ a b c : ℤ, (a = 0 ∨ a = N) → (roundingFlow prec).u0 a b c = 0) ∧
    (roundingFlow prec).u1 = Grid.zero ∧ (roundingFlow prec).u2 = Grid.zero ∧
    (∀ a b c : ℤ, roundFloat prec ((roundingFlow prec).u0 a b c) =
      (roundingFlow prec).u0 a b c) := by
  refine ⟨fun a b c h => ?_, rfl, rfl, fun a b c => ?_⟩
  · have hN : ((N : ℕ) : ℤ) = 32 := by decide
    rw [hN] at h
    exact (roundingFlow_u0 prec a b c).2.2 (by omega) (by omega)
  · by_cases h2 : a = 2 ∧ b = 0 ∧ c = 0
    · rw [(roundingFlow_u0 prec a b c).1 h2]
      have := roundFloat_two_zpow prec hp 0
      simpa using this
    · by_cases h1 : a = 1 ∧ b = 0 ∧ c = 0
      · rw [(roundingFlow_u0 prec a b c).2.1 h1]
        exact roundFloat_neg_two_zpow prec hp _
      · rw [(roundingFlow_u0 prec a b c).2.2 h2 h1]
        exact roundFloat_zero prec

/-- C18 as stated fails under the rounding of `FLOAT`, for `double` and for
`float`: the velocity field `roundingFlow` consists of values of the format
and is zero on all six domain faces, but the divergences that the loop of
`project` stores for it sum to `-2^(-48)` in `double` (`-2^(-19)` in `float`),
not to 0, because `1 + 2^(-53)` is rounded to `1`. -/
theorem rounded_divergence_sum_nonzero :
    ((∀ a b c : ℤ, (a = 0 ∨ a = N) → (roundingFlow 53).u0 a b c = 0) ∧
      (roundingFlow 53).u1 = Grid.zero ∧ (roundingFlow 53).u2 = Grid.zero ∧
      (∀ a b c : ℤ, roundFloat 53 ((roundingFlow 53).u0 a b c) = (roundingFlow 53).u0 a b c) ∧
      cellSum N (project_divergence_fl (roundFloat 53) (cellWidth_fl (roundFloat 53) N) N
        (roundingFlow 53) Grid.zero) = -(2 : ℚ) ^ (-48 : ℤ) ∧
      cellSum N (project_divergence_fl (roundFloat 53) (cellWidth_fl (roundFloat 53) N) N
        (roundingFlow 53) Grid.zero) ≠ 0) ∧
    ((∀ a b c : ℤ, (a = 0 ∨ a = N) → (roundingFlow 24).u0 a b c = 0) ∧
      (roundingFlow 24).u1 = Grid.zero ∧ (roundingFlow 24).u2 = Grid.zero ∧
      (∀ a b c : ℤ, roundFloat 24 ((roundingFlow 24).u0 a b c) = (roundingFlow 24).u0 a b c) ∧
      cellSum N (project_divergence_fl (roundFloat 24) (cellWidth_fl (roundFloat 24) N) N
        (roundingFlow 24) Grid.zero) = -(2 : ℚ) ^ (-19 : ℤ) ∧
      cellSum N (project_divergence_fl (roundFloat 24) (cellWidth_fl (roundFloat 24) N) N
        (roundingFlow 24) Grid.zero) ≠ 0) := by
  have w53 := roundingFlow_walls 53 (by norm_num)
  have w24 := roundingFlow_walls 24 (by norm_num)
  have s53 := roundingFlow_sum 53 (by norm_num)
  have s24 := roundingFlow_sum 24 (by norm_num)
  have e53 : (5 : ℤ) - ((53 : ℕ) : ℤ) = -48 := by norm_num
  have e24 : (5 : ℤ) - ((24 : ℕ) : ℤ) = -19 := by norm_num
  rw [e53] at s53
  rw [e24] at s24
  refine ⟨⟨w53.1, w53.2.1, w53.2.2.1, w53.2.2.2, s53, ?_⟩,
    ⟨w24.1, w24.2.1, w24.2.2.1, w24.2.2.2, s24, ?_⟩⟩
  · rw [s53]
    exact neg_ne_zero.mpr (by positivity)
  · rw [s24]
    exact neg_ne_zero.mpr (by positivity)

/-- C18, amended: over exact arithmetic (the rounded divergence sweep with the
identity as rounding), for every velocity field `h` times the sum over all
`N^3` cells of the divergence computed in `project` equals the net outflow
through the domain boundary; in particular, when the normal velocity on all
six domain faces is zero, the divergence field sums to exactly 0. -/
theorem discrete_divergence_theorem (n : ℕ) (s : State) (div0 : Grid) :
    project_divergence_fl (fun x => x) (cellWidth n) n s div0 = project_divergence n s div0 ∧
    cellWidth n * cellSum n (project_divergence n s div0) = boundaryOutflow n s ∧
    ((∀ a b c : ℤ, ((a, b, c) ∈ FOR_EVERY_X_FLOW n ∧ (a = 0 ∨ a = n)) → s.u0 a b c = 0) →
      (∀ a b c : ℤ, ((a, b, c) ∈ FOR_EVERY_Y_FLOW n ∧ (b = 0 ∨ b = n)) → s.u1 a b c = 0) →
      (∀ a b c : ℤ, ((a, b, c) ∈ FOR_EVERY_Z_FLOW n ∧ (c = 0 ∨ c = n)) → s.u2 a b c = 0) →
      cellSum n (project_divergence n s div0) = 0) := by
  have hsum : cellSum n (project_divergence n s div0) =
      lsum (FOR_EVERY_CELL n) (fun x => divergenceAt n s x.1 x.2.1 x.2.2) := by
    unfold cellSum
    apply lsum_congr
    intro x hx
    exact (project_divergence_at n s div0 x.1 x.2.1 x.2.2).1 hx
  have hmain : cellWidth n * cellSum n (project_divergence n s div0) = boundaryOutflow n s := by
    rw [hsum, divergence_sum]
  refine ⟨rfl, hmain, fun hx hy hz => ?_⟩
  rcases Nat.eq_zero_or_pos n with h0 | hn
  · subst h0
    rw [hsum]
    apply lsum_zero
    intro x hx
    rw [FOR_EVERY_CELL, mem_box] at hx
    have := hx.1
    simp only [Nat.cast_zero] at this
    omega
  · have hout : boundaryOutflow n s = 0 := by
      unfold boundaryOutflow
      have mem2 : ∀ jk : ℤ × ℤ, jk ∈ List.product (Int.range 0 n) (Int.range 0 n) →
          (0 ≤ jk.1 ∧ jk.1 < n) ∧ (0 ≤ jk.2 ∧ jk.2 < n) := by
        rintro ⟨j, k⟩ h
        rw [List.pair_mem_product, Int.mem_range_iff, Int.mem_range_iff] at h
        exact h
      have hn' : (0 : ℤ) < n := by exact_mod_cast hn
      rw [lsum_zero _ _ (fun jk h => by
          have hm := mem2 jk h
          rw [hx n jk.1 jk.2 ⟨by rw [(mem_faces n _ _ _).1]; omega,
              Or.inr rfl⟩,
            hx 0 jk.1 jk.2 ⟨by rw [(mem_faces n _ _ _).1]; omega,
              Or.inl rfl⟩, sub_self]),
        lsum_zero _ _ (fun ik h => by
          have hm := mem2 ik h
          rw [hy ik.1 n ik.2 ⟨by rw [(mem_faces n _ _ _).2.1]; omega,
              Or.inr rfl⟩,
            hy ik.1 0 ik.2 ⟨by rw [(mem_faces n _ _ _).2.1]; omega,
              Or.inl rfl⟩, sub_self]),
        lsum_zero _ _ (fun ij h => by
          have hm := mem2 ij h
          rw [hz ij.1 ij.2 n ⟨by rw [(mem_faces n _ _ _).2.2]; omega,
              Or.inr rfl⟩,
            hz ij.1 ij.2 0 ⟨by rw [(mem_faces n _ _ _).2.2]; omega,
              Or.inl rfl⟩, sub_self])]
      ring
    rw [hout] at hmain
    rcases mul_eq_zero.mp hmain with h | h
    · exact absurd h (cellWidth_ne_zero n hn)
    · exact h

/-- Witness for the amended C18: the velocity field of `bumpFlow` vanishes on
the six domain faces, and without rounding its divergence sums to 0. -/
theorem discrete_divergence_theorem_witness :
    cellSum N (project_divergence N bumpFlow Grid.zero) = 0 :=
  (discrete_divergence_theorem N bumpFlow Grid.zero).2.2
    (fun a b c h => (gradientField_walls N _ _ a b c).1 h.2)
    (fun a b c h => (gradientField_walls N _ _ a b c).2.1 h.2)
    (fun a b c h => (gradientField_walls N _ _ a b c).2.2 h.2)

end Smoke3D
